import Mathlib

/-!
Edge stack status update coordinator.

A verification development for
`api/http/handler/edgestacks/edgestack_status_update_coordinator.go`.

The file has two models of the same Go code.

* A *round model* (`getNextUpdate`, `loadEdgeStack`, `loop`, `Start`): one call of
  `loop` as a function of the envelopes its receives on `updateCh` find, in the order
  they find them. It produces the ordered trace of everything the worker does
  (receives, store calls, calls of `statusUpdateFn`, sends on reply channels), the
  envelopes left pending and how the round ended. A nil pointer dereference is an
  ending of its own.
* An *interleaving model* (`Step`, `Reachable`): the calls of `UpdateStatus` and the
  worker inside `loop` as a step relation, one step per channel operation or call, with
  the closing of reply channels and the cancellation of request contexts.

Pointers that may be nil and Go `error` values are options. The store and
`statusUpdateFn` are arbitrary.
-/

namespace EdgeStacks

/-! ## Data model -/

/-- Go `portainer.EdgeStackID` (an `int`). -/
abbrev EdgeStackID := Int

/-- Modelled from the spec: the record type `portainer.EdgeStack` is declared outside
the coordinator file; the spec gives it an identifier and mutable status fields. -/
structure EdgeStack where
  ID : EdgeStackID
  Status : String
deriving DecidableEq, Repr

/-- Go `error` values met by the coordinator. `errorf` is `fmt.Errorf` with one `%w`
verb (text before the verb, wrapped error, text after the verb). `handlerDBErr` is the
value returned by the helper of that name, which is declared outside the coordinator
file and is kept as an uninterpreted wrapper. -/
inductive Error where
  | errObjectNotFound
  | errAnotherStackUpdateInProgress
  | canceled
  | deadlineExceeded
  | other (msg : String)
  | errorf (before : String) (wrapped : Error) (after : String)
  | handlerDBErr (err : Error) (msg : String)
deriving DecidableEq, Repr

/-- Go `errors.Unwrap` on the errors built with `fmt.Errorf` and `%w`. -/
def Error.Unwrap : Error → Option Error
  | .errorf _ e _ => some e
  | _ => none

/-- The `*http.Request` of a call, an uninterpreted token for the coordinator. -/
structure Request where
  tag : Nat
deriving DecidableEq, Repr

/-- The `*portainer.Endpoint` of a call, an uninterpreted token for the coordinator. -/
structure Endpoint where
  ID : Nat
deriving DecidableEq, Repr

/-- Modelled from the spec: the type `updateStatusPayload` is declared outside the
coordinator file; the coordinator only hands it to `statusUpdateFn`. -/
structure updateStatusPayload where
  Status : String
deriving DecidableEq, Repr

/-- A reply channel `chan statusResponse`, identified by a number. -/
abbrev Chan := Nat

/-- Go `statusRequest`. -/
structure statusRequest where
  r : Request
  respCh : Chan
  endpoint : Endpoint
  stackID : EdgeStackID
  payload : updateStatusPayload
deriving DecidableEq, Repr

/-- Go `statusResponse`; a nil `Stack` pointer and a nil `Error` are `none`. -/
structure statusResponse where
  Stack : Option EdgeStack
  Error : Option Error
deriving DecidableEq, Repr

/-- Go `statusUpdateFn`: `(stack, endpoint, r, stackID, payload) ↦ (stack, error)`. -/
abbrev statusUpdateFn :=
  Option EdgeStack → Endpoint → Request → EdgeStackID → updateStatusPayload →
    Option EdgeStack × Option Error

/-- The part of `dataservices` the coordinator uses, as results of its calls:
`tx.EdgeStack().EdgeStack(id)`, `tx.EdgeStack().UpdateEdgeStack(id, stack)` and the
predicate `dataservices.IsErrObjectNotFound`. All three are declared outside the
coordinator file and are arbitrary here. -/
structure DataStore where
  EdgeStack : EdgeStackID → Option EdgeStack × Option Error
  UpdateEdgeStack : EdgeStackID → EdgeStacks.EdgeStack → Option Error
  IsErrObjectNotFound : Error → Bool

/-- Go `EdgeStackStatusUpdateCoordinator` without its channel: the channel content is
threaded explicitly through the functions below. -/
structure EdgeStackStatusUpdateCoordinator where
  dataStore : DataStore
  statusUpdateFn : statusUpdateFn

/-- What the worker does, in order. -/
inductive Event where
  /-- The worker received `u` from `updateCh`. -/
  | recv (u : statusRequest)
  /-- Call `tx.EdgeStack().EdgeStack(stackID)`. -/
  | load (stackID : EdgeStackID)
  /-- Call `statusUpdateFn(stack, u.endpoint, u.r, stackID, u.payload)`. -/
  | merge (stack : Option EdgeStack) (u : statusRequest) (stackID : EdgeStackID)
  /-- Call `tx.EdgeStack().UpdateEdgeStack(stackID, stack)`. -/
  | save (stackID : EdgeStackID) (stack : EdgeStack)
  /-- Send `resp` on the reply channel `ch`. -/
  | send (ch : Chan) (resp : statusResponse)
deriving DecidableEq, Repr

/-- The response sent to an envelope of another stack (line 125). -/
def busyResponse : statusResponse :=
  ⟨none, some Error.errAnotherStackUpdateInProgress⟩

/-! ## Round model -/

/-- Go `loadEdgeStack` (lines 100–117), applied to the store of the transaction. -/
def loadEdgeStack (tx : DataStore) (stackID : EdgeStackID) : Option EdgeStack × Option Error :=
  match tx.EdgeStack stackID with
  | (_, some err) =>
    if tx.IsErrObjectNotFound err then (none, none)
    else (none, some (Error.errorf "unable to retrieve Edge stack from the database: " err "."))
  | (stack, none) => (stack, none)

/-- Go `getNextUpdate` (lines 119–136) on the envelopes pending on `updateCh`, oldest
first. The non-blocking receive takes the head of the list; the `default` case is the
empty list. Returns the Go pair `(u, true)` as `some u` and `(statusRequest{}, false)`
as `none`, together with the envelopes still pending and the extended trace. -/
def getNextUpdate (stackID : EdgeStackID) :
    List statusRequest → List Event → Option statusRequest × List statusRequest × List Event
  | [], tr => (none, [], tr)
  | u :: q, tr =>
    if u.stackID ≠ stackID then
      getNextUpdate stackID q (tr ++ [Event.recv u, Event.send u.respCh busyResponse])
    else
      (some u, q, tr ++ [Event.recv u])

/-- How a piece of the transaction closure was left. -/
inductive Exit where
  /-- The closure returned this error value (`none` is Go `nil`). -/
  | ret (err : Option Error)
  /-- The `for` loop was left by `break`. -/
  | brk
  /-- A nil pointer was dereferenced: runtime panic. -/
  | nilDeref
  /-- The iteration bound of the model was used up. -/
  | exhausted
deriving DecidableEq, Repr

/-- Variables captured by the transaction closure, the channel and the trace. -/
structure Tx where
  stack : Option EdgeStack
  respChs : List Chan
  updateCh : List statusRequest
  trace : List Event
  exit : Exit
deriving DecidableEq, Repr

/-- The `for` loop of lines 71–84. The first argument bounds the number of iterations. -/
def forLoop (c : EdgeStackStatusUpdateCoordinator) :
    Nat → Option EdgeStack → statusRequest → List Chan → List statusRequest → List Event → Tx
  | 0, stack, _, respChs, q, tr => ⟨stack, respChs, q, tr, Exit.exhausted⟩
  | fuel + 1, stack, u, respChs, q, tr =>
    match stack with
    | none => ⟨none, respChs, q, tr, Exit.nilDeref⟩
    | some s =>
      match c.statusUpdateFn (some s) u.endpoint u.r s.ID u.payload with
      | (stack1, some err) =>
        ⟨stack1, respChs, q, tr ++ [Event.merge (some s) u s.ID], Exit.ret (some err)⟩
      | (none, none) =>
        ⟨none, respChs, q, tr ++ [Event.merge (some s) u s.ID], Exit.nilDeref⟩
      | (some s1, none) =>
        match getNextUpdate s1.ID q (tr ++ [Event.merge (some s) u s.ID]) with
        | (some m, q2, tr2) => forLoop c fuel (some s1) m (respChs ++ [m.respCh]) q2 tr2
        | (none, q2, tr2) => ⟨some s1, respChs, q2, tr2, Exit.brk⟩

/-- The closure handed to `UpdateTx` (lines 61–92), for seed envelope `u`: the read, the
`for` loop, and after a `break` the save of line 87, which reads `stack.ID`. -/
def txBody (c : EdgeStackStatusUpdateCoordinator) (u : statusRequest)
    (q : List statusRequest) (tr : List Event) : Tx :=
  match loadEdgeStack c.dataStore u.stackID with
  | (stack, some err) => ⟨stack, [u.respCh], q, tr ++ [Event.load u.stackID], Exit.ret (some err)⟩
  | (stack, none) =>
    let t := forLoop c (q.length + 1) stack u [u.respCh] q (tr ++ [Event.load u.stackID])
    match t.exit with
    | Exit.brk =>
      match t.stack with
      | none => { t with exit := Exit.nilDeref }
      | some s =>
        match c.dataStore.UpdateEdgeStack s.ID s with
        | some err =>
          { t with
            trace := t.trace ++ [Event.save s.ID s]
            exit := Exit.ret (some (Error.handlerDBErr
              (Error.errorf "unable to update Edge stack: " err ".")
              "Unable to persist the stack changes inside the database")) }
        | none => { t with trace := t.trace ++ [Event.save s.ID s], exit := Exit.ret none }
    | _ => t

/-- Modelled from the spec: `dataStore.UpdateTx` is declared outside the coordinator
file; per the spec it runs the closure inside a transaction and hands back the error
the closure returned. -/
def UpdateTx (body : Tx) : Tx := body

/-- How a call of `loop` ended. -/
inductive Ending where
  /-- Every reply was sent and `loop` returned. -/
  | returned
  /-- A runtime panic left `loop` before the replies were sent. -/
  | panicked
  /-- No envelope is pending: the receive of line 55 blocks. -/
  | blocked
  /-- The iteration bound of the model was used up. -/
  | exhausted
deriving DecidableEq, Repr

/-- The result of one call of `loop`. -/
structure Round where
  updateCh : List statusRequest
  trace : List Event
  ending : Ending
deriving DecidableEq, Repr

/-- Go `loop` (lines 54–98) on the envelopes pending on `updateCh`, oldest first. -/
def loop (c : EdgeStackStatusUpdateCoordinator) : List statusRequest → Round
  | [] => ⟨[], [], Ending.blocked⟩
  | u :: q =>
    let t := UpdateTx (txBody c u q [Event.recv u])
    match t.exit with
    | Exit.ret err =>
      ⟨t.updateCh, t.trace ++ t.respChs.map (fun ch => Event.send ch ⟨t.stack, err⟩),
        Ending.returned⟩
    | Exit.exhausted => ⟨t.updateCh, t.trace, Ending.exhausted⟩
    | _ => ⟨t.updateCh, t.trace, Ending.panicked⟩

/-- Go `Start` (lines 48–52): call `loop` again and again. The run stops when a round
does not return; the first argument bounds the number of rounds. -/
def Start (c : EdgeStackStatusUpdateCoordinator) : Nat → List statusRequest → Round
  | 0, q => ⟨q, [], Ending.exhausted⟩
  | rounds + 1, q =>
    let r := loop c q
    match r.ending with
    | Ending.returned =>
      let rest := Start c rounds r.updateCh
      ⟨rest.updateCh, r.trace ++ rest.trace, rest.ending⟩
    | _ => r

/-! ## Views of a trace -/

/-- The send of an event, if it is one. -/
def Event.asSend : Event → Option (Chan × statusResponse)
  | Event.send ch resp => some (ch, resp)
  | _ => none

/-- The arguments of a call of `UpdateEdgeStack`, if the event is one. -/
def Event.asSave : Event → Option (EdgeStackID × EdgeStack)
  | Event.save stackID stack => some (stackID, stack)
  | _ => none

/-- The arguments of a call of `statusUpdateFn`, if the event is one. -/
def Event.asMerge : Event → Option (Option EdgeStack × statusRequest × EdgeStackID)
  | Event.merge stack u stackID => some (stack, u, stackID)
  | _ => none

/-- The envelope received, if the event is a receive. -/
def Event.asRecv : Event → Option statusRequest
  | Event.recv u => some u
  | _ => none

/-- Every send on a reply channel, in order. -/
def sends (tr : List Event) : List (Chan × statusResponse) := tr.filterMap Event.asSend

/-- The arguments of the calls of `UpdateEdgeStack`, in order. -/
def saves (tr : List Event) : List (EdgeStackID × EdgeStack) := tr.filterMap Event.asSave

/-- The arguments of the calls of `statusUpdateFn`, in order. -/
def mergeCalls (tr : List Event) : List (Option EdgeStack × statusRequest × EdgeStackID) :=
  tr.filterMap Event.asMerge

/-- The envelopes the worker received from `updateCh`, in order. -/
def received (tr : List Event) : List statusRequest := tr.filterMap Event.asRecv

/-- The responses sent on channel `ch`, in order. -/
def replies (ch : Chan) (tr : List Event) : List statusResponse :=
  ((sends tr).filter (fun p => p.1 = ch)).map Prod.snd

/-- The envelopes whose fields were passed to `statusUpdateFn`, in order. -/
def merged (tr : List Event) : List statusRequest := (mergeCalls tr).map (fun p => p.2.1)

/-- Every call of `statusUpdateFn` recorded in the trace returned a nil error. -/
def NoFail (c : EdgeStackStatusUpdateCoordinator) (tr : List Event) : Prop :=
  ∀ s u stackID, Event.merge s u stackID ∈ tr →
    (c.statusUpdateFn s u.endpoint u.r stackID u.payload).2 = none

/-- The events of `getNextUpdate` for envelopes of another stack: each is received and
answered with the busy response. -/
def busyTrace : List statusRequest → List Event
  | [] => []
  | u :: q => Event.recv u :: Event.send u.respCh busyResponse :: busyTrace q

/-! ## Pieces of a round, used in the proofs -/

/-- The events of the broadcast of lines 95–97. -/
def broadcast (respChs : List Chan) (stack : Option EdgeStack) (err : Option Error) :
    List Event :=
  respChs.map (fun ch => Event.send ch ⟨stack, err⟩)

/-- One merge in the spec's words: the record returned by `statusUpdateFn` for the
current record and one envelope. -/
def mergeStep (c : EdgeStackStatusUpdateCoordinator) (stackID : EdgeStackID)
    (stack : Option EdgeStack) (u : statusRequest) : Option EdgeStack :=
  (c.statusUpdateFn stack u.endpoint u.r stackID u.payload).1

/-- The calls of `statusUpdateFn` of a left fold over the envelopes: merge N+1 receives
the record returned by merge N. -/
def foldCalls (c : EdgeStackStatusUpdateCoordinator) (stackID : EdgeStackID) :
    Option EdgeStack → List statusRequest → List (Option EdgeStack × statusRequest × EdgeStackID)
  | _, [] => []
  | acc, m :: ms => (acc, m, stackID) :: foldCalls c stackID (mergeStep c stackID acc m) ms

/-- The events of a `for` loop that merges `u` and then every envelope of the list. -/
def coalesceTrace (c : EdgeStackStatusUpdateCoordinator) (stackID : EdgeStackID) :
    Option EdgeStack → statusRequest → List statusRequest → List Event
  | acc, u, [] => [Event.merge acc u stackID]
  | acc, u, m :: ms =>
    Event.merge acc u stackID :: Event.recv m ::
      coalesceTrace c stackID (mergeStep c stackID acc u) m ms

/-- The same outcome with a trace put in front. -/
def Tx.shift (tr : List Event) (t : Tx) : Tx := { t with trace := tr ++ t.trace }

/-- What `loop` does once the `for` loop is left: the save of line 87 after a `break`,
the end of the transaction, and the broadcast of lines 95–97. -/
def finish (c : EdgeStackStatusUpdateCoordinator) (t : Tx) : Round :=
  match t.exit with
  | Exit.ret err => ⟨t.updateCh, t.trace ++ broadcast t.respChs t.stack err, Ending.returned⟩
  | Exit.brk =>
    match t.stack with
    | none => ⟨t.updateCh, t.trace, Ending.panicked⟩
    | some s =>
      ⟨t.updateCh, t.trace ++ [Event.save s.ID s] ++ broadcast t.respChs (some s)
        ((c.dataStore.UpdateEdgeStack s.ID s).map (fun err => Error.handlerDBErr
          (Error.errorf "unable to update Edge stack: " err ".")
          "Unable to persist the stack changes inside the database")), Ending.returned⟩
  | Exit.nilDeref => ⟨t.updateCh, t.trace, Ending.panicked⟩
  | Exit.exhausted => ⟨t.updateCh, t.trace, Ending.exhausted⟩

/-- The `for` loop from line 77 on, holding the record `s`: the call of
`getNextUpdate(stack.ID)` and what follows it. -/
def resume (c : EdgeStackStatusUpdateCoordinator) (fuel : Nat) (s : EdgeStack)
    (respChs : List Chan) (q : List statusRequest) (tr : List Event) : Tx :=
  match getNextUpdate s.ID q tr with
  | (some m, q2, tr2) => forLoop c fuel (some s) m (respChs ++ [m.respCh]) q2 tr2
  | (none, q2, tr2) => ⟨some s, respChs, q2, tr2, Exit.brk⟩

/-- The record the round holds after the events `tr`: the record returned by the latest
call of `statusUpdateFn`, which line 72 assigns to `stack`; `none` before the first
call. -/
def latestMerged (c : EdgeStackStatusUpdateCoordinator) (tr : List Event) : Option EdgeStack :=
  tr.foldl (fun acc ev =>
    match ev with
    | Event.merge s u stackID => (c.statusUpdateFn s u.endpoint u.r stackID u.payload).1
    | _ => acc) none

/-! ## Concrete collaborators used in examples -/

/-- A store holding one stack, id 5 with status `pending`; every other id is reported
as not found. Saving always succeeds. -/
def demoStore : DataStore where
  EdgeStack := fun stackID =>
    if stackID = 5 then (some ⟨5, "pending"⟩, none) else (none, some Error.errObjectNotFound)
  UpdateEdgeStack := fun _ _ => none
  IsErrObjectNotFound := fun e => decide (e = Error.errObjectNotFound)

/-- A store whose read fails with an error that is not a not-found error. -/
def brokenStore : DataStore where
  EdgeStack := fun _ => (none, some (Error.other "database is closed"))
  UpdateEdgeStack := fun _ _ => none
  IsErrObjectNotFound := fun e => decide (e = Error.errObjectNotFound)

/-- A merge that copies the status of the payload into the record; the payload status
`boom` makes it fail. It does not accept a nil record. -/
def setStatus : statusUpdateFn := fun stack _ _ _ payload =>
  match stack with
  | some s =>
    if payload.Status = "boom" then (some s, some (Error.other "boom"))
    else (some { s with Status := payload.Status }, none)
  | none => (none, some (Error.other "no stack"))

/-- A merge that renumbers the record: the record it returns has the next id. -/
def renumber : statusUpdateFn := fun stack _ _ _ payload =>
  match stack with
  | some s => (some ⟨s.ID + 1, payload.Status⟩, none)
  | none => (none, some (Error.other "no stack"))

/-- The envelope of a call with reply channel `ch` for stack `stackID`. -/
def envelope (ch : Chan) (stackID : EdgeStackID) (status : String) : statusRequest :=
  ⟨⟨ch⟩, ch, ⟨1⟩, stackID, ⟨status⟩⟩

/-! ## Interleaving model -/

/-- Where a call of `UpdateStatus` (lines 138–166) stands. -/
inductive CallerPC where
  /-- Lines 146–155 ran: the reply channel exists, the envelope is built, the `select` of
  line 157 is not entered yet. -/
  | entered
  /-- Blocked in the `select` of line 157; no case has fired. -/
  | selecting
  /-- The send of line 158 fired (hand-off): the call is at the receive of line 159. -/
  | awaiting
  /-- The receive of line 159 delivered `resp`; the deferred `close` has not run. -/
  | replied (resp : statusResponse)
  /-- The `Done` case of line 163 fired with context error `err`; the deferred `close`
  has not run. -/
  | cancelled (err : Error)
  /-- The deferred `close(respCh)` ran and the call returned `(stack, err)`. -/
  | returned (stack : Option EdgeStack) (err : Option Error)
deriving DecidableEq, Repr

/-- One call of `UpdateStatus`: its envelope, the error of its request context (`none`
while the context is not done) and where it stands. Its reply channel is closed exactly
when it has returned. -/
structure Caller where
  msg : statusRequest
  ctxErr : Option Error
  pc : CallerPC
deriving DecidableEq, Repr

/-- The runtime panics the worker can meet. -/
inductive Crash where
  | nilDeref
  | sendOnClosed
deriving DecidableEq, Repr

/-- Where the worker stands inside `loop` (lines 54–98). -/
inductive WorkerPC where
  /-- Blocked on the receive of line 55. -/
  | idle
  /-- Inside the transaction, before `loadEdgeStack` (line 65). -/
  | loading (u : statusRequest) (respChs : List Chan)
  /-- Before the call of `statusUpdateFn` of line 72. -/
  | merging (u : statusRequest) (respChs : List Chan) (stack : Option EdgeStack)
  /-- In the `select` of `getNextUpdate(stack.ID)` (lines 77, 121). -/
  | draining (respChs : List Chan) (stack : EdgeStack)
  /-- Before the send of the busy response to `x` (line 125). -/
  | rejecting (x : statusRequest) (respChs : List Chan) (stack : EdgeStack)
  /-- Before the call of `UpdateEdgeStack` of line 87. -/
  | saving (respChs : List Chan) (stack : EdgeStack)
  /-- In the broadcast of lines 95–97, with the channels still to serve. -/
  | broadcasting (todo : List Chan) (stack : Option EdgeStack) (err : Option Error)
  /-- The worker goroutine panicked. -/
  | crashed (why : Crash)
deriving DecidableEq, Repr

/-- The callers, by reply channel, the worker and the history of what the worker did. -/
structure System where
  callers : Chan → Option Caller
  worker : WorkerPC
  log : List Event

/-- No call was made and the worker waits for its first envelope. -/
def System.init : System := ⟨fun _ => none, WorkerPC.idle, []⟩

/-- The system after the call on channel `ch` became `clr`. -/
def System.put (s : System) (ch : Chan) (clr : Caller) : System :=
  { s with callers := Function.update s.callers ch (some clr) }

/-- The system after the call on channel `ch` moved to `pc`. -/
def System.move (s : System) (ch : Chan) (clr : Caller) (pc : CallerPC) : System :=
  s.put ch { clr with pc := pc }

/-- The system after the worker moved to `w`, doing `ev`. -/
def System.work (s : System) (w : WorkerPC) (ev : List Event) : System :=
  { s with worker := w, log := s.log ++ ev }

/-- The worker after `loadEdgeStack` returned `res` (lines 65–68). -/
def afterLoad (u : statusRequest) (respChs : List Chan)
    (res : Option EdgeStack × Option Error) : WorkerPC :=
  match res with
  | (stack, some err) => WorkerPC.broadcasting respChs stack (some err)
  | (stack, none) => WorkerPC.merging u respChs stack

/-- The worker after `statusUpdateFn`, called at line 72 on a record, answered `res`:
on success the returned record is dereferenced for `stack.ID` at line 77. -/
def afterMerge (respChs : List Chan) (res : Option EdgeStack × Option Error) : WorkerPC :=
  match res with
  | (stack1, some err) => WorkerPC.broadcasting respChs stack1 (some err)
  | (none, none) => WorkerPC.crashed Crash.nilDeref
  | (some s1, none) => WorkerPC.draining respChs s1

/-- The worker after the receive of `getNextUpdate` delivered `m` (lines 122–130, 78,
83). -/
def afterDrain (respChs : List Chan) (stack : EdgeStack) (m : statusRequest) : WorkerPC :=
  if m.stackID ≠ stack.ID then WorkerPC.rejecting m respChs stack
  else WorkerPC.merging m (respChs ++ [m.respCh]) (some stack)

/-- The worker after `UpdateEdgeStack` returned `res` (lines 87–91). -/
def afterSave (respChs : List Chan) (stack : EdgeStack) (res : Option Error) : WorkerPC :=
  match res with
  | some err => WorkerPC.broadcasting respChs (some stack)
      (some (Error.handlerDBErr (Error.errorf "unable to update Edge stack: " err ".")
        "Unable to persist the stack changes inside the database"))
  | none => WorkerPC.broadcasting respChs (some stack) none

/-- One step of one goroutine. The answers of the store and of `statusUpdateFn` are
arbitrary at every call. A send on a reply channel needs its receiver blocked on line
159, and panics when the channel is closed. -/
inductive Step : System → System → Prop where
  /-- A goroutine calls `UpdateStatus`: fresh channel, envelope built (lines 146–155). -/
  | call (s : System) (msg : statusRequest) :
      s.callers msg.respCh = none →
      Step s (s.put msg.respCh ⟨msg, none, CallerPC.entered⟩)
  /-- The call blocks in the `select` of line 157. -/
  | enterSelect (s : System) (ch : Chan) (clr : Caller) :
      s.callers ch = some clr → clr.pc = CallerPC.entered →
      Step s (s.move ch clr CallerPC.selecting)
  /-- The request context of a call becomes done, with error `err`. -/
  | ctxDone (s : System) (ch : Chan) (clr : Caller) (err : Error) :
      s.callers ch = some clr → clr.ctxErr = none →
      Step s (s.put ch { clr with ctxErr := some err })
  /-- The `Done` case of the `select` fires (line 163). -/
  | abandon (s : System) (ch : Chan) (clr : Caller) (err : Error) :
      s.callers ch = some clr → clr.pc = CallerPC.selecting → clr.ctxErr = some err →
      Step s (s.move ch clr (CallerPC.cancelled err))
  /-- Return after a reply: `return r.Stack, r.Error`, then the deferred `close`. -/
  | returnReply (s : System) (ch : Chan) (clr : Caller) (resp : statusResponse) :
      s.callers ch = some clr → clr.pc = CallerPC.replied resp →
      Step s (s.move ch clr (CallerPC.returned resp.Stack resp.Error))
  /-- Return after cancellation: `return nil, r.Context().Err()`, then the deferred
  `close`. -/
  | returnCancelled (s : System) (ch : Chan) (clr : Caller) (err : Error) :
      s.callers ch = some clr → clr.pc = CallerPC.cancelled err →
      Step s (s.move ch clr (CallerPC.returned none (some err)))
  /-- Line 55 meets the send of a call blocked in its `select`: hand-off of the seed. -/
  | recvSeed (s : System) (ch : Chan) (clr : Caller) :
      s.worker = WorkerPC.idle → s.callers ch = some clr → clr.pc = CallerPC.selecting →
      Step s ((s.move ch clr CallerPC.awaiting).work
        (WorkerPC.loading clr.msg [clr.msg.respCh]) [Event.recv clr.msg])
  /-- Line 65: `loadEdgeStack` on the store as it is now. -/
  | load (s : System) (u : statusRequest) (respChs : List Chan) (tx : DataStore) :
      s.worker = WorkerPC.loading u respChs →
      Step s (s.work (afterLoad u respChs (loadEdgeStack tx u.stackID))
        [Event.load u.stackID])
  /-- Line 72 on a nil record: `stack.ID` panics before `statusUpdateFn` is called. -/
  | mergeNil (s : System) (u : statusRequest) (respChs : List Chan) :
      s.worker = WorkerPC.merging u respChs none →
      Step s (s.work (WorkerPC.crashed Crash.nilDeref) [])
  /-- Line 72 on a record: `statusUpdateFn` is called and answers `res`. -/
  | merge (s : System) (u : statusRequest) (respChs : List Chan) (stack : EdgeStack)
      (res : Option EdgeStack × Option Error) :
      s.worker = WorkerPC.merging u respChs (some stack) →
      Step s (s.work (afterMerge respChs res)
        [Event.merge (some stack) u stack.ID])
  /-- Line 122: the receive of `getNextUpdate` meets the send of a call blocked in its
  `select`. -/
  | drainRecv (s : System) (respChs : List Chan) (stack : EdgeStack) (ch : Chan)
      (clr : Caller) :
      s.worker = WorkerPC.draining respChs stack → s.callers ch = some clr →
      clr.pc = CallerPC.selecting →
      Step s ((s.move ch clr CallerPC.awaiting).work
        (afterDrain respChs stack clr.msg) [Event.recv clr.msg])
  /-- Line 132: no call is blocked in its `select`, the `default` case fires. -/
  | drainDefault (s : System) (respChs : List Chan) (stack : EdgeStack) :
      s.worker = WorkerPC.draining respChs stack →
      (∀ ch clr, s.callers ch = some clr → clr.pc ≠ CallerPC.selecting) →
      Step s (s.work (WorkerPC.saving respChs stack) [])
  /-- Line 125: the busy response is received by the call of `x`. -/
  | rejectSend (s : System) (x : statusRequest) (respChs : List Chan) (stack : EdgeStack)
      (clr : Caller) :
      s.worker = WorkerPC.rejecting x respChs stack → s.callers x.respCh = some clr →
      clr.pc = CallerPC.awaiting →
      Step s ((s.move x.respCh clr (CallerPC.replied busyResponse)).work
        (WorkerPC.draining respChs stack) [Event.send x.respCh busyResponse])
  /-- Line 125 on a closed channel: panic. -/
  | rejectClosed (s : System) (x : statusRequest) (respChs : List Chan) (stack : EdgeStack)
      (clr : Caller) (st : Option EdgeStack) (err : Option Error) :
      s.worker = WorkerPC.rejecting x respChs stack → s.callers x.respCh = some clr →
      clr.pc = CallerPC.returned st err →
      Step s (s.work (WorkerPC.crashed Crash.sendOnClosed) [])
  /-- Line 87: `UpdateEdgeStack` on the store as it is now. -/
  | save (s : System) (respChs : List Chan) (stack : EdgeStack) (tx : DataStore) :
      s.worker = WorkerPC.saving respChs stack →
      Step s (s.work (afterSave respChs stack (tx.UpdateEdgeStack stack.ID stack))
        [Event.save stack.ID stack])
  /-- Line 96: the outcome is received by the call of the next channel. -/
  | replySend (s : System) (ch : Chan) (todo : List Chan) (stack : Option EdgeStack)
      (err : Option Error) (clr : Caller) :
      s.worker = WorkerPC.broadcasting (ch :: todo) stack err → s.callers ch = some clr →
      clr.pc = CallerPC.awaiting →
      Step s ((s.move ch clr (CallerPC.replied ⟨stack, err⟩)).work
        (WorkerPC.broadcasting todo stack err) [Event.send ch ⟨stack, err⟩])
  /-- Line 96 on a closed channel: panic. -/
  | replyClosed (s : System) (ch : Chan) (todo : List Chan) (stack : Option EdgeStack)
      (err : Option Error) (clr : Caller) (st : Option EdgeStack) (e : Option Error) :
      s.worker = WorkerPC.broadcasting (ch :: todo) stack err → s.callers ch = some clr →
      clr.pc = CallerPC.returned st e →
      Step s (s.work (WorkerPC.crashed Crash.sendOnClosed) [])
  /-- Line 98: `loop` returns and `Start` calls it again. -/
  | nextRound (s : System) (stack : Option EdgeStack) (err : Option Error) :
      s.worker = WorkerPC.broadcasting [] stack err →
      Step s (s.work WorkerPC.idle [])

/-- The states the system can be in. -/
inductive Reachable : System → Prop where
  | init : Reachable System.init
  | step (s t : System) : Reachable s → Step s t → Reachable t

/-! ## The invariant of the interleaving model -/

/-- The reply channels the worker still has to send on. -/
def owed : WorkerPC → List Chan
  | WorkerPC.idle => []
  | WorkerPC.loading _ respChs => respChs
  | WorkerPC.merging _ respChs _ => respChs
  | WorkerPC.draining respChs _ => respChs
  | WorkerPC.rejecting x respChs _ => x.respCh :: respChs
  | WorkerPC.saving respChs _ => respChs
  | WorkerPC.broadcasting todo _ _ => todo
  | WorkerPC.crashed _ => []

/-- The envelope in the worker's variable `u`, when it is about to be used. -/
def held : WorkerPC → List statusRequest
  | WorkerPC.loading u _ => [u]
  | WorkerPC.merging u _ _ => [u]
  | WorkerPC.rejecting x _ _ => [x]
  | _ => []

/-- What the history says about one call, by where the call stands. -/
def CallerOK (log : List Event) (ch : Chan) (clr : Caller) : Prop :=
  clr.msg.respCh = ch ∧
  match clr.pc with
  | CallerPC.entered => clr.msg ∉ received log
  | CallerPC.selecting => clr.msg ∉ received log
  | CallerPC.cancelled e => clr.msg ∉ received log ∧ clr.ctxErr = some e
  | CallerPC.awaiting => clr.msg ∈ received log ∧ replies ch log = []
  | CallerPC.replied resp => clr.msg ∈ received log ∧ replies ch log = [resp]
  | CallerPC.returned st err =>
    (clr.msg ∉ received log ∧ st = none ∧ err = clr.ctxErr ∧ clr.ctxErr ≠ none) ∨
    (clr.msg ∈ received log ∧ replies ch log = [⟨st, err⟩])

/-- The invariant of the callers-plus-worker system. -/
structure Inv (s : System) : Prop where
  callers_ok : ∀ ch clr, s.callers ch = some clr → CallerOK s.log ch clr
  owed_awaiting : ∀ ch ∈ owed s.worker, ∃ clr, s.callers ch = some clr ∧
    clr.pc = CallerPC.awaiting
  owed_nodup : (owed s.worker).Nodup
  held_received : ∀ u ∈ held s.worker, u ∈ received s.log
  received_known : ∀ u ∈ received s.log, ∃ clr, s.callers u.respCh = some clr ∧ clr.msg = u
  sends_received : ∀ p ∈ sends s.log, ∃ u ∈ received s.log, u.respCh = p.1
  merged_received : ∀ u ∈ merged s.log, u ∈ received s.log
  not_sendOnClosed : s.worker ≠ WorkerPC.crashed Crash.sendOnClosed
  awaiting_owed : ∀ ch clr, s.callers ch = some clr → clr.pc = CallerPC.awaiting →
    ch ∈ owed s.worker ∨ s.worker = WorkerPC.crashed Crash.nilDeref

/-! ## Two runs of the interleaving model -/

/-- One call for stack 5, after lines 146–155. -/
def runEntered : System :=
  System.init.put 0 ⟨envelope 0 5 "ok1", none, CallerPC.entered⟩

/-- The call is blocked in its `select`. -/
def runSelecting : System :=
  runEntered.move 0 ⟨envelope 0 5 "ok1", none, CallerPC.entered⟩ CallerPC.selecting

/-- The request context is cancelled while the call is in its `select`. -/
def runCtxDone : System :=
  runSelecting.put 0 ⟨envelope 0 5 "ok1", some Error.canceled, CallerPC.selecting⟩

/-- The `Done` case fires. -/
def runAbandoned : System :=
  runCtxDone.move 0 ⟨envelope 0 5 "ok1", some Error.canceled, CallerPC.selecting⟩
    (CallerPC.cancelled Error.canceled)

/-- The cancelled call has returned. -/
def runCancelled : System :=
  runAbandoned.move 0
    ⟨envelope 0 5 "ok1", some Error.canceled, CallerPC.cancelled Error.canceled⟩
    (CallerPC.returned none (some Error.canceled))

/-- The worker took the envelope of the call as the seed of a round. -/
def runSeeded : System :=
  (runSelecting.move 0 ⟨envelope 0 5 "ok1", none, CallerPC.selecting⟩ CallerPC.awaiting).work
    (WorkerPC.loading (envelope 0 5 "ok1") [(envelope 0 5 "ok1").respCh])
    [Event.recv (envelope 0 5 "ok1")]

/-- The worker read stack 5 from `demoStore`. -/
def runLoaded : System :=
  runSeeded.work
    (afterLoad (envelope 0 5 "ok1") [(envelope 0 5 "ok1").respCh]
      (loadEdgeStack demoStore (envelope 0 5 "ok1").stackID))
    [Event.load (envelope 0 5 "ok1").stackID]

/-- The worker merged the payload with `setStatus`. -/
def runMerged : System :=
  runLoaded.work
    (afterMerge [0] (setStatus (some ⟨5, "pending"⟩) (envelope 0 5 "ok1").endpoint
      (envelope 0 5 "ok1").r 5 (envelope 0 5 "ok1").payload))
    [Event.merge (some ⟨5, "pending"⟩) (envelope 0 5 "ok1") (5 : EdgeStackID)]

/-- The drain found no other call. -/
def runDrained : System :=
  runMerged.work (WorkerPC.saving [0] ⟨5, "ok1"⟩) []

/-- The worker saved the record. -/
def runSaved : System :=
  runDrained.work
    (afterSave [0] ⟨5, "ok1"⟩ (demoStore.UpdateEdgeStack (5 : EdgeStackID) ⟨5, "ok1"⟩))
    [Event.save (5 : EdgeStackID) ⟨5, "ok1"⟩]

/-- The worker sent the outcome and the call received it. -/
def runAnswered : System :=
  (runSaved.move 0 ⟨envelope 0 5 "ok1", none, CallerPC.awaiting⟩
    (CallerPC.replied ⟨some ⟨5, "ok1"⟩, none⟩)).work
    (WorkerPC.broadcasting [] (some ⟨5, "ok1"⟩) none)
    [Event.send 0 ⟨some ⟨5, "ok1"⟩, none⟩]

/-- The answered call has returned and closed its reply channel. -/
def runReturned : System :=
  runAnswered.move 0
    ⟨envelope 0 5 "ok1", none, CallerPC.replied ⟨some ⟨5, "ok1"⟩, none⟩⟩
    (CallerPC.returned (some ⟨5, "ok1"⟩) none)

/-- One call for the missing stack 7, after lines 146–155. -/
def lostEntered : System :=
  System.init.put 0 ⟨envelope 0 7 "ok1", none, CallerPC.entered⟩

/-- The call for stack 7 is blocked in its `select`. -/
def lostSelecting : System :=
  lostEntered.move 0 ⟨envelope 0 7 "ok1", none, CallerPC.entered⟩ CallerPC.selecting

/-- The worker took the envelope for stack 7 as the seed of a round. -/
def lostSeeded : System :=
  (lostSelecting.move 0 ⟨envelope 0 7 "ok1", none, CallerPC.selecting⟩ CallerPC.awaiting).work
    (WorkerPC.loading (envelope 0 7 "ok1") [(envelope 0 7 "ok1").respCh])
    [Event.recv (envelope 0 7 "ok1")]

/-- The worker read stack 7 from `demoStore`: not found, `loadEdgeStack` returns
`(nil, nil)`. -/
def lostLoaded : System :=
  lostSeeded.work
    (afterLoad (envelope 0 7 "ok1") [(envelope 0 7 "ok1").respCh]
      (loadEdgeStack demoStore (envelope 0 7 "ok1").stackID))
    [Event.load (envelope 0 7 "ok1").stackID]

/-- Line 72 read `stack.ID` on the nil record: the worker panicked. -/
def lostCrashed : System :=
  lostLoaded.work (WorkerPC.crashed Crash.nilDeref) []

/-! ## Lemmas on traces -/

@[simp] theorem sends_nil : sends [] = [] := rfl

@[simp] theorem sends_recv (u : statusRequest) (tr : List Event) :
    sends (Event.recv u :: tr) = sends tr := rfl

@[simp] theorem sends_load (stackID : EdgeStackID) (tr : List Event) :
    sends (Event.load stackID :: tr) = sends tr := rfl

@[simp] theorem sends_merge (stack : Option EdgeStack) (u : statusRequest) (stackID : EdgeStackID) (tr : List Event) :
    sends (Event.merge stack u stackID :: tr) = sends tr := rfl

@[simp] theorem sends_save (stackID : EdgeStackID) (stack : EdgeStack) (tr : List Event) :
    sends (Event.save stackID stack :: tr) = sends tr := rfl

@[simp] theorem sends_send (ch : Chan) (resp : statusResponse) (tr : List Event) :
    sends (Event.send ch resp :: tr) = (ch, resp) :: sends tr := rfl

@[simp] theorem saves_nil : saves [] = [] := rfl

@[simp] theorem saves_recv (u : statusRequest) (tr : List Event) :
    saves (Event.recv u :: tr) = saves tr := rfl

@[simp] theorem saves_load (stackID : EdgeStackID) (tr : List Event) :
    saves (Event.load stackID :: tr) = saves tr := rfl

@[simp] theorem saves_merge (stack : Option EdgeStack) (u : statusRequest) (stackID : EdgeStackID) (tr : List Event) :
    saves (Event.merge stack u stackID :: tr) = saves tr := rfl

@[simp] theorem saves_save (stackID : EdgeStackID) (stack : EdgeStack) (tr : List Event) :
    saves (Event.save stackID stack :: tr) = (stackID, stack) :: saves tr := rfl

@[simp] theorem saves_send (ch : Chan) (resp : statusResponse) (tr : List Event) :
    saves (Event.send ch resp :: tr) = saves tr := rfl

@[simp] theorem mergeCalls_nil : mergeCalls [] = [] := rfl

@[simp] theorem mergeCalls_recv (u : statusRequest) (tr : List Event) :
    mergeCalls (Event.recv u :: tr) = mergeCalls tr := rfl

@[simp] theorem mergeCalls_load (stackID : EdgeStackID) (tr : List Event) :
    mergeCalls (Event.load stackID :: tr) = mergeCalls tr := rfl

@[simp] theorem mergeCalls_merge (stack : Option EdgeStack) (u : statusRequest) (stackID : EdgeStackID) (tr : List Event) :
    mergeCalls (Event.merge stack u stackID :: tr) = (stack, u, stackID) :: mergeCalls tr := rfl

@[simp] theorem mergeCalls_save (stackID : EdgeStackID) (stack : EdgeStack) (tr : List Event) :
    mergeCalls (Event.save stackID stack :: tr) = mergeCalls tr := rfl

@[simp] theorem mergeCalls_send (ch : Chan) (resp : statusResponse) (tr : List Event) :
    mergeCalls (Event.send ch resp :: tr) = mergeCalls tr := rfl

@[simp] theorem received_nil : received [] = [] := rfl

@[simp] theorem received_recv (u : statusRequest) (tr : List Event) :
    received (Event.recv u :: tr) = u :: received tr := rfl

@[simp] theorem received_load (stackID : EdgeStackID) (tr : List Event) :
    received (Event.load stackID :: tr) = received tr := rfl

@[simp] theorem received_merge (stack : Option EdgeStack) (u : statusRequest) (stackID : EdgeStackID) (tr : List Event) :
    received (Event.merge stack u stackID :: tr) = received tr := rfl

@[simp] theorem received_save (stackID : EdgeStackID) (stack : EdgeStack) (tr : List Event) :
    received (Event.save stackID stack :: tr) = received tr := rfl

@[simp] theorem received_send (ch : Chan) (resp : statusResponse) (tr : List Event) :
    received (Event.send ch resp :: tr) = received tr := rfl

@[simp] theorem sends_append (a b : List Event) : sends (a ++ b) = sends a ++ sends b := by
  simp [sends]

@[simp] theorem saves_append (a b : List Event) : saves (a ++ b) = saves a ++ saves b := by
  simp [saves]

@[simp] theorem mergeCalls_append (a b : List Event) :
    mergeCalls (a ++ b) = mergeCalls a ++ mergeCalls b := by
  simp [mergeCalls]

@[simp] theorem received_append (a b : List Event) :
    received (a ++ b) = received a ++ received b := by
  simp [received]

@[simp] theorem sends_busyTrace (q : List statusRequest) :
    sends (busyTrace q) = q.map (fun u => (u.respCh, busyResponse)) := by
  induction q with
  | nil => rfl
  | cons u q ih => simpa [busyTrace] using ih

@[simp] theorem saves_busyTrace (q : List statusRequest) : saves (busyTrace q) = [] := by
  induction q with
  | nil => rfl
  | cons u q ih => simpa [busyTrace] using ih

@[simp] theorem mergeCalls_busyTrace (q : List statusRequest) : mergeCalls (busyTrace q) = [] := by
  induction q with
  | nil => rfl
  | cons u q ih => simpa [busyTrace] using ih

@[simp] theorem received_busyTrace (q : List statusRequest) : received (busyTrace q) = q := by
  induction q with
  | nil => rfl
  | cons u q ih => simpa [busyTrace] using ih

theorem busyTrace_append (a b : List statusRequest) :
    busyTrace (a ++ b) = busyTrace a ++ busyTrace b := by
  induction a with
  | nil => rfl
  | cons u a ih => simp [busyTrace, ih]

/-! ## Lemmas on `getNextUpdate` -/

theorem getNextUpdate_miss (stackID : EdgeStackID) :
    ∀ (q : List statusRequest) (tr : List Event), (∀ x ∈ q, x.stackID ≠ stackID) →
      getNextUpdate stackID q tr = (none, [], tr ++ busyTrace q) := by
  intro q
  induction q with
  | nil => intro tr _; simp [getNextUpdate, busyTrace]
  | cons u q ih =>
    intro tr h
    have hu : u.stackID ≠ stackID := h u (List.mem_cons_self _ _)
    have hq : ∀ x ∈ q, x.stackID ≠ stackID := fun x hx => h x (List.mem_cons_of_mem _ hx)
    simp [getNextUpdate, hu, ih _ hq, busyTrace]

theorem getNextUpdate_hit (stackID : EdgeStackID) :
    ∀ (pre : List statusRequest) (m : statusRequest) (post : List statusRequest)
      (tr : List Event), (∀ x ∈ pre, x.stackID ≠ stackID) → m.stackID = stackID →
      getNextUpdate stackID (pre ++ m :: post) tr
        = (some m, post, tr ++ busyTrace pre ++ [Event.recv m]) := by
  intro pre
  induction pre with
  | nil => intro m post tr _ hm; simp [getNextUpdate, hm, busyTrace]
  | cons u pre ih =>
    intro m post tr h hm
    have hu : u.stackID ≠ stackID := h u (List.mem_cons_self _ _)
    have hq : ∀ x ∈ pre, x.stackID ≠ stackID := fun x hx => h x (List.mem_cons_of_mem _ hx)
    simp [getNextUpdate, hu, ih m post _ hq hm, busyTrace]

theorem exists_first_match (stackID : EdgeStackID) :
    ∀ q : List statusRequest, (∃ x ∈ q, x.stackID = stackID) →
      ∃ pre m post, q = pre ++ m :: post ∧ (∀ x ∈ pre, x.stackID ≠ stackID) ∧
        m.stackID = stackID := by
  intro q
  induction q with
  | nil => intro h; obtain ⟨x, hx, _⟩ := h; cases hx
  | cons u q ih =>
    intro h
    by_cases hu : u.stackID = stackID
    · exact ⟨[], u, q, rfl, by simp, hu⟩
    · obtain ⟨x, hx, hxid⟩ := h
      have hxq : x ∈ q := by
        rcases List.mem_cons.1 hx with rfl | hxq
        · exact absurd hxid hu
        · exact hxq
      obtain ⟨pre, m, post, hq, hpre, hm⟩ := ih ⟨x, hxq, hxid⟩
      refine ⟨u :: pre, m, post, by simp [hq], ?_, hm⟩
      intro y hy
      rcases List.mem_cons.1 hy with rfl | hy
      · exact hu
      · exact hpre y hy

/-- The two ways `getNextUpdate` can end. -/
theorem getNextUpdate_cases (stackID : EdgeStackID) (q : List statusRequest)
    (tr : List Event) :
    (∃ pre m post, q = pre ++ m :: post ∧ (∀ x ∈ pre, x.stackID ≠ stackID) ∧
        m.stackID = stackID ∧
        getNextUpdate stackID q tr = (some m, post, tr ++ busyTrace pre ++ [Event.recv m])) ∨
    ((∀ x ∈ q, x.stackID ≠ stackID) ∧
        getNextUpdate stackID q tr = (none, [], tr ++ busyTrace q)) := by
  by_cases h : ∃ x ∈ q, x.stackID = stackID
  · obtain ⟨pre, m, post, hq, hpre, hm⟩ := exists_first_match stackID q h
    exact Or.inl ⟨pre, m, post, hq, hpre, hm, by rw [hq]; exact getNextUpdate_hit _ _ _ _ _ hpre hm⟩
  · have h2 : ∀ x ∈ q, x.stackID ≠ stackID := fun x hx hxid => h ⟨x, hx, hxid⟩
    exact Or.inr ⟨h2, getNextUpdate_miss _ _ _ h2⟩

/-! ## Unfolding the `for` loop -/

theorem forLoop_nil (c : EdgeStackStatusUpdateCoordinator) (fuel : Nat) (u : statusRequest)
    (respChs : List Chan) (q : List statusRequest) (tr : List Event) :
    forLoop c (fuel + 1) none u respChs q tr = ⟨none, respChs, q, tr, Exit.nilDeref⟩ := by
  simp [forLoop]

theorem forLoop_err (c : EdgeStackStatusUpdateCoordinator) (fuel : Nat) (s : EdgeStack)
    (u : statusRequest) (respChs : List Chan) (q : List statusRequest) (tr : List Event)
    (stack1 : Option EdgeStack) (err : Error)
    (h : c.statusUpdateFn (some s) u.endpoint u.r s.ID u.payload = (stack1, some err)) :
    forLoop c (fuel + 1) (some s) u respChs q tr
      = ⟨stack1, respChs, q, tr ++ [Event.merge (some s) u s.ID], Exit.ret (some err)⟩ := by
  simp only [forLoop, h]

theorem forLoop_nilResult (c : EdgeStackStatusUpdateCoordinator) (fuel : Nat) (s : EdgeStack)
    (u : statusRequest) (respChs : List Chan) (q : List statusRequest) (tr : List Event)
    (h : c.statusUpdateFn (some s) u.endpoint u.r s.ID u.payload = (none, none)) :
    forLoop c (fuel + 1) (some s) u respChs q tr
      = ⟨none, respChs, q, tr ++ [Event.merge (some s) u s.ID], Exit.nilDeref⟩ := by
  simp only [forLoop, h]

theorem forLoop_next (c : EdgeStackStatusUpdateCoordinator) (fuel : Nat) (s : EdgeStack)
    (u : statusRequest) (respChs : List Chan) (q : List statusRequest) (tr : List Event)
    (s1 : EdgeStack) (m : statusRequest) (q2 : List statusRequest) (tr2 : List Event)
    (h : c.statusUpdateFn (some s) u.endpoint u.r s.ID u.payload = (some s1, none))
    (hg : getNextUpdate s1.ID q (tr ++ [Event.merge (some s) u s.ID]) = (some m, q2, tr2)) :
    forLoop c (fuel + 1) (some s) u respChs q tr
      = forLoop c fuel (some s1) m (respChs ++ [m.respCh]) q2 tr2 := by
  simp only [forLoop, h, hg]

theorem forLoop_brk (c : EdgeStackStatusUpdateCoordinator) (fuel : Nat) (s : EdgeStack)
    (u : statusRequest) (respChs : List Chan) (q : List statusRequest) (tr : List Event)
    (s1 : EdgeStack) (q2 : List statusRequest) (tr2 : List Event)
    (h : c.statusUpdateFn (some s) u.endpoint u.r s.ID u.payload = (some s1, none))
    (hg : getNextUpdate s1.ID q (tr ++ [Event.merge (some s) u s.ID]) = (none, q2, tr2)) :
    forLoop c (fuel + 1) (some s) u respChs q tr = ⟨some s1, respChs, q2, tr2, Exit.brk⟩ := by
  simp only [forLoop, h, hg]

/-! ## The iteration bound is never reached -/

theorem forLoop_fuel (c : EdgeStackStatusUpdateCoordinator) :
    ∀ (f1 f2 : Nat) (stack : Option EdgeStack) (u : statusRequest) (respChs : List Chan)
      (q : List statusRequest) (tr : List Event), q.length < f1 → q.length < f2 →
      forLoop c f1 stack u respChs q tr = forLoop c f2 stack u respChs q tr := by
  intro f1
  induction f1 with
  | zero => intro f2 stack u respChs q tr h; omega
  | succ f1 ih =>
    intro f2 stack u respChs q tr h1 h2
    cases f2 with
    | zero => omega
    | succ f2 =>
      cases stack with
      | none => rw [forLoop_nil, forLoop_nil]
      | some s =>
        rcases hfn : c.statusUpdateFn (some s) u.endpoint u.r s.ID u.payload with ⟨stack1, err⟩
        cases err with
        | some e => rw [forLoop_err _ _ _ _ _ _ _ _ _ hfn, forLoop_err _ _ _ _ _ _ _ _ _ hfn]
        | none =>
          cases stack1 with
          | none => rw [forLoop_nilResult _ _ _ _ _ _ _ hfn, forLoop_nilResult _ _ _ _ _ _ _ hfn]
          | some s1 =>
            rcases getNextUpdate_cases s1.ID q (tr ++ [Event.merge (some s) u s.ID]) with
              ⟨pre, m, post, hq, _, _, hg⟩ | ⟨_, hg⟩
            · rw [forLoop_next _ _ _ _ _ _ _ _ _ _ _ hfn hg,
                forLoop_next _ _ _ _ _ _ _ _ _ _ _ hfn hg]
              apply ih
              · rw [hq] at h1; simp at h1; omega
              · rw [hq] at h2; simp at h2; omega
            · rw [forLoop_brk _ _ _ _ _ _ _ _ _ _ hfn hg, forLoop_brk _ _ _ _ _ _ _ _ _ _ hfn hg]

/-! ## What the `for` loop leaves behind -/

@[simp] theorem merged_append (a b : List Event) : merged (a ++ b) = merged a ++ merged b := by
  simp [merged]

@[simp] theorem merged_busyTrace (q : List statusRequest) : merged (busyTrace q) = [] := by
  simp [merged]

theorem noFail_nil (c : EdgeStackStatusUpdateCoordinator) : NoFail c [] := by
  intro s u stackID h; cases h

theorem noFail_append (c : EdgeStackStatusUpdateCoordinator) (a b : List Event)
    (ha : NoFail c a) (hb : NoFail c b) : NoFail c (a ++ b) := by
  intro s u stackID h
  rcases List.mem_append.1 h with h | h
  · exact ha s u stackID h
  · exact hb s u stackID h

theorem noFail_busyTrace (c : EdgeStackStatusUpdateCoordinator) (q : List statusRequest) :
    NoFail c (busyTrace q) := by
  induction q with
  | nil => exact noFail_nil c
  | cons x q ih =>
    intro s u stackID h
    simp only [busyTrace, List.mem_cons] at h
    rcases h with h | h | h
    · cases h
    · cases h
    · exact ih s u stackID h

theorem noFail_merge (c : EdgeStackStatusUpdateCoordinator) (s : Option EdgeStack)
    (u : statusRequest) (stackID : EdgeStackID)
    (h : (c.statusUpdateFn s u.endpoint u.r stackID u.payload).2 = none) :
    NoFail c [Event.merge s u stackID] := by
  intro s1 u1 id1 hm
  simp only [List.mem_singleton] at hm
  cases hm
  exact h

theorem noFail_recv (c : EdgeStackStatusUpdateCoordinator) (u : statusRequest) :
    NoFail c [Event.recv u] := by
  intro s1 u1 id1 hm
  simp only [List.mem_singleton] at hm
  cases hm

/-- The state in which the `for` loop of lines 71–84 is left, for each way of leaving
it. `chs0` are the reply channels collected before the current envelope `u`. -/
theorem forLoop_post (c : EdgeStackStatusUpdateCoordinator) :
    ∀ (fuel : Nat) (stack : Option EdgeStack) (u : statusRequest) (chs0 : List Chan)
      (q : List statusRequest) (tr : List Event), q.length < fuel →
      ∃ ev, (forLoop c fuel stack u (chs0 ++ [u.respCh]) q tr).trace = tr ++ ev ∧
        saves ev = [] ∧
        received ev ++ (forLoop c fuel stack u (chs0 ++ [u.respCh]) q tr).updateCh = q ∧
        (∀ err, (forLoop c fuel stack u (chs0 ++ [u.respCh]) q tr).exit = Exit.ret err →
          ∃ pre s m e, err = some e ∧ ev = pre ++ [Event.merge (some s) m s.ID] ∧
            c.statusUpdateFn (some s) m.endpoint m.r s.ID m.payload
              = ((forLoop c fuel stack u (chs0 ++ [u.respCh]) q tr).stack, some e) ∧
            NoFail c pre ∧
            (forLoop c fuel stack u (chs0 ++ [u.respCh]) q tr).respChs
              = chs0 ++ (merged ev).map (fun x => x.respCh)) ∧
        ((forLoop c fuel stack u (chs0 ++ [u.respCh]) q tr).exit = Exit.brk →
          NoFail c ev ∧ (forLoop c fuel stack u (chs0 ++ [u.respCh]) q tr).updateCh = [] ∧
            (∃ s, (forLoop c fuel stack u (chs0 ++ [u.respCh]) q tr).stack = some s) ∧
            (forLoop c fuel stack u (chs0 ++ [u.respCh]) q tr).respChs
              = chs0 ++ (merged ev).map (fun x => x.respCh)) ∧
        ((forLoop c fuel stack u (chs0 ++ [u.respCh]) q tr).exit = Exit.nilDeref →
          NoFail c ev) ∧
        (forLoop c fuel stack u (chs0 ++ [u.respCh]) q tr).exit ≠ Exit.exhausted := by
  intro fuel
  induction fuel with
  | zero => intro stack u chs0 q tr h; omega
  | succ fuel ih =>
    intro stack u chs0 q tr hlen
    cases stack with
    | none =>
      rw [forLoop_nil]
      exact ⟨[], (by simp), rfl, (by simp), (by intro err h; cases h),
        (by intro h; cases h), fun _ => noFail_nil c, (by intro h; cases h)⟩
    | some s =>
      rcases hfn : c.statusUpdateFn (some s) u.endpoint u.r s.ID u.payload with ⟨stack1, err⟩
      cases err with
      | some e =>
        rw [forLoop_err _ _ _ _ _ _ _ _ _ hfn]
        refine ⟨[Event.merge (some s) u s.ID], rfl, (by simp),
          (by simp), ?_, (by intro h; cases h), (by intro h; cases h),
          (by intro h; cases h)⟩
        intro err h
        cases h
        exact ⟨[], s, u, e, rfl, rfl, hfn, noFail_nil c,
          (by simp [merged])⟩
      | none =>
        have hok : NoFail c [Event.merge (some s) u s.ID] := noFail_merge c _ _ _ (by rw [hfn])
        cases stack1 with
        | none =>
          rw [forLoop_nilResult _ _ _ _ _ _ _ hfn]
          exact ⟨[Event.merge (some s) u s.ID], rfl, (by simp),
            (by simp), (by intro err h; cases h), (by intro h; cases h),
            fun _ => hok, (by intro h; cases h)⟩
        | some s1 =>
          rcases getNextUpdate_cases s1.ID q (tr ++ [Event.merge (some s) u s.ID]) with
            ⟨pre, m, post, hq, _, _, hg⟩ | ⟨_, hg⟩
          · rw [forLoop_next _ _ _ _ _ _ _ _ _ _ _ hfn hg]
            have hlen2 : post.length < fuel := by rw [hq] at hlen; simp at hlen; omega
            obtain ⟨ev, htr, hsv, hrc, hret, hbrk, hnil, hex⟩ :=
              ih (some s1) m (chs0 ++ [u.respCh]) post
                (tr ++ [Event.merge (some s) u s.ID] ++ busyTrace pre ++ [Event.recv m]) hlen2
            have hpre : NoFail c ([Event.merge (some s) u s.ID] ++ busyTrace pre ++ [Event.recv m]) :=
              noFail_append c _ _ (noFail_append c _ _ hok (noFail_busyTrace c pre))
                (noFail_recv c m)
            refine ⟨[Event.merge (some s) u s.ID] ++ busyTrace pre ++ [Event.recv m] ++ ev,
              (by rw [htr]; simp), ?_, ?_, ?_, ?_, ?_, hex⟩
            · simp [hsv]
            · have hrecv : received ([Event.merge (some s) u s.ID] ++ busyTrace pre ++
                  [Event.recv m] ++ ev) = pre ++ m :: received ev := by simp
              rw [hrecv, hq, List.append_assoc, List.cons_append, hrc]
            · intro err h
              obtain ⟨p2, s2, m2, e2, he, hev, hcall, hnf, hchs⟩ := hret err h
              refine ⟨[Event.merge (some s) u s.ID] ++ busyTrace pre ++ [Event.recv m] ++ p2,
                s2, m2, e2, he, (by rw [hev]; simp), hcall, noFail_append c _ _ hpre hnf, ?_⟩
              rw [hchs]
              simp [merged]
            · intro h
              obtain ⟨hnf, hq2, hs, hchs⟩ := hbrk h
              refine ⟨noFail_append c _ _ hpre hnf, hq2, hs, ?_⟩
              rw [hchs]
              simp [merged]
            · intro h
              exact noFail_append c _ _ hpre (hnil h)
          · rw [forLoop_brk _ _ _ _ _ _ _ _ _ _ hfn hg]
            refine ⟨[Event.merge (some s) u s.ID] ++ busyTrace q, (by simp),
              (by simp), (by simp),
              (by intro err h; cases h), ?_, (by intro h; cases h), (by intro h; cases h)⟩
            intro _
            exact ⟨noFail_append c _ _ hok (noFail_busyTrace c q), rfl, ⟨s1, rfl⟩,
              (by simp [merged])⟩

/-! ## The result of a round, by the way the transaction closure was left -/

theorem loop_of_load_error (c : EdgeStackStatusUpdateCoordinator) (u : statusRequest)
    (q : List statusRequest) (stack : Option EdgeStack) (err : Error)
    (hl : loadEdgeStack c.dataStore u.stackID = (stack, some err)) :
    loop c (u :: q) = ⟨q, [Event.recv u, Event.load u.stackID] ++
      broadcast [u.respCh] stack (some err), Ending.returned⟩ := by
  simp [loop, UpdateTx, txBody, hl, broadcast]

theorem loop_of_ret (c : EdgeStackStatusUpdateCoordinator) (u : statusRequest)
    (q : List statusRequest) (stack : Option EdgeStack)
    (hl : loadEdgeStack c.dataStore u.stackID = (stack, none))
    (t : Tx) (err : Option Error)
    (ht : forLoop c (q.length + 1) stack u [u.respCh] q [Event.recv u, Event.load u.stackID] = t)
    (hx : t.exit = Exit.ret err) :
    loop c (u :: q) = ⟨t.updateCh, t.trace ++ broadcast t.respChs t.stack err,
      Ending.returned⟩ := by
  simp [loop, UpdateTx, txBody, hl, ht, hx, broadcast]

theorem loop_of_nilDeref (c : EdgeStackStatusUpdateCoordinator) (u : statusRequest)
    (q : List statusRequest) (stack : Option EdgeStack)
    (hl : loadEdgeStack c.dataStore u.stackID = (stack, none))
    (t : Tx)
    (ht : forLoop c (q.length + 1) stack u [u.respCh] q [Event.recv u, Event.load u.stackID] = t)
    (hx : t.exit = Exit.nilDeref) :
    loop c (u :: q) = ⟨t.updateCh, t.trace, Ending.panicked⟩ := by
  simp [loop, UpdateTx, txBody, hl, ht, hx]

theorem loop_of_brk (c : EdgeStackStatusUpdateCoordinator) (u : statusRequest)
    (q : List statusRequest) (stack : Option EdgeStack)
    (hl : loadEdgeStack c.dataStore u.stackID = (stack, none))
    (t : Tx) (s : EdgeStack)
    (ht : forLoop c (q.length + 1) stack u [u.respCh] q [Event.recv u, Event.load u.stackID] = t)
    (hx : t.exit = Exit.brk) (hs : t.stack = some s) :
    loop c (u :: q) = ⟨t.updateCh, t.trace ++ [Event.save s.ID s] ++
      broadcast t.respChs (some s)
        ((c.dataStore.UpdateEdgeStack s.ID s).map (fun err => Error.handlerDBErr
          (Error.errorf "unable to update Edge stack: " err ".")
          "Unable to persist the stack changes inside the database")),
      Ending.returned⟩ := by
  cases hsave : c.dataStore.UpdateEdgeStack s.ID s <;>
    simp [loop, UpdateTx, txBody, hl, ht, hx, hs, hsave, broadcast]

@[simp] theorem sends_broadcast (respChs : List Chan) (stack : Option EdgeStack)
    (err : Option Error) :
    sends (broadcast respChs stack err) = respChs.map (fun ch => (ch, ⟨stack, err⟩)) := by
  induction respChs with
  | nil => rfl
  | cons ch chs ih => simpa [broadcast] using ih

@[simp] theorem saves_broadcast (respChs : List Chan) (stack : Option EdgeStack)
    (err : Option Error) : saves (broadcast respChs stack err) = [] := by
  induction respChs with
  | nil => rfl
  | cons ch chs ih => simpa [broadcast] using ih

@[simp] theorem mergeCalls_broadcast (respChs : List Chan) (stack : Option EdgeStack)
    (err : Option Error) : mergeCalls (broadcast respChs stack err) = [] := by
  induction respChs with
  | nil => rfl
  | cons ch chs ih => simpa [broadcast] using ih

@[simp] theorem received_broadcast (respChs : List Chan) (stack : Option EdgeStack)
    (err : Option Error) : received (broadcast respChs stack err) = [] := by
  induction respChs with
  | nil => rfl
  | cons ch chs ih => simpa [broadcast] using ih

theorem mem_mergeCalls (s : Option EdgeStack) (u : statusRequest) (stackID : EdgeStackID) :
    ∀ tr : List Event, Event.merge s u stackID ∈ tr ↔ (s, u, stackID) ∈ mergeCalls tr := by
  intro tr
  induction tr with
  | nil => simp
  | cons ev tr ih =>
    cases ev <;> simp [ih]

theorem noFail_of_mergeCalls_nil (c : EdgeStackStatusUpdateCoordinator) (tr : List Event)
    (h : mergeCalls tr = []) : NoFail c tr := by
  intro s u stackID hm
  rw [mem_mergeCalls, h] at hm
  cases hm

/-! ## Coalescing: the left fold of `statusUpdateFn` -/

theorem views_coalesceTrace (c : EdgeStackStatusUpdateCoordinator) (stackID : EdgeStackID) :
    ∀ (q : List statusRequest) (acc : Option EdgeStack) (u : statusRequest),
      mergeCalls (coalesceTrace c stackID acc u q) = foldCalls c stackID acc (u :: q) ∧
      sends (coalesceTrace c stackID acc u q) = [] ∧
      saves (coalesceTrace c stackID acc u q) = [] ∧
      received (coalesceTrace c stackID acc u q) = q := by
  intro q
  induction q with
  | nil => intro acc u; simp [coalesceTrace, foldCalls]
  | cons m ms ih =>
    intro acc u
    obtain ⟨h1, h2, h3, h4⟩ := ih (mergeStep c stackID acc u) m
    simp [coalesceTrace, foldCalls, h1, h2, h3, h4]

theorem forLoop_coalesce (c : EdgeStackStatusUpdateCoordinator) (stackID : EdgeStackID) :
    ∀ (q : List statusRequest) (fuel : Nat) (s : EdgeStack) (u : statusRequest)
      (chs : List Chan) (tr : List Event), q.length < fuel → s.ID = stackID →
      (∀ m ∈ q, m.stackID = stackID) →
      (∀ pre m post, u :: q = pre ++ m :: post →
        ∃ s1, c.statusUpdateFn (List.foldl (mergeStep c stackID) (some s) pre)
          m.endpoint m.r stackID m.payload = (some s1, none) ∧ s1.ID = stackID) →
      ∃ final, List.foldl (mergeStep c stackID) (some s) (u :: q) = some final ∧
        forLoop c fuel (some s) u chs q tr
          = ⟨some final, chs ++ q.map (fun m => m.respCh), [],
              tr ++ coalesceTrace c stackID (some s) u q, Exit.brk⟩ := by
  intro q
  induction q with
  | nil =>
    intro fuel s u chs tr hlen hid _ hfn
    subst hid
    obtain ⟨s1, h1, _⟩ := hfn [] u [] rfl
    replace h1 : c.statusUpdateFn (some s) u.endpoint u.r s.ID u.payload = (some s1, none) := h1
    cases fuel with
    | zero => simp at hlen
    | succ fuel =>
      refine ⟨s1, by simp [mergeStep, h1], ?_⟩
      rw [forLoop_brk c fuel s u chs [] tr s1 [] (tr ++ [Event.merge (some s) u s.ID]) h1
        (by simp [getNextUpdate])]
      simp [coalesceTrace]
  | cons m ms ih =>
    intro fuel s u chs tr hlen hid hq hfn
    subst hid
    obtain ⟨s1, h1, hs1⟩ := hfn [] u (m :: ms) rfl
    replace h1 : c.statusUpdateFn (some s) u.endpoint u.r s.ID u.payload = (some s1, none) := h1
    cases fuel with
    | zero => simp at hlen
    | succ fuel =>
      have hm : m.stackID = s1.ID := by rw [hs1]; exact hq m (List.mem_cons_self _ _)
      have hstep : mergeStep c s.ID (some s) u = some s1 := by simp [mergeStep, h1]
      have hg : getNextUpdate s1.ID (m :: ms) (tr ++ [Event.merge (some s) u s.ID])
          = (some m, ms, tr ++ [Event.merge (some s) u s.ID] ++ [Event.recv m]) := by
        simp [getNextUpdate, hm]
      rw [forLoop_next c fuel s u chs (m :: ms) tr s1 m ms _ h1 hg]
      have hlen2 : ms.length < fuel := by simp at hlen; omega
      obtain ⟨final, hfinal, hrun⟩ := ih fuel s1 m (chs ++ [m.respCh])
        (tr ++ [Event.merge (some s) u s.ID] ++ [Event.recv m]) hlen2 hs1
        (fun x hx => hq x (List.mem_cons_of_mem _ hx))
        (by
          intro pre x post hsplit
          have := hfn (u :: pre) x post (by rw [hsplit]; rfl)
          simpa [List.foldl, hstep] using this)
      refine ⟨final, by simpa [List.foldl, hstep] using hfinal, ?_⟩
      rw [hrun]
      simp [coalesceTrace, hstep]

/-! ## Removing a rejected envelope from the queue -/

theorem getNextUpdate_skip (stackID : EdgeStackID) :
    ∀ (pre rest : List statusRequest) (tr : List Event), (∀ x ∈ pre, x.stackID ≠ stackID) →
      getNextUpdate stackID (pre ++ rest) tr
        = getNextUpdate stackID rest (tr ++ busyTrace pre) := by
  intro pre
  induction pre with
  | nil => intro rest tr _; simp [busyTrace]
  | cons u pre ih =>
    intro rest tr h
    have hu : u.stackID ≠ stackID := h u (List.mem_cons_self _ _)
    have hq : ∀ x ∈ pre, x.stackID ≠ stackID := fun x hx => h x (List.mem_cons_of_mem _ hx)
    simp [getNextUpdate, hu, ih rest _ hq, busyTrace]

theorem Tx.shift_shift (a b : List Event) (t : Tx) :
    Tx.shift b (Tx.shift a t) = Tx.shift (b ++ a) t := by
  simp [Tx.shift]

/-- The `for` loop does not read the trace: it only extends it. -/
theorem forLoop_shift (c : EdgeStackStatusUpdateCoordinator) :
    ∀ (fuel : Nat) (stack : Option EdgeStack) (u : statusRequest) (chs : List Chan)
      (q : List statusRequest) (tr : List Event),
      forLoop c fuel stack u chs q tr = Tx.shift tr (forLoop c fuel stack u chs q []) := by
  intro fuel
  induction fuel with
  | zero => intro stack u chs q tr; simp [forLoop, Tx.shift]
  | succ fuel ih =>
    intro stack u chs q tr
    cases stack with
    | none => simp [forLoop_nil, Tx.shift]
    | some s =>
      rcases hfn : c.statusUpdateFn (some s) u.endpoint u.r s.ID u.payload with ⟨stack1, err⟩
      cases err with
      | some e => simp [forLoop_err _ _ _ _ _ _ _ _ _ hfn, Tx.shift]
      | none =>
        cases stack1 with
        | none => simp [forLoop_nilResult _ _ _ _ _ _ _ hfn, Tx.shift]
        | some s1 =>
          rcases getNextUpdate_cases s1.ID q [] with ⟨pre, m, post, hq, hpre, hm, _⟩ | ⟨hall, _⟩
          · have hg := fun tr0 => getNextUpdate_hit s1.ID pre m post tr0 hpre hm
            rw [← hq] at hg
            rw [forLoop_next _ _ _ _ _ _ _ _ _ _ _ hfn (hg _),
              forLoop_next _ _ _ _ _ _ _ _ _ _ _ hfn (hg _), ih,
              ih _ _ _ _ ([] ++ [Event.merge (some s) u s.ID] ++ busyTrace pre ++ [Event.recv m]),
              Tx.shift_shift]
            simp
          · have hg := fun tr0 => getNextUpdate_miss s1.ID q tr0 hall
            rw [forLoop_brk _ _ _ _ _ _ _ _ _ _ hfn (hg _),
              forLoop_brk _ _ _ _ _ _ _ _ _ _ hfn (hg _)]
            simp [Tx.shift]

/-- Where the record id is stable, an envelope of another stack that the `for` loop
takes from the channel changes nothing but the trace, which gains its receive and its
busy response. -/
theorem forLoop_erase (c : EdgeStackStatusUpdateCoordinator) (stackID : EdgeStackID)
    (hfn : ∀ s e r p s1, s.ID = stackID →
      c.statusUpdateFn (some s) e r stackID p = (some s1, none) → s1.ID = stackID) :
    ∀ (fuel : Nat) (a : List statusRequest) (s : EdgeStack) (u : statusRequest)
      (chs : List Chan) (tr : List Event) (x : statusRequest) (b : List statusRequest),
      (a ++ x :: b).length < fuel → s.ID = stackID → x.stackID ≠ stackID →
      (forLoop c fuel (some s) u chs (a ++ x :: b) tr).updateCh.length ≤ b.length →
      ∃ t1 t2, (forLoop c fuel (some s) u chs (a ++ b) tr).trace = tr ++ t1 ++ t2 ∧
        forLoop c fuel (some s) u chs (a ++ x :: b) tr
          = { forLoop c fuel (some s) u chs (a ++ b) tr with
              trace := tr ++ t1 ++ [Event.recv x, Event.send x.respCh busyResponse] ++ t2 } := by
  intro fuel
  induction fuel with
  | zero => intro a s u chs tr x b h; simp at h
  | succ fuel ih =>
    intro a s u chs tr x b hlen hid hx hdeq
    subst hid
    rcases hcall : c.statusUpdateFn (some s) u.endpoint u.r s.ID u.payload with ⟨stack1, err⟩
    cases err with
    | some e =>
      rw [forLoop_err _ _ _ _ _ _ _ _ _ hcall] at hdeq
      simp at hdeq
      omega
    | none =>
      cases stack1 with
      | none =>
        rw [forLoop_nilResult _ _ _ _ _ _ _ hcall] at hdeq
        simp at hdeq
        omega
      | some s1 =>
        have hs1 : s1.ID = s.ID := hfn s _ _ _ s1 rfl hcall
        have hx1 : x.stackID ≠ s1.ID := by rw [hs1]; exact hx
        by_cases hmatch : ∃ y ∈ a, y.stackID = s1.ID
        · obtain ⟨pre, m, post, ha, hpre, hm⟩ := exists_first_match s1.ID a hmatch
          have hg1 := getNextUpdate_hit s1.ID pre m (post ++ x :: b)
            (tr ++ [Event.merge (some s) u s.ID]) hpre hm
          have hg2 := getNextUpdate_hit s1.ID pre m (post ++ b)
            (tr ++ [Event.merge (some s) u s.ID]) hpre hm
          have e1 : a ++ x :: b = pre ++ m :: (post ++ x :: b) := by rw [ha]; simp
          have e2 : a ++ b = pre ++ m :: (post ++ b) := by rw [ha]; simp
          rw [← e1] at hg1
          rw [← e2] at hg2
          rw [forLoop_next _ _ _ _ _ _ _ _ _ _ _ hcall hg1] at hdeq ⊢
          rw [forLoop_next _ _ _ _ _ _ _ _ _ _ _ hcall hg2]
          have hlen2 : (post ++ x :: b).length < fuel := by
            rw [e1] at hlen; simp at hlen ⊢; omega
          obtain ⟨t1, t2, h1, h2⟩ := ih post s1 m (chs ++ [m.respCh]) _ x b hlen2 hs1 hx hdeq
          refine ⟨[Event.merge (some s) u s.ID] ++ busyTrace pre ++ [Event.recv m] ++ t1, t2,
            ?_, ?_⟩
          · rw [h1]; simp
          · rw [h2]; simp
        · have hall : ∀ y ∈ a ++ [x], y.stackID ≠ s1.ID := by
            intro y hy
            rcases List.mem_append.1 hy with hy | hy
            · exact fun h => hmatch ⟨y, hy, h⟩
            · rw [List.mem_singleton.1 hy]; exact hx1
          have halla : ∀ y ∈ a, y.stackID ≠ s1.ID :=
            fun y hy => hall y (List.mem_append_left _ hy)
          have hg1 := getNextUpdate_skip s1.ID (a ++ [x]) b
            (tr ++ [Event.merge (some s) u s.ID]) hall
          have hg2 := getNextUpdate_skip s1.ID a b (tr ++ [Event.merge (some s) u s.ID]) halla
          have e1 : a ++ [x] ++ b = a ++ x :: b := by simp
          rw [e1] at hg1
          rcases getNextUpdate_cases s1.ID b [] with
            ⟨pre, m, post, hb, hpre, hm, _⟩ | ⟨hallb, _⟩
          · have hg := fun tr0 => getNextUpdate_hit s1.ID pre m post tr0 hpre hm
            rw [← hb] at hg
            rw [hg] at hg1 hg2
            rw [forLoop_next _ _ _ _ _ _ _ _ _ _ _ hcall hg1,
              forLoop_next _ _ _ _ _ _ _ _ _ _ _ hcall hg2, forLoop_shift,
              forLoop_shift c fuel (some s1) m _ post
                (tr ++ [Event.merge (some s) u s.ID] ++ busyTrace (a ++ [x]) ++ busyTrace pre ++
                  [Event.recv m])]
            refine ⟨[Event.merge (some s) u s.ID] ++ busyTrace a,
              busyTrace pre ++ [Event.recv m] ++
                (forLoop c fuel (some s1) m (chs ++ [m.respCh]) post []).trace, ?_, ?_⟩
            · simp [Tx.shift]
            · simp [Tx.shift, busyTrace_append, busyTrace]
          · have hg := fun tr0 => getNextUpdate_miss s1.ID b tr0 hallb
            rw [hg] at hg1 hg2
            rw [forLoop_brk _ _ _ _ _ _ _ _ _ _ hcall hg1,
              forLoop_brk _ _ _ _ _ _ _ _ _ _ hcall hg2]
            refine ⟨[Event.merge (some s) u s.ID] ++ busyTrace a, busyTrace b, ?_, ?_⟩
            · simp
            · simp [busyTrace_append, busyTrace]

theorem loop_eq_finish (c : EdgeStackStatusUpdateCoordinator) (u : statusRequest)
    (q : List statusRequest) (stack : Option EdgeStack)
    (hl : loadEdgeStack c.dataStore u.stackID = (stack, none)) :
    loop c (u :: q) = finish c
      (forLoop c (q.length + 1) stack u [u.respCh] q [Event.recv u, Event.load u.stackID]) := by
  generalize ht : forLoop c (q.length + 1) stack u [u.respCh] q
    [Event.recv u, Event.load u.stackID] = t
  obtain ⟨stk, chs, uc, trc, ex⟩ := t
  cases ex with
  | ret err => simp [loop, UpdateTx, txBody, hl, ht, finish, broadcast]
  | brk =>
    cases stk with
    | none => simp [loop, UpdateTx, txBody, hl, ht, finish]
    | some s1 =>
      cases hsave : c.dataStore.UpdateEdgeStack s1.ID s1 <;>
        simp [loop, UpdateTx, txBody, hl, ht, finish, broadcast, hsave]
  | nilDeref => simp [loop, UpdateTx, txBody, hl, ht, finish]
  | exhausted => simp [loop, UpdateTx, txBody, hl, ht, finish]

theorem finish_insert (c : EdgeStackStatusUpdateCoordinator) (t : Tx)
    (p ins s2 : List Event) (h : t.trace = p ++ s2) :
    (finish c { t with trace := p ++ ins ++ s2 }).ending = (finish c t).ending ∧
    (finish c { t with trace := p ++ ins ++ s2 }).updateCh = (finish c t).updateCh ∧
    ∃ t2, (finish c t).trace = p ++ t2 ∧
      (finish c { t with trace := p ++ ins ++ s2 }).trace = p ++ ins ++ t2 := by
  obtain ⟨stk, chs, uc, trc, ex⟩ := t
  simp only at h
  subst h
  cases ex with
  | ret err => exact ⟨rfl, rfl, s2 ++ broadcast chs stk err, by simp [finish], by simp [finish]⟩
  | brk =>
    cases stk with
    | none => exact ⟨rfl, rfl, s2, by simp [finish], by simp [finish]⟩
    | some s1 =>
      exact ⟨rfl, rfl, _, by simp only [finish, List.append_assoc]; rfl,
        by simp only [finish, List.append_assoc]⟩
  | nilDeref => exact ⟨rfl, rfl, s2, by simp [finish], by simp [finish]⟩
  | exhausted => exact ⟨rfl, rfl, s2, by simp [finish], by simp [finish]⟩

/-! ## Every send and every merge is for an envelope of the queue -/

theorem forLoop_members (c : EdgeStackStatusUpdateCoordinator) :
    ∀ (fuel : Nat) (stack : Option EdgeStack) (u : statusRequest) (chs : List Chan)
      (q : List statusRequest) (tr : List Event), q.length < fuel →
      ∃ ev, (forLoop c fuel stack u chs q tr).trace = tr ++ ev ∧
        (∀ p ∈ sends ev, ∃ y ∈ q, y.respCh = p.1) ∧
        (∀ y ∈ merged ev, y = u ∨ y ∈ q) ∧
        (∀ ch ∈ (forLoop c fuel stack u chs q tr).respChs,
          ch ∈ chs ∨ ∃ y ∈ q, y.respCh = ch) := by
  intro fuel
  induction fuel with
  | zero => intro stack u chs q tr h; omega
  | succ fuel ih =>
    intro stack u chs q tr hlen
    cases stack with
    | none =>
      rw [forLoop_nil]
      exact ⟨[], (by simp), (by simp), (by simp [merged]), fun ch h => Or.inl h⟩
    | some s =>
      rcases hfn : c.statusUpdateFn (some s) u.endpoint u.r s.ID u.payload with ⟨stack1, err⟩
      cases err with
      | some e =>
        rw [forLoop_err _ _ _ _ _ _ _ _ _ hfn]
        exact ⟨[Event.merge (some s) u s.ID], rfl, (by simp), (by simp [merged]),
          fun ch h => Or.inl h⟩
      | none =>
        cases stack1 with
        | none =>
          rw [forLoop_nilResult _ _ _ _ _ _ _ hfn]
          exact ⟨[Event.merge (some s) u s.ID], rfl, (by simp), (by simp [merged]),
            fun ch h => Or.inl h⟩
        | some s1 =>
          rcases getNextUpdate_cases s1.ID q (tr ++ [Event.merge (some s) u s.ID]) with
            ⟨pre, m, post, hq, _, _, hg⟩ | ⟨_, hg⟩
          · rw [forLoop_next _ _ _ _ _ _ _ _ _ _ _ hfn hg]
            have hlen2 : post.length < fuel := by rw [hq] at hlen; simp at hlen; omega
            obtain ⟨ev, htr, hs, hm, hc⟩ := ih (some s1) m (chs ++ [m.respCh]) post
              (tr ++ [Event.merge (some s) u s.ID] ++ busyTrace pre ++ [Event.recv m]) hlen2
            refine ⟨[Event.merge (some s) u s.ID] ++ busyTrace pre ++ [Event.recv m] ++ ev,
              (by rw [htr]; simp), ?_, ?_, ?_⟩
            · intro p hp
              simp only [sends_append, sends_merge, sends_nil, sends_busyTrace, sends_recv,
                List.nil_append, List.append_nil, List.mem_append, List.mem_map] at hp
              rcases hp with ⟨y, hy, rfl⟩ | hp
              · exact ⟨y, by rw [hq]; exact List.mem_append_left _ hy, rfl⟩
              · obtain ⟨y, hy, hyp⟩ := hs p hp
                exact ⟨y, by rw [hq]; exact List.mem_append_right _ (List.mem_cons_of_mem _ hy),
                  hyp⟩
            · intro y hy
              simp only [merged_append, merged_busyTrace, List.append_nil,
                List.mem_append] at hy
              rcases hy with (hy | hy) | hy
              · left; simpa [merged] using hy
              · simp [merged] at hy
              · right
                rcases hm y hy with rfl | hy2
                · rw [hq]; exact List.mem_append_right _ (List.mem_cons_self _ _)
                · rw [hq]; exact List.mem_append_right _ (List.mem_cons_of_mem _ hy2)
            · intro ch hch
              rcases hc ch hch with h | ⟨y, hy, rfl⟩
              · rcases List.mem_append.1 h with h | h
                · exact Or.inl h
                · right
                  rw [List.mem_singleton.1 h]
                  exact ⟨m, by rw [hq]; exact List.mem_append_right _ (List.mem_cons_self _ _),
                    rfl⟩
              · exact Or.inr ⟨y, by
                  rw [hq]; exact List.mem_append_right _ (List.mem_cons_of_mem _ hy), rfl⟩
          · rw [forLoop_brk _ _ _ _ _ _ _ _ _ _ hfn hg]
            refine ⟨[Event.merge (some s) u s.ID] ++ busyTrace q, (by simp), ?_,
              (by simp [merged]), fun ch h => Or.inl h⟩
            intro p hp
            simp only [sends_append, sends_merge, sends_nil, sends_busyTrace,
              List.nil_append, List.mem_map] at hp
            obtain ⟨y, hy, rfl⟩ := hp
            exact ⟨y, hy, rfl⟩

theorem finish_members (c : EdgeStackStatusUpdateCoordinator) (t : Tx) :
    (∀ p ∈ sends (finish c t).trace, p ∈ sends t.trace ∨ p.1 ∈ t.respChs) ∧
    merged (finish c t).trace = merged t.trace := by
  obtain ⟨stk, chs, uc, trc, ex⟩ := t
  cases ex with
  | ret err =>
    refine ⟨?_, by simp [finish, merged]⟩
    intro p hp
    simp only [finish, sends_append, sends_broadcast, List.mem_append, List.mem_map] at hp
    rcases hp with hp | ⟨ch, hch, rfl⟩
    · exact Or.inl hp
    · exact Or.inr hch
  | brk =>
    cases stk with
    | none => exact ⟨fun p hp => Or.inl hp, rfl⟩
    | some s1 =>
      refine ⟨?_, by simp [finish, merged]⟩
      intro p hp
      simp only [finish, sends_append, sends_broadcast, sends_save, sends_nil,
        List.append_nil, List.mem_append, List.mem_map] at hp
      rcases hp with hp | ⟨ch, hch, rfl⟩
      · exact Or.inl hp
      · exact Or.inr hch
  | nilDeref => exact ⟨fun p hp => Or.inl hp, rfl⟩
  | exhausted => exact ⟨fun p hp => Or.inl hp, rfl⟩

/-- In every round, each send goes to the reply channel of an envelope of the queue and
each envelope passed to `statusUpdateFn` is an envelope of the queue. -/
theorem loop_members (c : EdgeStackStatusUpdateCoordinator) (u : statusRequest)
    (q : List statusRequest) :
    (∀ p ∈ sends (loop c (u :: q)).trace, ∃ y ∈ u :: q, y.respCh = p.1) ∧
    (∀ y ∈ merged (loop c (u :: q)).trace, y ∈ u :: q) := by
  rcases hl : loadEdgeStack c.dataStore u.stackID with ⟨stack, lerr⟩
  cases lerr with
  | some le =>
    rw [loop_of_load_error c u q stack le hl]
    constructor
    · intro p hp
      simp [broadcast] at hp
      exact ⟨u, List.mem_cons_self _ _, by rw [hp]⟩
    · intro y hy
      simp [merged, broadcast] at hy
  | none =>
    rw [loop_eq_finish c u q stack hl]
    obtain ⟨ev, htr, hs, hm, hc⟩ := forLoop_members c (q.length + 1) stack u [u.respCh] q
      [Event.recv u, Event.load u.stackID] (Nat.lt_succ_self _)
    obtain ⟨hf1, hf2⟩ := finish_members c
      (forLoop c (q.length + 1) stack u [u.respCh] q [Event.recv u, Event.load u.stackID])
    constructor
    · intro p hp
      rcases hf1 p hp with h | h
      · rw [htr] at h
        simp only [sends_append, sends_recv, sends_load, sends_nil, List.nil_append] at h
        obtain ⟨y, hy, hyp⟩ := hs p h
        exact ⟨y, List.mem_cons_of_mem _ hy, hyp⟩
      · rcases hc _ h with h2 | ⟨y, hy, hyp⟩
        · exact ⟨u, List.mem_cons_self _ _, (List.mem_singleton.1 h2).symm⟩
        · exact ⟨y, List.mem_cons_of_mem _ hy, hyp⟩
    · intro y hy
      rw [hf2, htr] at hy
      simp only [merged_append, List.mem_append] at hy
      rcases hy with hy | hy
      · simp [merged] at hy
      · rcases hm y hy with rfl | h
        · exact List.mem_cons_self _ _
        · exact List.mem_cons_of_mem _ h

theorem finish_updateCh (c : EdgeStackStatusUpdateCoordinator) (t : Tx) :
    (finish c t).updateCh = t.updateCh := by
  obtain ⟨stk, chs, uc, trc, ex⟩ := t
  cases ex with
  | brk => cases stk <;> rfl
  | _ => rfl

theorem replies_append (ch : Chan) (a b : List Event) :
    replies ch (a ++ b) = replies ch a ++ replies ch b := by
  simp [replies]

theorem replies_eq_nil (ch : Chan) (tr : List Event) (h : ∀ p ∈ sends tr, p.1 ≠ ch) :
    replies ch tr = [] := by
  simp only [replies, List.map_eq_nil_iff, List.filter_eq_nil_iff]
  intro p hp
  simpa using h p hp

theorem loadEdgeStack_some (tx : DataStore) (stackID : EdgeStackID) (s : EdgeStack)
    (h : loadEdgeStack tx stackID = (some s, none)) : tx.EdgeStack stackID = (some s, none) := by
  unfold loadEdgeStack at h
  rcases hst : tx.EdgeStack stackID with ⟨st, er⟩
  rw [hst] at h
  cases er with
  | none => simpa using h
  | some e =>
    by_cases hnf : tx.IsErrObjectNotFound e = true
    · simp [hnf] at h
    · simp [hnf] at h

theorem loop_of_not_found (c : EdgeStackStatusUpdateCoordinator) (u : statusRequest)
    (q : List statusRequest) (stack0 : Option EdgeStack) (err : Error)
    (hload : c.dataStore.EdgeStack u.stackID = (stack0, some err))
    (hnf : c.dataStore.IsErrObjectNotFound err = true) :
    loop c (u :: q) = ⟨q, [Event.recv u, Event.load u.stackID], Ending.panicked⟩ := by
  simp [loop, UpdateTx, txBody, loadEdgeStack, hload, hnf, forLoop]

theorem setStatus_fold (store : DataStore) (stackID : EdgeStackID) :
    ∀ (pre : List statusRequest) (s : EdgeStack),
      (∀ x ∈ pre, x.payload.Status ≠ "boom") →
      ∃ s1, List.foldl (mergeStep ⟨store, setStatus⟩ stackID) (some s) pre = some s1 ∧
        s1.ID = s.ID := by
  intro pre
  induction pre with
  | nil => intro s _; exact ⟨s, rfl, rfl⟩
  | cons x pre ih =>
    intro s h
    have hx : x.payload.Status ≠ "boom" := h x (List.mem_cons_self _ _)
    obtain ⟨s1, h1, h2⟩ := ih { s with Status := x.payload.Status }
      (fun y hy => h y (List.mem_cons_of_mem _ hy))
    exact ⟨s1, by simpa [List.foldl, mergeStep, setStatus, hx] using h1, h2⟩

/-! ## A round that returns answers every received envelope once -/

/-- Channel accounting of the `for` loop: the busy responses sent and the reply list
make up, with multiplicity, the reply list it started with and the reply channels of the
envelopes it received. -/
theorem forLoop_channels (c : EdgeStackStatusUpdateCoordinator) :
    ∀ (fuel : Nat) (stack : Option EdgeStack) (u : statusRequest) (chs : List Chan)
      (q : List statusRequest) (tr : List Event), q.length < fuel →
      ∃ ev, (forLoop c fuel stack u chs q tr).trace = tr ++ ev ∧
        List.Perm ((sends ev).map Prod.fst ++ (forLoop c fuel stack u chs q tr).respChs)
          (chs ++ (received ev).map (fun x => x.respCh)) := by
  intro fuel
  induction fuel with
  | zero => intro stack u chs q tr h; omega
  | succ fuel ih =>
    intro stack u chs q tr hlen
    cases stack with
    | none =>
      rw [forLoop_nil]
      exact ⟨[], (by simp), (by simp)⟩
    | some s =>
      rcases hfn : c.statusUpdateFn (some s) u.endpoint u.r s.ID u.payload with ⟨stack1, err⟩
      cases err with
      | some e =>
        rw [forLoop_err _ _ _ _ _ _ _ _ _ hfn]
        exact ⟨[Event.merge (some s) u s.ID], rfl, (by simp)⟩
      | none =>
        cases stack1 with
        | none =>
          rw [forLoop_nilResult _ _ _ _ _ _ _ hfn]
          exact ⟨[Event.merge (some s) u s.ID], rfl, (by simp)⟩
        | some s1 =>
          rcases getNextUpdate_cases s1.ID q (tr ++ [Event.merge (some s) u s.ID]) with
            ⟨pre, m, post, hq, _, _, hg⟩ | ⟨_, hg⟩
          · rw [forLoop_next _ _ _ _ _ _ _ _ _ _ _ hfn hg]
            have hlen2 : post.length < fuel := by rw [hq] at hlen; simp at hlen; omega
            obtain ⟨ev, htr, hperm⟩ := ih (some s1) m (chs ++ [m.respCh]) post
              (tr ++ [Event.merge (some s) u s.ID] ++ busyTrace pre ++ [Event.recv m]) hlen2
            refine ⟨[Event.merge (some s) u s.ID] ++ busyTrace pre ++ [Event.recv m] ++ ev,
              (by rw [htr]; simp), ?_⟩
            simp only [sends_append, sends_merge, sends_nil, sends_busyTrace, sends_recv,
              received_append, received_merge, received_nil, received_busyTrace, received_recv,
              List.nil_append, List.append_nil, List.map_append, List.map_map,
              List.map_cons, List.map_nil, List.singleton_append]
            rw [← Multiset.coe_eq_coe] at hperm ⊢
            simp only [← Multiset.coe_add, ← Multiset.cons_coe, ← Multiset.singleton_add,
              List.append_assoc] at hperm ⊢
            have hcomp : (Prod.fst ∘ fun u : statusRequest => (u.respCh, busyResponse))
                = fun x => x.respCh := rfl
            rw [hperm, hcomp]
            exact add_left_comm _ _ _
          · rw [forLoop_brk _ _ _ _ _ _ _ _ _ _ hfn hg]
            refine ⟨[Event.merge (some s) u s.ID] ++ busyTrace q, (by simp), ?_⟩
            simp only [sends_append, sends_merge, sends_nil, sends_busyTrace,
              received_append, received_merge, received_nil, received_busyTrace,
              List.nil_append, List.map_map]
            exact List.perm_append_comm


/-- A round that returns has sent exactly one response for every envelope it received:
the reply channels of the sends are, with multiplicity, those of the received
envelopes. -/
theorem loop_replies_once (c : EdgeStackStatusUpdateCoordinator) (u : statusRequest)
    (q : List statusRequest) (h : (loop c (u :: q)).ending = Ending.returned) :
    List.Perm ((sends (loop c (u :: q)).trace).map Prod.fst)
      ((received (loop c (u :: q)).trace).map (fun x => x.respCh)) := by
  rcases hl : loadEdgeStack c.dataStore u.stackID with ⟨stack, lerr⟩
  cases lerr with
  | some le =>
    rw [loop_of_load_error c u q stack le hl]
    simp [broadcast]
  | none =>
    rw [loop_eq_finish c u q stack hl] at h ⊢
    obtain ⟨ev, htr, hperm⟩ := forLoop_channels c (q.length + 1) stack u [u.respCh] q
      [Event.recv u, Event.load u.stackID] (Nat.lt_succ_self _)
    generalize forLoop c (q.length + 1) stack u [u.respCh] q
      [Event.recv u, Event.load u.stackID] = t at h htr hperm
    obtain ⟨stk, chs, uc, trc, ex⟩ := t
    simp only at htr hperm
    subst htr
    cases ex with
    | ret err =>
      simp only [finish, sends_append, sends_broadcast, received_append, received_broadcast,
        sends_recv, sends_load, sends_nil, received_recv, received_load, received_nil,
        List.nil_append, List.append_nil, List.map_append, List.map_map, List.map_cons]
      have hid : (Prod.fst ∘ fun ch : Chan => (ch, (⟨stk, err⟩ : statusResponse))) = id := rfl
      rw [hid, List.map_id]
      simpa using hperm
    | brk =>
      cases stk with
      | none => simp [finish] at h
      | some s1 =>
        simp only [finish, sends_append, sends_broadcast, received_append,
          received_broadcast, sends_recv, sends_load, sends_save, sends_nil, received_recv,
          received_load, received_save, received_nil, List.nil_append, List.append_nil,
          List.map_append, List.map_map, List.map_cons]
        generalize Option.map _ (c.dataStore.UpdateEdgeStack s1.ID s1) = err
        have hid : (Prod.fst ∘ fun ch : Chan => (ch, (⟨some s1, err⟩ : statusResponse)))
            = id := rfl
        rw [hid, List.map_id]
        simpa using hperm
    | nilDeref => simp [finish] at h
    | exhausted => simp [finish] at h

/-- The iteration bound `loop` gives to the `for` loop is never used up. -/
theorem loop_not_exhausted (c : EdgeStackStatusUpdateCoordinator) (q : List statusRequest) :
    (loop c q).ending ≠ Ending.exhausted := by
  cases q with
  | nil => simp [loop]
  | cons u q =>
    rcases hl : loadEdgeStack c.dataStore u.stackID with ⟨stack, lerr⟩
    cases lerr with
    | some le => rw [loop_of_load_error c u q stack le hl]; simp
    | none =>
      rw [loop_eq_finish c u q stack hl]
      obtain ⟨ev, _, _, _, _, _, _, hex⟩ := forLoop_post c (q.length + 1) stack u [] q
        [Event.recv u, Event.load u.stackID] (Nat.lt_succ_self _)
      simp only [List.nil_append] at hex
      generalize forLoop c (q.length + 1) stack u [u.respCh] q
        [Event.recv u, Event.load u.stackID] = t at hex
      obtain ⟨stk, chs, uc, trc, ex⟩ := t
      cases ex with
      | ret err => simp [finish]
      | brk => cases stk <;> simp [finish]
      | nilDeref => simp [finish]
      | exhausted => exact absurd rfl hex

/-! ## The round up to the moment an envelope is taken from the channel -/

theorem forLoop_ok (c : EdgeStackStatusUpdateCoordinator) (fuel : Nat) (s : EdgeStack)
    (u : statusRequest) (respChs : List Chan) (q : List statusRequest) (tr : List Event)
    (s1 : EdgeStack)
    (h : c.statusUpdateFn (some s) u.endpoint u.r s.ID u.payload = (some s1, none)) :
    forLoop c (fuel + 1) (some s) u respChs q tr
      = resume c fuel s1 respChs q (tr ++ [Event.merge (some s) u s.ID]) := by
  simp only [forLoop, h, resume]

theorem resume_skip (c : EdgeStackStatusUpdateCoordinator) (fuel : Nat) (s : EdgeStack)
    (respChs : List Chan) (pre rest : List statusRequest) (tr : List Event)
    (h : ∀ x ∈ pre, x.stackID ≠ s.ID) :
    resume c fuel s respChs (pre ++ rest) tr
      = resume c fuel s respChs rest (tr ++ busyTrace pre) := by
  simp only [resume, getNextUpdate_skip s.ID pre rest tr h]

theorem resume_fuel (c : EdgeStackStatusUpdateCoordinator) (f1 f2 : Nat) (s : EdgeStack)
    (respChs : List Chan) (q : List statusRequest) (tr : List Event)
    (h1 : q.length ≤ f1) (h2 : q.length ≤ f2) :
    resume c f1 s respChs q tr = resume c f2 s respChs q tr := by
  rcases getNextUpdate_cases s.ID q tr with ⟨pre, m, post, hq, _, _, hg⟩ | ⟨_, hg⟩
  · simp only [resume, hg]
    apply forLoop_fuel
    · rw [hq] at h1; simp at h1; omega
    · rw [hq] at h2; simp at h2; omega
  · simp only [resume, hg]

theorem resume_shift (c : EdgeStackStatusUpdateCoordinator) (fuel : Nat) (s : EdgeStack)
    (respChs : List Chan) (q : List statusRequest) (tr : List Event) :
    resume c fuel s respChs q tr = Tx.shift tr (resume c fuel s respChs q []) := by
  rcases getNextUpdate_cases s.ID q [] with ⟨pre, m, post, hq, hpre, hm, _⟩ | ⟨hall, _⟩
  · have hg := fun tr0 => getNextUpdate_hit s.ID pre m post tr0 hpre hm
    rw [← hq] at hg
    simp only [resume, hg]
    rw [forLoop_shift, forLoop_shift c fuel (some s) m _ post ([] ++ busyTrace pre ++ [Event.recv m]),
      Tx.shift_shift]
    simp
  · have hg := fun tr0 => getNextUpdate_miss s.ID q tr0 hall
    simp only [resume, hg]
    simp [Tx.shift]

/-- When the `for` loop on the envelopes `a` ends in `break` holding `sA`, the `for` loop
on `a` followed by more envelopes goes the same way up to that point and then takes
the next envelope from the channel, holding `sA`. -/
theorem forLoop_prefix_brk (c : EdgeStackStatusUpdateCoordinator) :
    ∀ (f1 : Nat) (a : List statusRequest) (stack : Option EdgeStack) (u : statusRequest)
      (chs : List Chan) (tr : List Event) (sA : EdgeStack) (chsA : List Chan)
      (qa : List statusRequest) (trA : List Event), a.length < f1 →
      forLoop c f1 stack u chs a tr = ⟨some sA, chsA, qa, trA, Exit.brk⟩ →
      ∀ (rest : List statusRequest) (f2 : Nat), (a ++ rest).length < f2 →
        forLoop c f2 stack u chs (a ++ rest) tr = resume c rest.length sA chsA rest trA := by
  intro f1
  induction f1 with
  | zero => intro a stack u chs tr sA chsA qa trA h; omega
  | succ f1 ih =>
    intro a stack u chs tr sA chsA qa trA hlen h rest f2 hlen2
    cases f2 with
    | zero => omega
    | succ f2 =>
      cases stack with
      | none => rw [forLoop_nil] at h; cases h
      | some s =>
        rcases hfn : c.statusUpdateFn (some s) u.endpoint u.r s.ID u.payload with ⟨stack1, err⟩
        cases err with
        | some e => rw [forLoop_err _ _ _ _ _ _ _ _ _ hfn] at h; cases h
        | none =>
          cases stack1 with
          | none => rw [forLoop_nilResult _ _ _ _ _ _ _ hfn] at h; cases h
          | some s1 =>
            rcases getNextUpdate_cases s1.ID a (tr ++ [Event.merge (some s) u s.ID]) with
              ⟨pre, m, post, ha, hpre, hm, hg⟩ | ⟨hall, hg⟩
            · rw [forLoop_next _ _ _ _ _ _ _ _ _ _ _ hfn hg] at h
              have hg2 := getNextUpdate_hit s1.ID pre m (post ++ rest)
                (tr ++ [Event.merge (some s) u s.ID]) hpre hm
              have e2 : a ++ rest = pre ++ m :: (post ++ rest) := by rw [ha]; simp
              rw [← e2] at hg2
              rw [forLoop_next _ _ _ _ _ _ _ _ _ _ _ hfn hg2]
              apply ih post (some s1) m _ _ sA chsA qa trA _ h rest f2
              · rw [e2] at hlen2; simp at hlen2 ⊢; omega
              · rw [ha] at hlen; simp at hlen; omega
            · rw [forLoop_brk _ _ _ _ _ _ _ _ _ _ hfn hg] at h
              cases h
              rw [forLoop_ok _ _ _ _ _ _ _ _ hfn, resume_skip _ _ _ _ _ _ _ hall]
              apply resume_fuel
              · simp at hlen2; omega
              · exact Nat.le_refl _

/-- When the `for` loop on the envelopes `a` ends otherwise than in `break`, the `for`
loop on `a` followed by more envelopes ends the same way and leaves them pending. -/
theorem forLoop_prefix_stop (c : EdgeStackStatusUpdateCoordinator) :
    ∀ (f1 : Nat) (a : List statusRequest) (stack : Option EdgeStack) (u : statusRequest)
      (chs : List Chan) (tr : List Event), a.length < f1 →
      (forLoop c f1 stack u chs a tr).exit ≠ Exit.brk →
      ∀ (rest : List statusRequest) (f2 : Nat), (a ++ rest).length < f2 →
        forLoop c f2 stack u chs (a ++ rest) tr
          = { forLoop c f1 stack u chs a tr with
              updateCh := (forLoop c f1 stack u chs a tr).updateCh ++ rest } := by
  intro f1
  induction f1 with
  | zero => intro a stack u chs tr h; omega
  | succ f1 ih =>
    intro a stack u chs tr hlen h rest f2 hlen2
    cases f2 with
    | zero => omega
    | succ f2 =>
      cases stack with
      | none => simp [forLoop_nil]
      | some s =>
        rcases hfn : c.statusUpdateFn (some s) u.endpoint u.r s.ID u.payload with ⟨stack1, err⟩
        cases err with
        | some e => simp [forLoop_err _ _ _ _ _ _ _ _ _ hfn]
        | none =>
          cases stack1 with
          | none => simp [forLoop_nilResult _ _ _ _ _ _ _ hfn]
          | some s1 =>
            rcases getNextUpdate_cases s1.ID a (tr ++ [Event.merge (some s) u s.ID]) with
              ⟨pre, m, post, ha, hpre, hm, hg⟩ | ⟨hall, hg⟩
            · rw [forLoop_next _ _ _ _ _ _ _ _ _ _ _ hfn hg] at h ⊢
              have hg2 := getNextUpdate_hit s1.ID pre m (post ++ rest)
                (tr ++ [Event.merge (some s) u s.ID]) hpre hm
              have e2 : a ++ rest = pre ++ m :: (post ++ rest) := by rw [ha]; simp
              rw [← e2] at hg2
              rw [forLoop_next _ _ _ _ _ _ _ _ _ _ _ hfn hg2]
              apply ih post (some s1) m _ _ _ h rest f2
              · rw [e2] at hlen2; simp at hlen2 ⊢; omega
              · rw [ha] at hlen; simp at hlen; omega
            · rw [forLoop_brk _ _ _ _ _ _ _ _ _ _ hfn hg] at h
              exact absurd rfl h

theorem latestMerged_append (c : EdgeStackStatusUpdateCoordinator) (tr ev : List Event)
    (h : mergeCalls ev = []) : latestMerged c (tr ++ ev) = latestMerged c tr := by
  unfold latestMerged
  rw [List.foldl_append]
  generalize List.foldl _ none tr = acc
  induction ev generalizing acc with
  | nil => rfl
  | cons e ev ih =>
    cases e with
    | merge s u stackID => simp at h
    | recv u => exact ih (by simpa using h) acc
    | load stackID => exact ih (by simpa using h) acc
    | save stackID stack => exact ih (by simpa using h) acc
    | send ch resp => exact ih (by simpa using h) acc

theorem latestMerged_merge (c : EdgeStackStatusUpdateCoordinator) (tr : List Event)
    (s : Option EdgeStack) (u : statusRequest) (stackID : EdgeStackID) :
    latestMerged c (tr ++ [Event.merge s u stackID])
      = (c.statusUpdateFn s u.endpoint u.r stackID u.payload).1 := by
  simp [latestMerged, List.foldl_append]

/-- When the `for` loop ends in `break`, the record it holds is the one returned by the
latest call of `statusUpdateFn`. -/
theorem forLoop_latest (c : EdgeStackStatusUpdateCoordinator) :
    ∀ (fuel : Nat) (stack : Option EdgeStack) (u : statusRequest) (chs : List Chan)
      (q : List statusRequest) (tr : List Event),
      (forLoop c fuel stack u chs q tr).exit = Exit.brk →
      latestMerged c (forLoop c fuel stack u chs q tr).trace
        = (forLoop c fuel stack u chs q tr).stack := by
  intro fuel
  induction fuel with
  | zero => intro stack u chs q tr h; simp [forLoop] at h
  | succ fuel ih =>
    intro stack u chs q tr h
    cases stack with
    | none => rw [forLoop_nil] at h; cases h
    | some s =>
      rcases hfn : c.statusUpdateFn (some s) u.endpoint u.r s.ID u.payload with ⟨stack1, err⟩
      cases err with
      | some e => rw [forLoop_err _ _ _ _ _ _ _ _ _ hfn] at h; cases h
      | none =>
        cases stack1 with
        | none => rw [forLoop_nilResult _ _ _ _ _ _ _ hfn] at h; cases h
        | some s1 =>
          rcases getNextUpdate_cases s1.ID q (tr ++ [Event.merge (some s) u s.ID]) with
            ⟨pre, m, post, hq, _, _, hg⟩ | ⟨_, hg⟩
          · rw [forLoop_next _ _ _ _ _ _ _ _ _ _ _ hfn hg] at h ⊢
            exact ih _ _ _ _ _ h
          · rw [forLoop_brk _ _ _ _ _ _ _ _ _ _ hfn hg]
            show latestMerged c (tr ++ [Event.merge (some s) u s.ID] ++ busyTrace q) = some s1
            rw [latestMerged_append c _ _ (mergeCalls_busyTrace q), latestMerged_merge, hfn]

/-- A trace splits in one way only at the receive that follows given receives. -/
theorem split_at_recv :
    ∀ (t1 t3 : List Event) (x y : statusRequest) (t2 t4 : List Event),
      t1 ++ Event.recv x :: t2 = t3 ++ Event.recv y :: t4 → received t1 = received t3 →
      t1 = t3 ∧ x = y ∧ t2 = t4 := by
  intro t1
  induction t1 with
  | nil =>
    intro t3 x y t2 t4 h hr
    cases t3 with
    | nil =>
      simp only [List.nil_append, List.cons.injEq, Event.recv.injEq] at h
      exact ⟨rfl, h.1, h.2⟩
    | cons e w =>
      simp only [List.nil_append, List.cons_append, List.cons.injEq] at h
      rw [← h.1] at hr
      simp at hr
  | cons e w ih =>
    intro t3 x y t2 t4 h hr
    cases t3 with
    | nil =>
      simp only [List.nil_append, List.cons_append, List.cons.injEq] at h
      rw [h.1] at hr
      simp at hr
    | cons e2 w2 =>
      simp only [List.cons_append, List.cons.injEq] at h
      obtain ⟨he, hw⟩ := h
      subst he
      have hr2 : received w = received w2 := by
        cases e <;> simpa using hr
      obtain ⟨h1, h2, h3⟩ := ih w2 x y t2 t4 hw hr2
      exact ⟨by rw [h1], h2, h3⟩

theorem received_finish (c : EdgeStackStatusUpdateCoordinator) (t : Tx) :
    received (finish c t).trace = received t.trace := by
  obtain ⟨stk, chs, uc, trc, ex⟩ := t
  cases ex with
  | ret err => simp [finish]
  | brk => cases stk <;> simp [finish]
  | nilDeref => rfl
  | exhausted => rfl

theorem finish_trace (c : EdgeStackStatusUpdateCoordinator) (t : Tx) :
    ∃ tail, (finish c t).trace = t.trace ++ tail := by
  obtain ⟨stk, chs, uc, trc, ex⟩ := t
  cases ex with
  | ret err => exact ⟨_, rfl⟩
  | brk =>
    cases stk with
    | none => exact ⟨[], by simp [finish]⟩
    | some s1 => exact ⟨_, by simp only [finish, List.append_assoc]; rfl⟩
  | nilDeref => exact ⟨[], by simp [finish]⟩
  | exhausted => exact ⟨[], by simp [finish]⟩

/-! ## Theorems on the round model -/

/-- C10: for every finite sequence `q` of pending envelopes and every id,
`getNextUpdate` is a total function (it ends, and never waits for an envelope). If `q`
holds an envelope with that id, `q` splits as `pre ++ m :: post` where `m` is the first
one with that id; the call returns `m` with `true`, the busy response has been sent to
exactly the envelopes of `pre`, in order, and `post` is left pending in its order. If `q`
holds none, the busy response is sent to every envelope of `q`, nothing is left pending
and the call returns `false`. -/
theorem getNextUpdate_spec (stackID : EdgeStackID) (q : List statusRequest) (tr : List Event) :
    ((∃ x ∈ q, x.stackID = stackID) →
      ∃ pre m post, q = pre ++ m :: post ∧ (∀ x ∈ pre, x.stackID ≠ stackID) ∧
        m.stackID = stackID ∧
        getNextUpdate stackID q tr = (some m, post, tr ++ busyTrace pre ++ [Event.recv m]) ∧
        sends (busyTrace pre ++ [Event.recv m]) = pre.map (fun x => (x.respCh, busyResponse))) ∧
    ((∀ x ∈ q, x.stackID ≠ stackID) →
      getNextUpdate stackID q tr = (none, [], tr ++ busyTrace q) ∧
        sends (busyTrace q) = q.map (fun x => (x.respCh, busyResponse))) := by
  constructor
  · intro h
    obtain ⟨pre, m, post, hq, hpre, hm⟩ := exists_first_match stackID q h
    refine ⟨pre, m, post, hq, hpre, hm, ?_, by simp⟩
    rw [hq]
    exact getNextUpdate_hit _ _ _ _ _ hpre hm
  · intro h
    exact ⟨getNextUpdate_miss _ _ _ h, by simp⟩

/-- Witness for C10: three pending envelopes for stacks 6, 5, 6 and the id 5, and the
same call when only envelopes of stack 6 are pending. -/
theorem getNextUpdate_spec_witness :
    (∃ pre m post, [envelope 0 6 "a", envelope 1 5 "b", envelope 2 6 "c"] = pre ++ m :: post ∧
        (∀ x ∈ pre, x.stackID ≠ 5) ∧ m.stackID = 5 ∧
        getNextUpdate 5 [envelope 0 6 "a", envelope 1 5 "b", envelope 2 6 "c"] []
          = (some m, post, [] ++ busyTrace pre ++ [Event.recv m]) ∧
        sends (busyTrace pre ++ [Event.recv m]) = pre.map (fun x => (x.respCh, busyResponse))) ∧
    (getNextUpdate 5 [envelope 0 6 "a", envelope 2 6 "c"] []
        = (none, [], [] ++ busyTrace [envelope 0 6 "a", envelope 2 6 "c"]) ∧
      sends (busyTrace [envelope 0 6 "a", envelope 2 6 "c"])
        = [envelope 0 6 "a", envelope 2 6 "c"].map (fun x => (x.respCh, busyResponse))) :=
  ⟨(getNextUpdate_spec 5 [envelope 0 6 "a", envelope 1 5 "b", envelope 2 6 "c"] []).1
      ⟨envelope 1 5 "b", by simp, rfl⟩,
    (getNextUpdate_spec 5 [envelope 0 6 "a", envelope 2 6 "c"] []).2
      (by decide)⟩

/-- C6: when the read of the seed envelope's stack fails with an error that is not a
not-found error, the round consists of the receive of the seed, the read, and one send
to the seed's reply channel carrying a nil record and an error that wraps the read
error: `statusUpdateFn` and `UpdateEdgeStack` are not called and the other pending
envelopes stay pending. -/
theorem loop_load_error (c : EdgeStackStatusUpdateCoordinator) (u : statusRequest)
    (q : List statusRequest) (stack0 : Option EdgeStack) (err : Error)
    (hload : c.dataStore.EdgeStack u.stackID = (stack0, some err))
    (hnf : c.dataStore.IsErrObjectNotFound err = false) :
    ∃ wrapped, wrapped.Unwrap = some err ∧
      loop c (u :: q) = ⟨q, [Event.recv u, Event.load u.stackID,
        Event.send u.respCh ⟨none, some wrapped⟩], Ending.returned⟩ ∧
      mergeCalls (loop c (u :: q)).trace = [] ∧
      saves (loop c (u :: q)).trace = [] ∧
      received (loop c (u :: q)).trace = [u] ∧
      sends (loop c (u :: q)).trace = [(u.respCh, ⟨none, some wrapped⟩)] := by
  have hl : loop c (u :: q) = ⟨q, [Event.recv u, Event.load u.stackID,
      Event.send u.respCh ⟨none, some (Error.errorf
        "unable to retrieve Edge stack from the database: " err ".")⟩], Ending.returned⟩ := by
    simp [loop, UpdateTx, txBody, loadEdgeStack, hload, hnf]
  refine ⟨Error.errorf "unable to retrieve Edge stack from the database: " err ".", rfl, hl, ?_⟩
  rw [hl]
  simp

/-- Witness for C6: a store whose read fails with `database is closed`. -/
theorem loop_load_error_witness :
    ∃ wrapped, wrapped.Unwrap = some (Error.other "database is closed") ∧
      loop ⟨brokenStore, setStatus⟩ (envelope 0 5 "ok1" :: [envelope 1 5 "ok2"])
        = ⟨[envelope 1 5 "ok2"], [Event.recv (envelope 0 5 "ok1"),
            Event.load (envelope 0 5 "ok1").stackID,
            Event.send (envelope 0 5 "ok1").respCh ⟨none, some wrapped⟩], Ending.returned⟩ ∧
      mergeCalls (loop ⟨brokenStore, setStatus⟩
        (envelope 0 5 "ok1" :: [envelope 1 5 "ok2"])).trace = [] ∧
      saves (loop ⟨brokenStore, setStatus⟩
        (envelope 0 5 "ok1" :: [envelope 1 5 "ok2"])).trace = [] ∧
      received (loop ⟨brokenStore, setStatus⟩
        (envelope 0 5 "ok1" :: [envelope 1 5 "ok2"])).trace = [envelope 0 5 "ok1"] ∧
      sends (loop ⟨brokenStore, setStatus⟩
        (envelope 0 5 "ok1" :: [envelope 1 5 "ok2"])).trace
          = [((envelope 0 5 "ok1").respCh, ⟨none, some wrapped⟩)] :=
  loop_load_error ⟨brokenStore, setStatus⟩ (envelope 0 5 "ok1") [envelope 1 5 "ok2"] none
    (Error.other "database is closed") rfl (by decide)

/-- C3: in every round in which a call of `statusUpdateFn` (for the seed or for a drained
envelope) returns an error `e`, `loop` returns, `UpdateEdgeStack` is not called, the
failing call is the last thing the worker does before the broadcast (so no further
envelope is taken from the channel: the envelopes received before it and the envelopes
still pending make up the original queue), no earlier call failed, and the broadcast
sends the error `e`, with the record the failing call returned, once to every envelope
passed to `statusUpdateFn` up to and including the failing one. -/
theorem loop_merge_error (c : EdgeStackStatusUpdateCoordinator) (u : statusRequest)
    (q : List statusRequest) (s : Option EdgeStack) (m : statusRequest)
    (stackID : EdgeStackID) (e : Error)
    (hcall : Event.merge s m stackID ∈ (loop c (u :: q)).trace)
    (herr : (c.statusUpdateFn s m.endpoint m.r stackID m.payload).2 = some e) :
    (loop c (u :: q)).ending = Ending.returned ∧
    saves (loop c (u :: q)).trace = [] ∧
    ∃ pre, (loop c (u :: q)).trace = pre ++ Event.merge s m stackID ::
          (merged pre ++ [m]).map (fun x => Event.send x.respCh
            ⟨(c.statusUpdateFn s m.endpoint m.r stackID m.payload).1, some e⟩) ∧
        NoFail c pre ∧
        received pre ++ (loop c (u :: q)).updateCh = u :: q := by
  rcases hl : loadEdgeStack c.dataStore u.stackID with ⟨stack, lerr⟩
  cases lerr with
  | some le =>
    rw [loop_of_load_error c u q stack le hl] at hcall
    simp [broadcast] at hcall
  | none =>
    have hp := forLoop_post c (q.length + 1) stack u [] q
      [Event.recv u, Event.load u.stackID] (Nat.lt_succ_self _)
    simp only [List.nil_append] at hp
    generalize ht : forLoop c (q.length + 1) stack u [u.respCh] q
      [Event.recv u, Event.load u.stackID] = t at hp
    obtain ⟨ev, htr, hsv, hrc, hret, hbrk, hnil, hex⟩ := hp
    have hbase : NoFail c [Event.recv u, Event.load u.stackID] :=
      noFail_of_mergeCalls_nil c _ (by simp)
    rcases hx : t.exit with err | _ | _ | _
    · obtain ⟨pre, s1, m1, e1, he, hev, hfn, hnf, hchs⟩ := hret err hx
      have hloop := loop_of_ret c u q stack hl t err ht hx
      rw [hloop] at hcall ⊢
      have hpre : NoFail c ([Event.recv u, Event.load u.stackID] ++ pre) :=
        noFail_append c _ _ hbase hnf
      simp only [htr, hev] at hcall ⊢
      have hmem : Event.merge s m stackID = Event.merge (some s1) m1 s1.ID := by
        simp only [List.mem_append, List.mem_cons, List.mem_singleton, broadcast,
          List.mem_map] at hcall
        rcases hcall with ((h | h | h) | h | h) | h
        · cases h
        · cases h
        · cases h
        · have := hnf _ _ _ h
          rw [this] at herr
          cases herr
        · rcases h with h | h
          · exact h
          · cases h
        · obtain ⟨_, _, h⟩ := h
          cases h
      cases hmem
      rw [hfn] at herr ⊢
      simp only at herr
      cases herr
      subst he
      refine ⟨trivial, ?_, [Event.recv u, Event.load u.stackID] ++ pre, ?_, hpre, ?_⟩
      · rw [hev] at hsv
        simpa using hsv
      · rw [hchs, hev]
        simp [broadcast, merged]
      · rw [hev] at hrc
        simpa using hrc
    · exfalso
      obtain ⟨hnf, _, ⟨s1, hs⟩, _⟩ := hbrk hx
      rw [loop_of_brk c u q stack hl t s1 ht hx hs, htr] at hcall
      simp only [List.mem_append, List.mem_cons, List.mem_singleton, broadcast,
        List.mem_map, List.not_mem_nil, or_false] at hcall
      rcases hcall with (((h | h) | h) | h) | h
      · cases h
      · cases h
      · have := hnf _ _ _ h
        rw [this] at herr
        cases herr
      · cases h
      · obtain ⟨_, _, h⟩ := h
        cases h
    · exfalso
      have hnf := hnil hx
      rw [loop_of_nilDeref c u q stack hl t ht hx, htr] at hcall
      simp only [List.mem_append, List.mem_cons, List.mem_singleton,
        List.not_mem_nil, or_false] at hcall
      rcases hcall with (h | h) | h
      · cases h
      · cases h
      · have := hnf _ _ _ h
        rw [this] at herr
        cases herr
    · exact absurd hx hex

/-- Witness for C3: the seed of stack 5 is merged, an envelope of stack 6 is answered
busy, the merge of the next envelope of stack 5 fails, and a fourth envelope stays
pending. -/
theorem loop_merge_error_witness :
    (loop ⟨demoStore, setStatus⟩ (envelope 0 5 "ok1" ::
      [envelope 1 6 "x", envelope 2 5 "boom", envelope 3 5 "ok3"])).ending = Ending.returned ∧
    saves (loop ⟨demoStore, setStatus⟩ (envelope 0 5 "ok1" ::
      [envelope 1 6 "x", envelope 2 5 "boom", envelope 3 5 "ok3"])).trace = [] ∧
    ∃ pre, (loop ⟨demoStore, setStatus⟩ (envelope 0 5 "ok1" ::
        [envelope 1 6 "x", envelope 2 5 "boom", envelope 3 5 "ok3"])).trace
          = pre ++ Event.merge (some ⟨5, "ok1"⟩) (envelope 2 5 "boom") 5 ::
            (merged pre ++ [envelope 2 5 "boom"]).map (fun x => Event.send x.respCh
              ⟨(setStatus (some ⟨5, "ok1"⟩) (envelope 2 5 "boom").endpoint
                (envelope 2 5 "boom").r 5 (envelope 2 5 "boom").payload).1,
                some (Error.other "boom")⟩) ∧
        NoFail ⟨demoStore, setStatus⟩ pre ∧
        received pre ++ (loop ⟨demoStore, setStatus⟩ (envelope 0 5 "ok1" ::
          [envelope 1 6 "x", envelope 2 5 "boom", envelope 3 5 "ok3"])).updateCh
          = envelope 0 5 "ok1" :: [envelope 1 6 "x", envelope 2 5 "boom", envelope 3 5 "ok3"] :=
  loop_merge_error ⟨demoStore, setStatus⟩ (envelope 0 5 "ok1")
    [envelope 1 6 "x", envelope 2 5 "boom", envelope 3 5 "ok3"]
    (some ⟨5, "ok1"⟩) (envelope 2 5 "boom") 5 (Error.other "boom") (by decide) (by decide)

/-- C1: in a round where the store returns an existing record `r0` for the seed
envelope's id, the `k` further pending envelopes all carry that id, every call of
`statusUpdateFn` made by the left fold succeeds with a record of that id, and
`UpdateEdgeStack` succeeds: `loop` returns, it took every envelope, `UpdateEdgeStack` is
called exactly once with the left fold of `statusUpdateFn` over the `k+1` envelopes in
dequeue order starting from `r0`, the calls of `statusUpdateFn` are exactly those of the
fold (merge N+1 receives the record returned by merge N), and the sends are exactly one
per envelope, in dequeue order, each carrying that record and a nil error. -/
theorem loop_coalesce (c : EdgeStackStatusUpdateCoordinator) (u : statusRequest)
    (q : List statusRequest) (r0 : EdgeStack)
    (hload : c.dataStore.EdgeStack u.stackID = (some r0, none))
    (hid : r0.ID = u.stackID)
    (hq : ∀ m ∈ q, m.stackID = u.stackID)
    (hfn : ∀ pre m post, u :: q = pre ++ m :: post →
      ∃ s1, c.statusUpdateFn (List.foldl (mergeStep c u.stackID) (some r0) pre)
        m.endpoint m.r u.stackID m.payload = (some s1, none) ∧ s1.ID = u.stackID)
    (hsave : ∀ s, List.foldl (mergeStep c u.stackID) (some r0) (u :: q) = some s →
      c.dataStore.UpdateEdgeStack u.stackID s = none) :
    ∃ final, List.foldl (mergeStep c u.stackID) (some r0) (u :: q) = some final ∧
      (loop c (u :: q)).ending = Ending.returned ∧
      (loop c (u :: q)).updateCh = [] ∧
      received (loop c (u :: q)).trace = u :: q ∧
      saves (loop c (u :: q)).trace = [(u.stackID, final)] ∧
      mergeCalls (loop c (u :: q)).trace = foldCalls c u.stackID (some r0) (u :: q) ∧
      sends (loop c (u :: q)).trace
        = (u :: q).map (fun m => (m.respCh, ⟨some final, none⟩)) := by
  have hl : loadEdgeStack c.dataStore u.stackID = (some r0, none) := by
    simp [loadEdgeStack, hload]
  obtain ⟨final, hfold, hrun⟩ := forLoop_coalesce c u.stackID q (q.length + 1) r0 u
    [u.respCh] [Event.recv u, Event.load u.stackID] (Nat.lt_succ_self _) hid hq hfn
  obtain ⟨hfin, hfid⟩ : List.foldl (mergeStep c u.stackID) (some r0) (u :: q) = some final ∧
      final.ID = u.stackID := by
    refine ⟨hfold, ?_⟩
    rcases List.eq_nil_or_concat q with hq0 | ⟨pre, m, hq1⟩
    · subst hq0
      obtain ⟨s1, h1, h2⟩ := hfn [] u [] rfl
      have : some final = some s1 := by
        rw [← hfold]; simp [List.foldl, mergeStep] at h1 ⊢; rw [h1]
      cases this
      exact h2
    · obtain ⟨s1, h1, h2⟩ := hfn (u :: pre) m [] (by rw [hq1]; simp)
      have : some final = some s1 := by
        rw [← hfold, hq1]
        simp only [List.concat_eq_append, ← List.cons_append, List.foldl_append,
          List.foldl_cons, List.foldl_nil]
        simp only [mergeStep, List.foldl_cons] at h1 ⊢
        rw [h1]
      cases this
      exact h2
  have hloop := loop_of_brk c u q (some r0) hl _ final hrun rfl rfl
  rw [hfid, hsave final hfin] at hloop
  obtain ⟨hv1, hv2, hv3, hv4⟩ := views_coalesceTrace c u.stackID q (some r0) u
  refine ⟨final, hfin, ?_⟩
  rw [hloop]
  simp [hv1, hv2, hv3, hv4]

/-- Witness for C1: the spec scenario. Record 5 has status `pending`; three envelopes
set it to `ok1`, `ok2`, `ok3` in one round; the record saved and sent to all three has
status `ok3`. -/
theorem loop_coalesce_witness :
    ∃ final, List.foldl (mergeStep ⟨demoStore, setStatus⟩ 5) (some ⟨5, "pending"⟩)
        (envelope 0 5 "ok1" :: [envelope 1 5 "ok2", envelope 2 5 "ok3"]) = some final ∧
      (loop ⟨demoStore, setStatus⟩
        (envelope 0 5 "ok1" :: [envelope 1 5 "ok2", envelope 2 5 "ok3"])).ending
          = Ending.returned ∧
      (loop ⟨demoStore, setStatus⟩
        (envelope 0 5 "ok1" :: [envelope 1 5 "ok2", envelope 2 5 "ok3"])).updateCh = [] ∧
      received (loop ⟨demoStore, setStatus⟩
        (envelope 0 5 "ok1" :: [envelope 1 5 "ok2", envelope 2 5 "ok3"])).trace
          = envelope 0 5 "ok1" :: [envelope 1 5 "ok2", envelope 2 5 "ok3"] ∧
      saves (loop ⟨demoStore, setStatus⟩
        (envelope 0 5 "ok1" :: [envelope 1 5 "ok2", envelope 2 5 "ok3"])).trace
          = [(5, final)] ∧
      mergeCalls (loop ⟨demoStore, setStatus⟩
        (envelope 0 5 "ok1" :: [envelope 1 5 "ok2", envelope 2 5 "ok3"])).trace
          = foldCalls ⟨demoStore, setStatus⟩ 5 (some ⟨5, "pending"⟩)
            (envelope 0 5 "ok1" :: [envelope 1 5 "ok2", envelope 2 5 "ok3"]) ∧
      sends (loop ⟨demoStore, setStatus⟩
        (envelope 0 5 "ok1" :: [envelope 1 5 "ok2", envelope 2 5 "ok3"])).trace
          = (envelope 0 5 "ok1" :: [envelope 1 5 "ok2", envelope 2 5 "ok3"]).map
            (fun m => (m.respCh, ⟨some final, none⟩)) :=
  loop_coalesce ⟨demoStore, setStatus⟩ (envelope 0 5 "ok1")
    [envelope 1 5 "ok2", envelope 2 5 "ok3"] ⟨5, "pending"⟩ rfl rfl (by decide)
    (by
      intro pre m post h
      have hall : ∀ x ∈ envelope 0 5 "ok1" :: [envelope 1 5 "ok2", envelope 2 5 "ok3"],
          x.payload.Status ≠ "boom" := by decide
      have hpre : ∀ x ∈ pre, x.payload.Status ≠ "boom" := by
        intro x hx; apply hall; rw [h]; exact List.mem_append_left _ hx
      have hm : m.payload.Status ≠ "boom" := by
        apply hall; rw [h]; exact List.mem_append_right _ (List.mem_cons_self _ _)
      obtain ⟨s1, h1, h2⟩ := setStatus_fold demoStore 5 pre ⟨5, "pending"⟩ hpre
      refine ⟨{ s1 with Status := m.payload.Status }, ?_, h2⟩
      have h3 : List.foldl (mergeStep ⟨demoStore, setStatus⟩ (envelope 0 5 "ok1").stackID)
          (some ⟨5, "pending"⟩) pre = some s1 := h1
      rw [h3]
      simp [setStatus, hm])
    (fun _ _ => rfl)

/-- C2, evaluated on the spec scenario: record 7 does not exist and one call for it is
pending. The read is skipped as not found, then line 72 reads `stack.ID` through the nil
pointer: the round ends in a panic after the read, nothing is sent to the caller. -/
theorem loop_not_found_panics :
    loop ⟨demoStore, setStatus⟩ [envelope 0 7 "ok1"]
      = ⟨[], [Event.recv (envelope 0 7 "ok1"), Event.load 7], Ending.panicked⟩ := by
  decide

/-- C5, evaluated on a round whose seed is for the missing record 7: the seed envelope
was received and no response was ever sent on its reply channel. -/
theorem loop_not_found_no_reply :
    received (loop ⟨demoStore, setStatus⟩ [envelope 0 7 "ok1", envelope 1 7 "ok2"]).trace
      = [envelope 0 7 "ok1"] ∧
    replies 0 (loop ⟨demoStore, setStatus⟩ [envelope 0 7 "ok1", envelope 1 7 "ok2"]).trace
      = [] := by
  decide

/-- C7, evaluated on a worker with two pending calls, the first for the missing record
7: the first round panics on the nil record, no broadcast happens, and `Start` never
reaches the round that would serve the call for the existing record 5. -/
theorem start_not_found_stops :
    Start ⟨demoStore, setStatus⟩ 2 [envelope 0 7 "ok1", envelope 1 5 "ok2"]
      = ⟨[envelope 1 5 "ok2"], [Event.recv (envelope 0 7 "ok1"), Event.load 7],
          Ending.panicked⟩ := by
  decide

/-- C4 as stated fails: with a `statusUpdateFn` that returns a record of another id,
the drain compares ids with `stack.ID` of the current record, not with the id of the
seed envelope. Seed for stack 5, one more envelope for stack 6: the merge of the seed
returns record 6, the second envelope is taken from the channel, it is passed to
`statusUpdateFn`, and it receives the outcome of the round, not the busy response. -/
theorem loop_other_stack_counterexample :
    (envelope 1 6 "b").stackID ≠ (envelope 0 5 "a").stackID ∧
    received (loop ⟨demoStore, renumber⟩ [envelope 0 5 "a", envelope 1 6 "b"]).trace
      = [envelope 0 5 "a", envelope 1 6 "b"] ∧
    envelope 1 6 "b" ∈ merged (loop ⟨demoStore, renumber⟩
      [envelope 0 5 "a", envelope 1 6 "b"]).trace ∧
    replies 1 (loop ⟨demoStore, renumber⟩ [envelope 0 5 "a", envelope 1 6 "b"]).trace
      = [⟨some ⟨7, "b"⟩, none⟩] ∧
    replies 1 (loop ⟨demoStore, renumber⟩ [envelope 0 5 "a", envelope 1 6 "b"]).trace
      ≠ [busyResponse] := by
  decide

/-- Where ids are stable the rule reads with the seed's id: in a round where the record
read for the seed and every record returned by a successful `statusUpdateFn` carry the
seed envelope's id, an envelope `x` of another id that the worker takes from the channel
changes nothing but the trace, which gains the receive of `x` and the busy response on
its reply channel. -/
theorem loop_other_stack_stable (c : EdgeStackStatusUpdateCoordinator) (u : statusRequest)
    (a : List statusRequest) (x : statusRequest) (b : List statusRequest)
    (hload : ∀ s, c.dataStore.EdgeStack u.stackID = (some s, none) → s.ID = u.stackID)
    (hfn : ∀ s e r p s1, s.ID = u.stackID →
      c.statusUpdateFn (some s) e r u.stackID p = (some s1, none) → s1.ID = u.stackID)
    (hx : x.stackID ≠ u.stackID)
    (hdeq : (loop c (u :: (a ++ x :: b))).updateCh.length ≤ b.length) :
    (loop c (u :: (a ++ x :: b))).ending = (loop c (u :: (a ++ b))).ending ∧
    (loop c (u :: (a ++ x :: b))).updateCh = (loop c (u :: (a ++ b))).updateCh ∧
    (∃ t1 t2, (loop c (u :: (a ++ b))).trace = t1 ++ t2 ∧
      (loop c (u :: (a ++ x :: b))).trace
        = t1 ++ [Event.recv x, Event.send x.respCh busyResponse] ++ t2) ∧
    mergeCalls (loop c (u :: (a ++ x :: b))).trace = mergeCalls (loop c (u :: (a ++ b))).trace ∧
    saves (loop c (u :: (a ++ x :: b))).trace = saves (loop c (u :: (a ++ b))).trace ∧
    ((∀ y ∈ u :: (a ++ b), y.respCh ≠ x.respCh) →
      replies x.respCh (loop c (u :: (a ++ x :: b))).trace = [busyResponse] ∧
      x ∉ merged (loop c (u :: (a ++ x :: b))).trace) := by
  have key : (loop c (u :: (a ++ x :: b))).ending = (loop c (u :: (a ++ b))).ending ∧
      (loop c (u :: (a ++ x :: b))).updateCh = (loop c (u :: (a ++ b))).updateCh ∧
      (∃ t1 t2, (loop c (u :: (a ++ b))).trace = t1 ++ t2 ∧
        (loop c (u :: (a ++ x :: b))).trace
          = t1 ++ [Event.recv x, Event.send x.respCh busyResponse] ++ t2) := by
    rcases hl : loadEdgeStack c.dataStore u.stackID with ⟨stack, lerr⟩
    cases lerr with
    | some le =>
      rw [loop_of_load_error c u _ stack le hl] at hdeq
      simp at hdeq
      omega
    | none =>
      rw [loop_eq_finish c u _ stack hl, finish_updateCh] at hdeq
      cases stack with
      | none =>
        rw [forLoop_nil] at hdeq
        simp at hdeq
        omega
      | some s =>
        have hsid : s.ID = u.stackID := hload s (loadEdgeStack_some _ _ _ hl)
        have hlt : (a ++ x :: b).length < (a ++ x :: b).length + 1 := Nat.lt_succ_self _
        obtain ⟨t1, t2, h1, h2⟩ := forLoop_erase c u.stackID hfn ((a ++ x :: b).length + 1) a s u
          [u.respCh] [Event.recv u, Event.load u.stackID] x b hlt hsid hx hdeq
        have hfuel := forLoop_fuel c ((a ++ b).length + 1) ((a ++ x :: b).length + 1) (some s) u
          [u.respCh] (a ++ b) [Event.recv u, Event.load u.stackID] (Nat.lt_succ_self _)
          (by simp; omega)
        rw [loop_eq_finish c u _ (some s) hl, loop_eq_finish c u _ (some s) hl, hfuel, h2]
        obtain ⟨e1, e2, t3, e3, e4⟩ := finish_insert c
          (forLoop c ((a ++ x :: b).length + 1) (some s) u [u.respCh] (a ++ b)
            [Event.recv u, Event.load u.stackID])
          ([Event.recv u, Event.load u.stackID] ++ t1)
          [Event.recv x, Event.send x.respCh busyResponse] t2 h1
        exact ⟨e1, e2, [Event.recv u, Event.load u.stackID] ++ t1, t3, e3, e4⟩
  obtain ⟨k1, k2, t1, t2, k3, k4⟩ := key
  refine ⟨k1, k2, ⟨t1, t2, k3, k4⟩, ?_, ?_, ?_⟩
  · rw [k3, k4]; simp
  · rw [k3, k4]; simp
  · intro hfresh
    obtain ⟨hs, hm⟩ := loop_members c u (a ++ b)
    rw [k3] at hs hm
    constructor
    · have h1 : replies x.respCh t1 = [] := by
        apply replies_eq_nil
        intro p hp
        obtain ⟨y, hy, hyp⟩ := hs p (by simp [hp])
        rw [← hyp]
        exact hfresh y hy
      have h2 : replies x.respCh t2 = [] := by
        apply replies_eq_nil
        intro p hp
        obtain ⟨y, hy, hyp⟩ := hs p (by simp [hp])
        rw [← hyp]
        exact hfresh y hy
      rw [k4, replies_append, replies_append, h1, h2]
      simp [replies]
    · intro hmem
      rw [k4] at hmem
      have : x ∈ merged (t1 ++ t2) := by
        simp only [merged_append, List.mem_append] at hmem ⊢
        rcases hmem with (h | h) | h
        · exact Or.inl h
        · simp [merged] at h
        · exact Or.inr h
      exact hfresh x (hm x this) rfl

/-- The moment an envelope is taken from the channel during the drain: when the round
receives `x` after the envelopes `u :: a` and the events `t1`, the latest call of
`statusUpdateFn` has returned a record `s`, and if the id of `x` differs from the id of
`s` the next event is the busy response to `x` and the rest of the round is that of the
round without `x` in the queue. -/
theorem drain_point (c : EdgeStackStatusUpdateCoordinator) (u : statusRequest)
    (a : List statusRequest) (x : statusRequest) (b : List statusRequest)
    (t1 t2 : List Event)
    (hsplit : (loop c (u :: (a ++ x :: b))).trace = t1 ++ Event.recv x :: t2)
    (hpos : received t1 = u :: a) :
    ∃ s, latestMerged c t1 = some s ∧
      (x.stackID ≠ s.ID →
        ∃ t3, t2 = Event.send x.respCh busyResponse :: t3 ∧
          (loop c (u :: (a ++ b))).trace = t1 ++ t3 ∧
          (loop c (u :: (a ++ x :: b))).ending = (loop c (u :: (a ++ b))).ending ∧
          (loop c (u :: (a ++ x :: b))).updateCh = (loop c (u :: (a ++ b))).updateCh) := by
  have hRrecv : received (loop c (u :: (a ++ x :: b))).trace
      = u :: (a ++ x :: received t2) := by
    rw [hsplit]; simp [hpos]
  rcases hl : loadEdgeStack c.dataStore u.stackID with ⟨stack, lerr⟩
  cases lerr with
  | some le =>
    exfalso
    rw [loop_of_load_error c u _ stack le hl] at hRrecv
    simp [broadcast] at hRrecv
  | none =>
    obtain ⟨ev, htr, _, hrc, _, hbrk, _, hex⟩ := forLoop_post c (a.length + 1) stack u [] a
      [Event.recv u, Event.load u.stackID] (Nat.lt_succ_self _)
    simp only [List.nil_append] at htr hrc hbrk hex
    have hlat := forLoop_latest c (a.length + 1) stack u [u.respCh] a
      [Event.recv u, Event.load u.stackID]
    rcases hFa : forLoop c (a.length + 1) stack u [u.respCh] a
      [Event.recv u, Event.load u.stackID] with ⟨stkA, chsA, qa, trA, exA⟩
    rw [hFa] at htr hrc hbrk hex hlat
    simp only at htr hrc hbrk hex hlat
    have hstop : exA ≠ Exit.brk → False := by
      intro hne
      have hF := forLoop_prefix_stop c (a.length + 1) a stack u [u.respCh]
        [Event.recv u, Event.load u.stackID] (Nat.lt_succ_self _) (by rw [hFa]; exact hne)
        (x :: b) ((a ++ x :: b).length + 1) (Nat.lt_succ_self _)
      rw [hFa] at hF
      rw [loop_eq_finish c u _ stack hl, hF, received_finish] at hRrecv
      simp only [htr, received_append, received_recv, received_load, received_nil,
        List.cons_append, List.nil_append, List.cons.injEq, true_and] at hRrecv
      have h1 := congrArg List.length hRrecv
      have h2 := congrArg List.length hrc
      simp at h1 h2
      omega
    cases exA with
    | ret err => exact (hstop (by simp)).elim
    | nilDeref => exact (hstop (by simp)).elim
    | exhausted => exact absurd rfl hex
    | brk =>
      obtain ⟨_, hqa, ⟨sA, hsA⟩, _⟩ := hbrk rfl
      subst hqa
      subst hsA
      have hrecvA : received trA = u :: a := by
        rw [htr]
        simpa using hrc
      have hlatA : latestMerged c trA = some sA := hlat rfl
      have hF := forLoop_prefix_brk c (a.length + 1) a stack u [u.respCh]
        [Event.recv u, Event.load u.stackID] sA chsA [] trA (Nat.lt_succ_self _) hFa
      have hF1 := hF (x :: b) ((a ++ x :: b).length + 1) (Nat.lt_succ_self _)
      have hF2 := hF b ((a ++ b).length + 1) (Nat.lt_succ_self _)
      by_cases hxs : x.stackID = sA.ID
      · have hres : resume c (x :: b).length sA chsA (x :: b) trA
            = forLoop c (x :: b).length (some sA) x (chsA ++ [x.respCh]) b
              (trA ++ [Event.recv x]) := by
          simp [resume, getNextUpdate, hxs]
        rw [loop_eq_finish c u _ stack hl, hF1, hres, forLoop_shift] at hsplit
        obtain ⟨tail, htail⟩ := finish_trace c (Tx.shift (trA ++ [Event.recv x])
          (forLoop c (x :: b).length (some sA) x (chsA ++ [x.respCh]) b []))
        rw [htail] at hsplit
        simp only [Tx.shift, List.append_assoc, List.singleton_append] at hsplit
        obtain ⟨h1, _, _⟩ := split_at_recv _ _ _ _ _ _ hsplit (by rw [hrecvA, hpos])
        subst h1
        exact ⟨sA, hlatA, fun hne => absurd hxs hne⟩
      · have hskip : resume c (x :: b).length sA chsA (x :: b) trA
            = resume c b.length sA chsA b
              (trA ++ [Event.recv x, Event.send x.respCh busyResponse]) := by
          have h1 := resume_skip c (x :: b).length sA chsA [x] b trA (by
            intro y hy
            rw [List.mem_singleton.1 hy]
            exact hxs)
          have h2 := resume_fuel c (x :: b).length b.length sA chsA b
            (trA ++ busyTrace [x]) (by simp) (Nat.le_refl _)
          exact h1.trans h2
        rw [hskip, resume_shift] at hF1
        rw [resume_shift] at hF2
        have hins : Tx.shift (trA ++ [Event.recv x, Event.send x.respCh busyResponse])
            (resume c b.length sA chsA b [])
            = { Tx.shift trA (resume c b.length sA chsA b []) with
                trace := trA ++ [Event.recv x, Event.send x.respCh busyResponse] ++
                  (resume c b.length sA chsA b []).trace } := by
          simp [Tx.shift]
        obtain ⟨e1, e2, t3, e3, e4⟩ := finish_insert c
          (Tx.shift trA (resume c b.length sA chsA b [])) trA
          [Event.recv x, Event.send x.respCh busyResponse]
          (resume c b.length sA chsA b []).trace rfl
        rw [loop_eq_finish c u (a ++ x :: b) stack hl, hF1, hins] at hsplit ⊢
        rw [loop_eq_finish c u (a ++ b) stack hl, hF2]
        rw [e4] at hsplit
        simp only [List.append_assoc, List.cons_append, List.nil_append] at hsplit
        obtain ⟨h1, _, h3⟩ := split_at_recv _ _ _ _ _ _ hsplit (by rw [hrecvA, hpos])
        subst h1
        exact ⟨sA, hlatA, fun _ => ⟨t3, h3.symm, e3, e1, e2⟩⟩

/-- C4, amended: take any round and any envelope `x` that the worker receives during the
drain, after the envelopes `u :: a` and the events `t1`, at a moment when the latest
call of `statusUpdateFn` has returned the record `s` (the record whose `stack.ID` is
handed to `getNextUpdate`), with the id of `x` different from the id of `s`. Then the
next event is the busy response on the reply channel of `x`, and the round is the round
without `x` in the queue with these two events inserted: same ending, same envelopes
left pending, same calls of `statusUpdateFn`, same save, same broadcast. When no other
envelope of the queue shares the reply channel of `x`, that channel receives exactly
the busy response and `x` is never passed to `statusUpdateFn`. -/
theorem loop_other_stack (c : EdgeStackStatusUpdateCoordinator) (u : statusRequest)
    (a : List statusRequest) (x : statusRequest) (b : List statusRequest)
    (t1 t2 : List Event) (s : EdgeStack)
    (hsplit : (loop c (u :: (a ++ x :: b))).trace = t1 ++ Event.recv x :: t2)
    (hpos : received t1 = u :: a)
    (hrec : latestMerged c t1 = some s)
    (hx : x.stackID ≠ s.ID) :
    ∃ t3, t2 = Event.send x.respCh busyResponse :: t3 ∧
      (loop c (u :: (a ++ b))).trace = t1 ++ t3 ∧
      (loop c (u :: (a ++ x :: b))).ending = (loop c (u :: (a ++ b))).ending ∧
      (loop c (u :: (a ++ x :: b))).updateCh = (loop c (u :: (a ++ b))).updateCh ∧
      mergeCalls (loop c (u :: (a ++ x :: b))).trace
        = mergeCalls (loop c (u :: (a ++ b))).trace ∧
      saves (loop c (u :: (a ++ x :: b))).trace = saves (loop c (u :: (a ++ b))).trace ∧
      sends (loop c (u :: (a ++ x :: b))).trace
        = sends t1 ++ (x.respCh, busyResponse) :: sends t3 ∧
      sends (loop c (u :: (a ++ b))).trace = sends t1 ++ sends t3 ∧
      ((∀ y ∈ u :: (a ++ b), y.respCh ≠ x.respCh) →
        replies x.respCh (loop c (u :: (a ++ x :: b))).trace = [busyResponse] ∧
        x ∉ merged (loop c (u :: (a ++ x :: b))).trace) := by
  obtain ⟨s1, hs1, hkey⟩ := drain_point c u a x b t1 t2 hsplit hpos
  rw [hrec] at hs1
  cases hs1
  obtain ⟨t3, k1, k2, k3, k4⟩ := hkey hx
  subst k1
  refine ⟨t3, rfl, k2, k3, k4, ?_, ?_, ?_, ?_, ?_⟩
  · rw [hsplit, k2]; simp
  · rw [hsplit, k2]; simp
  · rw [hsplit]; simp
  · rw [k2]; simp
  · intro hfresh
    obtain ⟨hs, hm⟩ := loop_members c u (a ++ b)
    rw [k2] at hs hm
    constructor
    · have h1 : replies x.respCh t1 = [] := by
        apply replies_eq_nil
        intro p hp
        obtain ⟨y, hy, hyp⟩ := hs p (by simp [hp])
        rw [← hyp]
        exact hfresh y hy
      have h2 : replies x.respCh t3 = [] := by
        apply replies_eq_nil
        intro p hp
        obtain ⟨y, hy, hyp⟩ := hs p (by simp [hp])
        rw [← hyp]
        exact hfresh y hy
      have e : t1 ++ Event.recv x :: Event.send x.respCh busyResponse :: t3
          = t1 ++ [Event.recv x, Event.send x.respCh busyResponse] ++ t3 := by simp
      rw [hsplit, e, replies_append, replies_append, h1, h2]
      simp [replies]
    · intro hmem
      rw [hsplit] at hmem
      have : x ∈ merged (t1 ++ t3) := by
        simp only [merged_append, List.mem_append] at hmem ⊢
        rcases hmem with h | h
        · exact Or.inl h
        · exact Or.inr (by simpa [merged] using h)
      exact hfresh x (hm x this) rfl

/-- Witness for C4 amended: a round whose merges change the id of the record. The seed is
for stack 5, the merged records carry the ids 6, 7, 8; the envelope for stack 9 is
received when the round holds record 7. -/
theorem loop_other_stack_witness :
    ∃ t3, ([Event.send 2 busyResponse, Event.recv (envelope 3 7 "c"),
        Event.merge (some ⟨7, "b"⟩) (envelope 3 7 "c") 7, Event.save 8 ⟨8, "c"⟩,
        Event.send 0 ⟨some ⟨8, "c"⟩, none⟩, Event.send 1 ⟨some ⟨8, "c"⟩, none⟩,
        Event.send 3 ⟨some ⟨8, "c"⟩, none⟩] : List Event) = Event.send (envelope 2 9 "x").respCh busyResponse :: t3 ∧
      (loop ⟨demoStore, renumber⟩ (envelope 0 5 "a" ::
        ([envelope 1 6 "b"] ++ [envelope 3 7 "c"]))).trace
        = [Event.recv (envelope 0 5 "a"), Event.load 5,
        Event.merge (some ⟨5, "pending"⟩) (envelope 0 5 "a") 5, Event.recv (envelope 1 6 "b"),
        Event.merge (some ⟨6, "a"⟩) (envelope 1 6 "b") 6] ++ t3 ∧
      (loop ⟨demoStore, renumber⟩ (envelope 0 5 "a" ::
        ([envelope 1 6 "b"] ++ envelope 2 9 "x" :: [envelope 3 7 "c"]))).ending
        = (loop ⟨demoStore, renumber⟩ (envelope 0 5 "a" ::
        ([envelope 1 6 "b"] ++ [envelope 3 7 "c"]))).ending ∧
      (loop ⟨demoStore, renumber⟩ (envelope 0 5 "a" ::
        ([envelope 1 6 "b"] ++ envelope 2 9 "x" :: [envelope 3 7 "c"]))).updateCh
        = (loop ⟨demoStore, renumber⟩ (envelope 0 5 "a" ::
        ([envelope 1 6 "b"] ++ [envelope 3 7 "c"]))).updateCh ∧
      mergeCalls (loop ⟨demoStore, renumber⟩ (envelope 0 5 "a" ::
        ([envelope 1 6 "b"] ++ envelope 2 9 "x" :: [envelope 3 7 "c"]))).trace
        = mergeCalls (loop ⟨demoStore, renumber⟩ (envelope 0 5 "a" ::
        ([envelope 1 6 "b"] ++ [envelope 3 7 "c"]))).trace ∧
      saves (loop ⟨demoStore, renumber⟩ (envelope 0 5 "a" ::
        ([envelope 1 6 "b"] ++ envelope 2 9 "x" :: [envelope 3 7 "c"]))).trace
        = saves (loop ⟨demoStore, renumber⟩ (envelope 0 5 "a" ::
        ([envelope 1 6 "b"] ++ [envelope 3 7 "c"]))).trace ∧
      sends (loop ⟨demoStore, renumber⟩ (envelope 0 5 "a" ::
        ([envelope 1 6 "b"] ++ envelope 2 9 "x" :: [envelope 3 7 "c"]))).trace
        = sends [Event.recv (envelope 0 5 "a"), Event.load 5,
        Event.merge (some ⟨5, "pending"⟩) (envelope 0 5 "a") 5, Event.recv (envelope 1 6 "b"),
        Event.merge (some ⟨6, "a"⟩) (envelope 1 6 "b") 6] ++ ((envelope 2 9 "x").respCh, busyResponse) :: sends t3 ∧
      sends (loop ⟨demoStore, renumber⟩ (envelope 0 5 "a" ::
        ([envelope 1 6 "b"] ++ [envelope 3 7 "c"]))).trace
        = sends [Event.recv (envelope 0 5 "a"), Event.load 5,
        Event.merge (some ⟨5, "pending"⟩) (envelope 0 5 "a") 5, Event.recv (envelope 1 6 "b"),
        Event.merge (some ⟨6, "a"⟩) (envelope 1 6 "b") 6] ++ sends t3 ∧
      ((∀ y ∈ envelope 0 5 "a" :: ([envelope 1 6 "b"] ++ [envelope 3 7 "c"]),
          y.respCh ≠ (envelope 2 9 "x").respCh) →
        replies (envelope 2 9 "x").respCh (loop ⟨demoStore, renumber⟩ (envelope 0 5 "a" ::
        ([envelope 1 6 "b"] ++ envelope 2 9 "x" :: [envelope 3 7 "c"]))).trace = [busyResponse] ∧
        envelope 2 9 "x" ∉ merged (loop ⟨demoStore, renumber⟩ (envelope 0 5 "a" ::
        ([envelope 1 6 "b"] ++ envelope 2 9 "x" :: [envelope 3 7 "c"]))).trace) :=
  loop_other_stack ⟨demoStore, renumber⟩ (envelope 0 5 "a") [envelope 1 6 "b"]
    (envelope 2 9 "x") [envelope 3 7 "c"]
    [Event.recv (envelope 0 5 "a"), Event.load 5,
        Event.merge (some ⟨5, "pending"⟩) (envelope 0 5 "a") 5, Event.recv (envelope 1 6 "b"),
        Event.merge (some ⟨6, "a"⟩) (envelope 1 6 "b") 6]
    [Event.send 2 busyResponse, Event.recv (envelope 3 7 "c"),
        Event.merge (some ⟨7, "b"⟩) (envelope 3 7 "c") 7, Event.save 8 ⟨8, "c"⟩,
        Event.send 0 ⟨some ⟨8, "c"⟩, none⟩, Event.send 1 ⟨some ⟨8, "c"⟩, none⟩,
        Event.send 3 ⟨some ⟨8, "c"⟩, none⟩]
    ⟨7, "b"⟩ (by decide) (by decide) (by decide) (by decide)

/-! ## The invariant is inductive -/

theorem callers_put (s : System) (ch : Chan) (clr : Caller) (ch1 : Chan) :
    (s.put ch clr).callers ch1 = if ch1 = ch then some clr else s.callers ch1 := by
  simp [System.put, Function.update_apply]

@[simp] theorem worker_put (s : System) (ch : Chan) (clr : Caller) :
    (s.put ch clr).worker = s.worker := rfl

@[simp] theorem log_put (s : System) (ch : Chan) (clr : Caller) :
    (s.put ch clr).log = s.log := rfl

@[simp] theorem worker_move (s : System) (ch : Chan) (clr : Caller) (pc : CallerPC) :
    (s.move ch clr pc).worker = s.worker := rfl

@[simp] theorem log_move (s : System) (ch : Chan) (clr : Caller) (pc : CallerPC) :
    (s.move ch clr pc).log = s.log := rfl

@[simp] theorem callers_work (s : System) (w : WorkerPC) (ev : List Event) :
    (s.work w ev).callers = s.callers := rfl

@[simp] theorem worker_work (s : System) (w : WorkerPC) (ev : List Event) :
    (s.work w ev).worker = w := rfl

@[simp] theorem log_work (s : System) (w : WorkerPC) (ev : List Event) :
    (s.work w ev).log = s.log ++ ev := rfl

theorem callerOK_congr (log1 log2 : List Event) (ch : Chan) (clr : Caller)
    (hr : clr.msg ∈ received log2 ↔ clr.msg ∈ received log1)
    (hs : replies ch log2 = replies ch log1) (h : CallerOK log1 ch clr) :
    CallerOK log2 ch clr := by
  obtain ⟨h1, h2⟩ := h
  refine ⟨h1, ?_⟩
  cases hpc : clr.pc <;> simp only [hpc] at h2 ⊢ <;> simp only [hr, hs] <;> exact h2

theorem replies_of_not_received (s : System) (hinv : Inv s) (ch : Chan) (clr : Caller)
    (hc : s.callers ch = some clr) (hn : clr.msg ∉ received s.log) :
    replies ch s.log = [] := by
  apply replies_eq_nil
  intro p hp hpc
  obtain ⟨u, hu, hup⟩ := hinv.sends_received p hp
  obtain ⟨clr1, h1, h2⟩ := hinv.received_known u hu
  rw [hup, hpc, hc] at h1
  cases h1
  exact hn (h2 ▸ hu)

theorem not_merged_of_not_received (s : System) (hinv : Inv s) (u : statusRequest)
    (hn : u ∉ received s.log) : u ∉ merged s.log :=
  fun h => hn (hinv.merged_received u h)

theorem inv_init : Inv System.init where
  callers_ok := by intro ch clr h; cases h
  owed_awaiting := by intro ch h; cases h
  owed_nodup := List.nodup_nil
  held_received := by intro u h; cases h
  received_known := by intro u h; cases h
  sends_received := by intro p h; cases h
  merged_received := by intro u h; cases h
  not_sendOnClosed := by intro h; cases h
  awaiting_owed := by intro ch clr h; cases h

/-- A call changes without touching its envelope or entering or leaving the wait of
line 159. -/
theorem inv_put (s : System) (hinv : Inv s) (ch : Chan) (clr clr1 : Caller)
    (hc : s.callers ch = some clr) (hmsg : clr1.msg = clr.msg)
    (hpc : clr1.pc = CallerPC.awaiting ↔ clr.pc = CallerPC.awaiting)
    (hok : CallerOK s.log ch clr1) : Inv (s.put ch clr1) where
  callers_ok := by
    intro ch2 clr2 h
    rw [callers_put] at h
    by_cases hch : ch2 = ch
    · rw [if_pos hch] at h
      cases h
      rw [hch]
      exact hok
    · rw [if_neg hch] at h
      exact hinv.callers_ok ch2 clr2 h
  owed_awaiting := by
    intro ch2 hmem
    obtain ⟨clr2, h1, h2⟩ := hinv.owed_awaiting ch2 hmem
    by_cases hch : ch2 = ch
    · subst hch
      rw [hc] at h1
      cases h1
      exact ⟨clr1, by rw [callers_put, if_pos rfl], hpc.2 h2⟩
    · exact ⟨clr2, by rw [callers_put, if_neg hch]; exact h1, h2⟩
  owed_nodup := hinv.owed_nodup
  held_received := hinv.held_received
  received_known := by
    intro u hu
    obtain ⟨clr2, h1, h2⟩ := hinv.received_known u hu
    by_cases hch : u.respCh = ch
    · rw [hch, hc] at h1
      cases h1
      exact ⟨clr1, by rw [callers_put, if_pos hch], by rw [hmsg]; exact h2⟩
    · exact ⟨clr2, by rw [callers_put, if_neg hch]; exact h1, h2⟩
  sends_received := hinv.sends_received
  merged_received := hinv.merged_received
  not_sendOnClosed := hinv.not_sendOnClosed
  awaiting_owed := by
    intro ch2 clr2 h hp
    rw [callers_put] at h
    by_cases hch : ch2 = ch
    · rw [if_pos hch] at h
      cases h
      rw [hch]
      exact hinv.awaiting_owed ch clr hc (hpc.1 hp)
    · rw [if_neg hch] at h
      exact hinv.awaiting_owed ch2 clr2 h hp

/-- A new call on a fresh reply channel. -/
theorem inv_call (s : System) (hinv : Inv s) (msg : statusRequest)
    (hc : s.callers msg.respCh = none) :
    Inv (s.put msg.respCh ⟨msg, none, CallerPC.entered⟩) where
  callers_ok := by
    intro ch2 clr2 h
    rw [callers_put] at h
    by_cases hch : ch2 = msg.respCh
    · rw [if_pos hch] at h
      cases h
      refine ⟨hch.symm, ?_⟩
      show msg ∉ received s.log
      intro hm
      obtain ⟨clr3, h3, _⟩ := hinv.received_known msg hm
      rw [hc] at h3
      cases h3
    · rw [if_neg hch] at h
      exact hinv.callers_ok ch2 clr2 h
  owed_awaiting := by
    intro ch2 hmem
    obtain ⟨clr2, h1, h2⟩ := hinv.owed_awaiting ch2 hmem
    have hch : ch2 ≠ msg.respCh := by
      intro hch
      rw [hch, hc] at h1
      cases h1
    exact ⟨clr2, by rw [callers_put, if_neg hch]; exact h1, h2⟩
  owed_nodup := hinv.owed_nodup
  held_received := hinv.held_received
  received_known := by
    intro u hu
    obtain ⟨clr2, h1, h2⟩ := hinv.received_known u hu
    have hch : u.respCh ≠ msg.respCh := by
      intro hch
      rw [hch, hc] at h1
      cases h1
    exact ⟨clr2, by rw [callers_put, if_neg hch]; exact h1, h2⟩
  sends_received := hinv.sends_received
  merged_received := hinv.merged_received
  not_sendOnClosed := hinv.not_sendOnClosed
  awaiting_owed := by
    intro ch2 clr2 h hp
    rw [callers_put] at h
    by_cases hch : ch2 = msg.respCh
    · rw [if_pos hch] at h
      cases h
      cases hp
    · rw [if_neg hch] at h
      exact hinv.awaiting_owed ch2 clr2 h hp

/-- A worker step that neither receives nor sends. -/
theorem inv_work (s : System) (hinv : Inv s) (w : WorkerPC) (ev : List Event)
    (hrecv : received ev = []) (hsend : sends ev = [])
    (hmerged : ∀ u ∈ merged ev, u ∈ held s.worker)
    (howed : owed w = owed s.worker ∨ w = WorkerPC.crashed Crash.nilDeref)
    (hheld : ∀ u ∈ held w, u ∈ held s.worker)
    (hw : w ≠ WorkerPC.crashed Crash.sendOnClosed)
    (hnc : s.worker ≠ WorkerPC.crashed Crash.nilDeref) : Inv (s.work w ev) where
  callers_ok := by
    intro ch clr h
    apply callerOK_congr s.log _ ch clr _ _ (hinv.callers_ok ch clr h)
    · simp [hrecv]
    · simp [replies, hsend]
  owed_awaiting := by
    intro ch hmem
    rcases howed with h | h
    · simp only [worker_work, h] at hmem
      exact hinv.owed_awaiting ch hmem
    · simp only [worker_work, h, owed] at hmem
      cases hmem
  owed_nodup := by
    rcases howed with h | h
    · simp only [worker_work, h]
      exact hinv.owed_nodup
    · simp only [worker_work, h, owed]
      exact List.nodup_nil
  held_received := by
    intro u hu
    simp only [log_work, received_append, hrecv, List.append_nil]
    exact hinv.held_received u (hheld u hu)
  received_known := by
    intro u hu
    simp only [log_work, received_append, hrecv, List.append_nil] at hu
    exact hinv.received_known u hu
  sends_received := by
    intro p hp
    simp only [log_work, sends_append, hsend, List.append_nil, received_append, hrecv] at hp ⊢
    exact hinv.sends_received p hp
  merged_received := by
    intro u hu
    simp only [log_work, merged_append, List.mem_append, received_append, hrecv,
      List.append_nil] at hu ⊢
    rcases hu with hu | hu
    · exact hinv.merged_received u hu
    · exact hinv.held_received u (hmerged u hu)
  not_sendOnClosed := hw
  awaiting_owed := by
    intro ch clr h hp
    rcases howed with h1 | h1
    · rcases hinv.awaiting_owed ch clr h hp with h2 | h2
      · left
        simp only [worker_work, h1]
        exact h2
      · exact absurd h2 hnc
    · right
      exact h1

theorem replies_send_same (ch : Chan) (log : List Event) (resp : statusResponse) :
    replies ch (log ++ [Event.send ch resp]) = replies ch log ++ [resp] := by
  simp [replies]

theorem replies_send_other (ch ch1 : Chan) (log : List Event) (resp : statusResponse)
    (h : ch1 ≠ ch) : replies ch (log ++ [Event.send ch1 resp]) = replies ch log := by
  simp [replies, h]

theorem replies_recv (ch : Chan) (log : List Event) (u : statusRequest) :
    replies ch (log ++ [Event.recv u]) = replies ch log := by
  simp [replies]

/-- A hand-off: the worker receives the envelope of a call blocked in its `select`. -/
theorem inv_handoff (s : System) (hinv : Inv s) (ch : Chan) (clr : Caller) (w : WorkerPC)
    (hc : s.callers ch = some clr) (hpc : clr.pc = CallerPC.selecting)
    (howed : owed w = ch :: owed s.worker ∨ owed w = owed s.worker ++ [ch])
    (hheld : ∀ u ∈ held w, u = clr.msg)
    (hw : w ≠ WorkerPC.crashed Crash.sendOnClosed)
    (hnc : s.worker ≠ WorkerPC.crashed Crash.nilDeref) :
    Inv ((s.move ch clr CallerPC.awaiting).work w [Event.recv clr.msg]) := by
  have hok := hinv.callers_ok ch clr hc
  obtain ⟨hresp, hnr⟩ := hok
  simp only [hpc] at hnr
  have hnotowed : ch ∉ owed s.worker := by
    intro hmem
    obtain ⟨clr2, h1, h2⟩ := hinv.owed_awaiting ch hmem
    rw [hc] at h1
    cases h1
    rw [hpc] at h2
    cases h2
  have hmem : ∀ c, c ∈ owed w ↔ c = ch ∨ c ∈ owed s.worker := by
    intro c
    rcases howed with h | h <;> rw [h] <;> simp [or_comm]
  have hother : ∀ ch2 clr2, ch2 ≠ ch → s.callers ch2 = some clr2 → clr2.msg ≠ clr.msg := by
    intro ch2 clr2 hne h2 heq
    have := (hinv.callers_ok ch2 clr2 h2).1
    rw [heq, hresp] at this
    exact hne this.symm
  refine ⟨?_, ?_, ?_, ?_, ?_, ?_, ?_, hw, ?_⟩
  · intro ch2 clr2 h
    simp only [callers_work, System.move] at h
    rw [callers_put] at h
    by_cases hch : ch2 = ch
    · rw [if_pos hch] at h
      cases h
      subst hch
      refine ⟨hresp, ?_⟩
      show clr.msg ∈ received (s.log ++ [Event.recv clr.msg]) ∧
        replies ch2 (s.log ++ [Event.recv clr.msg]) = []
      refine ⟨by simp, ?_⟩
      rw [replies_recv]
      exact replies_of_not_received s hinv ch2 clr hc hnr
    · rw [if_neg hch] at h
      apply callerOK_congr s.log _ ch2 clr2 _ _ (hinv.callers_ok ch2 clr2 h)
      · have := hother ch2 clr2 hch h
        simp [this]
      · exact replies_recv _ _ _
  · intro c hc2
    simp only [worker_work] at hc2
    simp only [callers_work, System.move]
    rcases (hmem c).1 hc2 with h | h
    · exact ⟨{ clr with pc := CallerPC.awaiting }, by rw [callers_put, if_pos h], rfl⟩
    · obtain ⟨clr2, h1, h2⟩ := hinv.owed_awaiting c h
      have hne : c ≠ ch := fun heq => hnotowed (heq ▸ h)
      exact ⟨clr2, by rw [callers_put, if_neg hne]; exact h1, h2⟩
  · simp only [worker_work]
    rcases howed with h | h <;> rw [h]
    · exact List.nodup_cons.2 ⟨hnotowed, hinv.owed_nodup⟩
    · exact List.nodup_append_comm.1 (List.nodup_cons.2 ⟨hnotowed, hinv.owed_nodup⟩)
  · intro u hu
    simp only [worker_work] at hu
    rw [hheld u hu]
    simp
  · intro u hu
    simp only [log_work, received_append, received_recv, received_nil, List.mem_append,
      List.mem_singleton, log_put, System.move] at hu
    simp only [callers_work, System.move]
    have hold : ∀ v, v ∈ received s.log →
        ∃ clr2, (s.put ch { clr with pc := CallerPC.awaiting }).callers v.respCh = some clr2 ∧
          clr2.msg = v := by
      intro v hv
      obtain ⟨clr2, h1, h2⟩ := hinv.received_known v hv
      by_cases hch : v.respCh = ch
      · rw [hch, hc] at h1
        cases h1
        exact ⟨{ clr with pc := CallerPC.awaiting }, by rw [callers_put, if_pos hch], h2⟩
      · exact ⟨clr2, by rw [callers_put, if_neg hch]; exact h1, h2⟩
    rcases hu with hu | hu
    · exact hold u hu
    · rw [hu]
      exact ⟨{ clr with pc := CallerPC.awaiting }, by rw [callers_put, if_pos hresp], rfl⟩
  · intro p hp
    simp only [log_work, sends_append, sends_recv, sends_nil, List.append_nil, log_put,
      System.move] at hp
    obtain ⟨u, hu, hup⟩ := hinv.sends_received p hp
    exact ⟨u, by simp [System.move, hu], hup⟩
  · intro u hu
    simp only [log_work, merged_append, log_put, System.move, merged, mergeCalls_recv,
      mergeCalls_nil, List.map_nil, List.append_nil] at hu
    have := hinv.merged_received u (by simpa [merged] using hu)
    simp [System.move, this]
  · intro ch2 clr2 h hp
    simp only [callers_work, System.move] at h
    rw [callers_put] at h
    left
    simp only [worker_work]
    by_cases hch : ch2 = ch
    · exact (hmem ch2).2 (Or.inl hch)
    · rw [if_neg hch] at h
      rcases hinv.awaiting_owed ch2 clr2 h hp with h2 | h2
      · exact (hmem ch2).2 (Or.inr h2)
      · exact absurd h2 hnc

/-- A send on a reply channel met by the receive of line 159. -/
theorem inv_send (s : System) (hinv : Inv s) (ch : Chan) (rest : List Chan) (clr : Caller)
    (w : WorkerPC) (resp : statusResponse)
    (hold : owed s.worker = ch :: rest) (hc : s.callers ch = some clr)
    (hpc : clr.pc = CallerPC.awaiting) (howed : owed w = rest) (hheld : held w = [])
    (hw : w ≠ WorkerPC.crashed Crash.sendOnClosed)
    (hnc : s.worker ≠ WorkerPC.crashed Crash.nilDeref) :
    Inv ((s.move ch clr (CallerPC.replied resp)).work w [Event.send ch resp]) := by
  have hok := hinv.callers_ok ch clr hc
  obtain ⟨hresp, hok2⟩ := hok
  simp only [hpc] at hok2
  obtain ⟨hrecv, hrep⟩ := hok2
  have hnd := hinv.owed_nodup
  rw [hold] at hnd
  obtain ⟨hnotin, hnd2⟩ := List.nodup_cons.1 hnd
  refine ⟨?_, ?_, ?_, ?_, ?_, ?_, ?_, hw, ?_⟩
  · intro ch2 clr2 h
    simp only [callers_work, System.move] at h
    rw [callers_put] at h
    by_cases hch : ch2 = ch
    · rw [if_pos hch] at h
      cases h
      subst hch
      refine ⟨hresp, ?_⟩
      show clr.msg ∈ received (s.log ++ [Event.send ch2 resp]) ∧
        replies ch2 (s.log ++ [Event.send ch2 resp]) = [resp]
      refine ⟨by simp [hrecv], ?_⟩
      rw [replies_send_same, hrep]
      rfl
    · rw [if_neg hch] at h
      apply callerOK_congr s.log _ ch2 clr2 _ _ (hinv.callers_ok ch2 clr2 h)
      · simp
      · exact replies_send_other _ _ _ _ (fun heq => hch heq.symm)
  · intro c hc2
    simp only [worker_work, howed] at hc2
    simp only [callers_work, System.move]
    obtain ⟨clr2, h1, h2⟩ := hinv.owed_awaiting c (by rw [hold]; exact List.mem_cons_of_mem _ hc2)
    have hne : c ≠ ch := fun heq => hnotin (heq ▸ hc2)
    exact ⟨clr2, by rw [callers_put, if_neg hne]; exact h1, h2⟩
  · simp only [worker_work, howed]
    exact hnd2
  · intro u hu
    simp only [worker_work, hheld] at hu
    cases hu
  · intro u hu
    simp only [log_work, received_append, received_send, received_nil, List.append_nil,
      log_put, System.move] at hu
    simp only [callers_work, System.move]
    obtain ⟨clr2, h1, h2⟩ := hinv.received_known u hu
    by_cases hch : u.respCh = ch
    · rw [hch, hc] at h1
      cases h1
      exact ⟨{ clr with pc := CallerPC.replied resp }, by rw [callers_put, if_pos hch], h2⟩
    · exact ⟨clr2, by rw [callers_put, if_neg hch]; exact h1, h2⟩
  · intro p hp
    simp only [log_work, sends_append, sends_send, sends_nil, List.mem_append,
      List.mem_singleton, log_put, System.move, received_append, received_send,
      received_nil, List.append_nil] at hp ⊢
    rcases hp with hp | hp
    · exact hinv.sends_received p hp
    · exact ⟨clr.msg, hrecv, by rw [hp]; exact hresp⟩
  · intro u hu
    simp only [log_work, merged_append, log_put, System.move, merged, mergeCalls_send,
      mergeCalls_nil, List.map_nil, List.append_nil] at hu
    have := hinv.merged_received u (by simpa [merged] using hu)
    simp [System.move, this]
  · intro ch2 clr2 h hp
    simp only [callers_work, System.move] at h
    rw [callers_put] at h
    left
    simp only [worker_work, howed]
    by_cases hch : ch2 = ch
    · rw [if_pos hch] at h
      cases h
      cases hp
    · rw [if_neg hch] at h
      rcases hinv.awaiting_owed ch2 clr2 h hp with h2 | h2
      · rw [hold] at h2
        rcases List.mem_cons.1 h2 with h3 | h3
        · exact absurd h3 hch
        · exact h3
      · exact absurd h2 hnc

theorem owed_afterLoad (u : statusRequest) (respChs : List Chan)
    (res : Option EdgeStack × Option Error) :
    owed (afterLoad u respChs res) = respChs ∧
    (∀ v ∈ held (afterLoad u respChs res), v = u) ∧
    afterLoad u respChs res ≠ WorkerPC.crashed Crash.sendOnClosed := by
  rcases res with ⟨stack, _ | err⟩
  · exact ⟨rfl, by intro v hv; simpa [afterLoad, held] using hv, by simp [afterLoad]⟩
  · exact ⟨rfl, by intro v hv; simp [afterLoad, held] at hv, by simp [afterLoad]⟩

theorem owed_afterMerge (respChs : List Chan) (res : Option EdgeStack × Option Error) :
    (owed (afterMerge respChs res) = respChs ∨
      afterMerge respChs res = WorkerPC.crashed Crash.nilDeref) ∧
    held (afterMerge respChs res) = [] ∧
    afterMerge respChs res ≠ WorkerPC.crashed Crash.sendOnClosed := by
  rcases res with ⟨_ | s1, _ | err⟩
  · exact ⟨Or.inr rfl, rfl, by simp [afterMerge]⟩
  · exact ⟨Or.inl rfl, rfl, by simp [afterMerge]⟩
  · exact ⟨Or.inl rfl, rfl, by simp [afterMerge]⟩
  · exact ⟨Or.inl rfl, rfl, by simp [afterMerge]⟩

theorem owed_afterDrain (respChs : List Chan) (stack : EdgeStack) (m : statusRequest) :
    (owed (afterDrain respChs stack m) = m.respCh :: respChs ∨
      owed (afterDrain respChs stack m) = respChs ++ [m.respCh]) ∧
    (∀ v ∈ held (afterDrain respChs stack m), v = m) ∧
    afterDrain respChs stack m ≠ WorkerPC.crashed Crash.sendOnClosed := by
  unfold afterDrain
  by_cases h : m.stackID ≠ stack.ID
  · rw [if_pos h]
    exact ⟨Or.inl rfl, by intro v hv; simpa [held] using hv, by simp⟩
  · rw [if_neg h]
    exact ⟨Or.inr rfl, by intro v hv; simpa [held] using hv, by simp⟩

theorem owed_afterSave (respChs : List Chan) (stack : EdgeStack) (res : Option Error) :
    owed (afterSave respChs stack res) = respChs ∧
    held (afterSave respChs stack res) = [] ∧
    afterSave respChs stack res ≠ WorkerPC.crashed Crash.sendOnClosed := by
  cases res with
  | none => exact ⟨rfl, rfl, by simp [afterSave]⟩
  | some err => exact ⟨rfl, rfl, by simp [afterSave]⟩

/-- The invariant is kept by every step. -/
theorem inv_step (s t : System) (hinv : Inv s) (hstep : Step s t) : Inv t := by
  cases hstep with
  | call msg hc => exact inv_call s hinv msg hc
  | enterSelect ch clr hc hpc =>
    obtain ⟨h1, h2⟩ := hinv.callers_ok ch clr hc
    simp only [hpc] at h2
    exact inv_put s hinv ch clr _ hc rfl (by simp [hpc]) ⟨h1, h2⟩
  | ctxDone ch clr err hc hctx =>
    obtain ⟨h1, h2⟩ := hinv.callers_ok ch clr hc
    refine inv_put s hinv ch clr _ hc rfl Iff.rfl ⟨h1, ?_⟩
    cases hpc : clr.pc with
    | entered => simp only [hpc] at h2 ⊢; exact h2
    | selecting => simp only [hpc] at h2 ⊢; exact h2
    | awaiting => simp only [hpc] at h2 ⊢; exact h2
    | replied resp => simp only [hpc] at h2 ⊢; exact h2
    | cancelled e =>
      simp only [hpc] at h2
      rw [hctx] at h2
      cases h2.2
    | returned st e =>
      simp only [hpc] at h2 ⊢
      rcases h2 with h3 | h3
      · exact absurd hctx h3.2.2.2
      · exact Or.inr h3
  | abandon ch clr err hc hpc hctx =>
    obtain ⟨h1, h2⟩ := hinv.callers_ok ch clr hc
    simp only [hpc] at h2
    exact inv_put s hinv ch clr _ hc rfl (by simp [hpc]) ⟨h1, h2, hctx⟩
  | returnReply ch clr resp hc hpc =>
    obtain ⟨h1, h2⟩ := hinv.callers_ok ch clr hc
    simp only [hpc] at h2
    exact inv_put s hinv ch clr _ hc rfl (by simp [hpc]) ⟨h1, Or.inr h2⟩
  | returnCancelled ch clr err hc hpc =>
    obtain ⟨h1, h2⟩ := hinv.callers_ok ch clr hc
    simp only [hpc] at h2
    exact inv_put s hinv ch clr _ hc rfl (by simp [hpc])
      ⟨h1, Or.inl ⟨h2.1, rfl, h2.2.symm, by rw [h2.2]; simp⟩⟩
  | recvSeed ch clr hw hc hpc =>
    have hresp := (hinv.callers_ok ch clr hc).1
    exact inv_handoff s hinv ch clr _ hc hpc
      (Or.inl (by rw [hw]; simp [owed, hresp]))
      (by intro u hu; simpa [held] using hu) (by simp) (by rw [hw]; simp)
  | load u respChs tx hw =>
    obtain ⟨h1, h2, h3⟩ := owed_afterLoad u respChs (loadEdgeStack tx u.stackID)
    exact inv_work s hinv _ _ rfl rfl (by intro v hv; simp [merged] at hv)
      (Or.inl (by rw [h1, hw]; rfl))
      (by intro v hv; rw [h2 v hv, hw]; simp [held]) h3 (by rw [hw]; simp)
  | mergeNil u respChs hw =>
    exact inv_work s hinv _ _ rfl rfl (by intro v hv; simp [merged] at hv) (Or.inr rfl)
      (by intro v hv; simp [held] at hv) (by simp) (by rw [hw]; simp)
  | merge u respChs stack res hw =>
    obtain ⟨h1, h2, h3⟩ := owed_afterMerge respChs res
    refine inv_work s hinv _ _ rfl rfl ?_ ?_ (by intro v hv; rw [h2] at hv; cases hv) h3
      (by rw [hw]; simp)
    · intro v hv
      simp only [merged, mergeCalls_merge, mergeCalls_nil, List.map_cons, List.map_nil,
        List.mem_singleton] at hv
      rw [hv, hw]
      simp [held]
    · rcases h1 with h1 | h1
      · exact Or.inl (by rw [h1, hw]; rfl)
      · exact Or.inr h1
  | drainRecv respChs stack ch clr hw hc hpc =>
    have hresp := (hinv.callers_ok ch clr hc).1
    obtain ⟨h1, h2, h3⟩ := owed_afterDrain respChs stack clr.msg
    refine inv_handoff s hinv ch clr _ hc hpc ?_ h2 h3 (by rw [hw]; simp)
    rw [hw]
    simp only [owed]
    rw [← hresp]
    exact h1
  | drainDefault respChs stack hw hnone =>
    exact inv_work s hinv _ _ rfl rfl (by intro v hv; simp [merged] at hv)
      (Or.inl (by rw [hw]; rfl)) (by intro v hv; simp [held] at hv) (by simp)
      (by rw [hw]; simp)
  | rejectSend x respChs stack clr hw hc hpc =>
    exact inv_send s hinv x.respCh respChs clr _ busyResponse (by rw [hw]; rfl) hc hpc rfl rfl
      (by simp) (by rw [hw]; simp)
  | rejectClosed x respChs stack clr st err hw hc hpc =>
    exfalso
    obtain ⟨clr2, h1, h2⟩ := hinv.owed_awaiting x.respCh (by rw [hw]; simp [owed])
    rw [hc] at h1
    cases h1
    rw [hpc] at h2
    cases h2
  | save respChs stack tx hw =>
    obtain ⟨h1, h2, h3⟩ := owed_afterSave respChs stack (tx.UpdateEdgeStack stack.ID stack)
    exact inv_work s hinv _ _ rfl rfl (by intro v hv; simp [merged] at hv)
      (Or.inl (by rw [h1, hw]; rfl)) (by intro v hv; rw [h2] at hv; cases hv) h3
      (by rw [hw]; simp)
  | replySend ch todo stack err clr hw hc hpc =>
    exact inv_send s hinv ch todo clr _ ⟨stack, err⟩ (by rw [hw]; rfl) hc hpc rfl rfl
      (by simp) (by rw [hw]; simp)
  | replyClosed ch todo stack err clr st e hw hc hpc =>
    exfalso
    obtain ⟨clr2, h1, h2⟩ := hinv.owed_awaiting ch (by rw [hw]; simp [owed])
    rw [hc] at h1
    cases h1
    rw [hpc] at h2
    cases h2
  | nextRound stack err hw =>
    exact inv_work s hinv _ _ rfl rfl (by intro v hv; simp [merged] at hv)
      (Or.inl (by rw [hw]; rfl)) (by intro v hv; simp [held] at hv) (by simp)
      (by rw [hw]; simp)

theorem inv_of_reachable (s : System) (h : Reachable s) : Inv s := by
  induction h with
  | init => exact inv_init
  | step s t _ hstep ih => exact inv_step s t ih hstep

/-- A call blocked on the receive of line 159 leaves it only by receiving a response the
worker sends on its channel: no step of the call itself, and no cancellation of its
context, moves it. -/
theorem awaiting_step (s t : System) (hstep : Step s t) (ch : Chan) (clr : Caller)
    (hc : s.callers ch = some clr) (hpc : clr.pc = CallerPC.awaiting) :
    ∃ clr1, t.callers ch = some clr1 ∧ clr1.msg = clr.msg ∧
      (clr1.pc = CallerPC.awaiting ∨
        ∃ resp, clr1.pc = CallerPC.replied resp ∧ t.log = s.log ++ [Event.send ch resp]) := by
  have keep : ∀ (ch2 : Chan) (clr2 clr3 : Caller), s.callers ch2 = some clr2 →
      clr2.pc ≠ CallerPC.awaiting →
      ∃ clr1, (s.put ch2 clr3).callers ch = some clr1 ∧ clr1.msg = clr.msg ∧
        clr1.pc = CallerPC.awaiting := by
    intro ch2 clr2 clr3 h2 hne
    have hch : ch ≠ ch2 := by
      intro heq
      rw [← heq, hc] at h2
      cases h2
      exact hne hpc
    exact ⟨clr, by rw [callers_put, if_neg hch]; exact hc, rfl, hpc⟩
  cases hstep with
  | call msg h2 =>
    have hch : ch ≠ msg.respCh := by
      intro heq
      rw [← heq, hc] at h2
      cases h2
    exact ⟨clr, by rw [callers_put, if_neg hch]; exact hc, rfl, Or.inl hpc⟩
  | enterSelect ch2 clr2 h2 hp2 =>
    obtain ⟨c, h, hm, hp⟩ := keep ch2 clr2 { clr2 with pc := CallerPC.selecting } h2
      (by rw [hp2]; simp)
    exact ⟨c, h, hm, Or.inl hp⟩
  | ctxDone ch2 clr2 err h2 hctx =>
    by_cases hch : ch = ch2
    · subst hch
      rw [hc] at h2
      cases h2
      exact ⟨{ clr with ctxErr := some err }, by rw [callers_put, if_pos rfl], rfl, Or.inl hpc⟩
    · exact ⟨clr, by rw [callers_put, if_neg hch]; exact hc, rfl, Or.inl hpc⟩
  | abandon ch2 clr2 err h2 hp2 hctx =>
    obtain ⟨c, h, hm, hp⟩ := keep ch2 clr2 { clr2 with pc := CallerPC.cancelled err } h2
      (by rw [hp2]; simp)
    exact ⟨c, h, hm, Or.inl hp⟩
  | returnReply ch2 clr2 resp h2 hp2 =>
    obtain ⟨c, h, hm, hp⟩ := keep ch2 clr2
      { clr2 with pc := CallerPC.returned resp.Stack resp.Error } h2 (by rw [hp2]; simp)
    exact ⟨c, h, hm, Or.inl hp⟩
  | returnCancelled ch2 clr2 err h2 hp2 =>
    obtain ⟨c, h, hm, hp⟩ := keep ch2 clr2
      { clr2 with pc := CallerPC.returned none (some err) } h2 (by rw [hp2]; simp)
    exact ⟨c, h, hm, Or.inl hp⟩
  | recvSeed ch2 clr2 hw h2 hp2 =>
    obtain ⟨c, h, hm, hp⟩ := keep ch2 clr2 { clr2 with pc := CallerPC.awaiting } h2
      (by rw [hp2]; simp)
    exact ⟨c, h, hm, Or.inl hp⟩
  | load u respChs tx hw => exact ⟨clr, hc, rfl, Or.inl hpc⟩
  | mergeNil u respChs hw => exact ⟨clr, hc, rfl, Or.inl hpc⟩
  | merge u respChs stack res hw => exact ⟨clr, hc, rfl, Or.inl hpc⟩
  | drainRecv respChs stack ch2 clr2 hw h2 hp2 =>
    obtain ⟨c, h, hm, hp⟩ := keep ch2 clr2 { clr2 with pc := CallerPC.awaiting } h2
      (by rw [hp2]; simp)
    exact ⟨c, h, hm, Or.inl hp⟩
  | drainDefault respChs stack hw hnone => exact ⟨clr, hc, rfl, Or.inl hpc⟩
  | rejectSend x respChs stack clr2 hw h2 hp2 =>
    by_cases hch : ch = x.respCh
    · subst hch
      rw [hc] at h2
      cases h2
      exact ⟨{ clr with pc := CallerPC.replied busyResponse },
        by simp only [callers_work, System.move]; rw [callers_put, if_pos rfl], rfl,
        Or.inr ⟨busyResponse, rfl, rfl⟩⟩
    · exact ⟨clr, by simp only [callers_work, System.move]; rw [callers_put, if_neg hch]; exact hc,
        rfl, Or.inl hpc⟩
  | rejectClosed x respChs stack clr2 st err hw h2 hp2 => exact ⟨clr, hc, rfl, Or.inl hpc⟩
  | save respChs stack tx hw => exact ⟨clr, hc, rfl, Or.inl hpc⟩
  | replySend ch2 todo stack err clr2 hw h2 hp2 =>
    by_cases hch : ch = ch2
    · subst hch
      rw [hc] at h2
      cases h2
      exact ⟨{ clr with pc := CallerPC.replied ⟨stack, err⟩ },
        by simp only [callers_work, System.move]; rw [callers_put, if_pos rfl], rfl,
        Or.inr ⟨⟨stack, err⟩, rfl, rfl⟩⟩
    · exact ⟨clr, by simp only [callers_work, System.move]; rw [callers_put, if_neg hch]; exact hc,
        rfl, Or.inl hpc⟩
  | replyClosed ch2 todo stack err clr2 st e hw h2 hp2 => exact ⟨clr, hc, rfl, Or.inl hpc⟩
  | nextRound stack err hw => exact ⟨clr, hc, rfl, Or.inl hpc⟩

/-! ## Theorems on the interleaving model -/

theorem reachable_runSelecting : Reachable runSelecting :=
  Reachable.step _ _
    (Reachable.step _ _ Reachable.init (Step.call System.init (envelope 0 5 "ok1") rfl))
    (Step.enterSelect runEntered 0 ⟨envelope 0 5 "ok1", none, CallerPC.entered⟩ rfl rfl)

theorem reachable_runCancelled : Reachable runCancelled :=
  Reachable.step _ _
    (Reachable.step _ _
      (Reachable.step _ _ reachable_runSelecting
        (Step.ctxDone runSelecting 0 ⟨envelope 0 5 "ok1", none, CallerPC.selecting⟩
          Error.canceled rfl rfl))
      (Step.abandon runCtxDone 0 ⟨envelope 0 5 "ok1", some Error.canceled, CallerPC.selecting⟩
        Error.canceled rfl rfl rfl))
    (Step.returnCancelled runAbandoned 0
      ⟨envelope 0 5 "ok1", some Error.canceled, CallerPC.cancelled Error.canceled⟩
      Error.canceled rfl rfl)

theorem callers_runMerged (ch : Chan) :
    runMerged.callers ch
      = if ch = 0 then some ⟨envelope 0 5 "ok1", none, CallerPC.awaiting⟩ else none := by
  simp only [runMerged, runLoaded, runSeeded, runSelecting, runEntered, callers_work,
    System.move, callers_put, System.init]
  by_cases h : ch = 0 <;> simp [h]

theorem reachable_runReturned : Reachable runReturned := by
  have h3 : Reachable runSeeded :=
    Reachable.step _ _ reachable_runSelecting
      (Step.recvSeed runSelecting 0 ⟨envelope 0 5 "ok1", none, CallerPC.selecting⟩ rfl rfl rfl)
  have h4 : Reachable runLoaded :=
    Reachable.step _ _ h3
      (Step.load runSeeded (envelope 0 5 "ok1") [(envelope 0 5 "ok1").respCh] demoStore rfl)
  have h5 : Reachable runMerged :=
    Reachable.step _ _ h4
      (Step.merge runLoaded (envelope 0 5 "ok1") [0] ⟨5, "pending"⟩
        (setStatus (some ⟨5, "pending"⟩) (envelope 0 5 "ok1").endpoint
          (envelope 0 5 "ok1").r 5 (envelope 0 5 "ok1").payload) (by decide))
  have h6 : Reachable runDrained :=
    Reachable.step _ _ h5
      (Step.drainDefault runMerged [0] ⟨5, "ok1"⟩ (by decide) (by
        intro ch clr h
        rw [callers_runMerged] at h
        by_cases hch : ch = 0
        · rw [if_pos hch] at h
          cases h
          simp
        · rw [if_neg hch] at h
          cases h))
  have h7 : Reachable runSaved :=
    Reachable.step _ _ h6 (Step.save runDrained [0] ⟨5, "ok1"⟩ demoStore rfl)
  have h8 : Reachable runAnswered :=
    Reachable.step _ _ h7
      (Step.replySend runSaved 0 [] (some ⟨5, "ok1"⟩) none
        ⟨envelope 0 5 "ok1", none, CallerPC.awaiting⟩ rfl rfl rfl)
  exact Reachable.step _ _ h8
    (Step.returnReply runAnswered 0
      ⟨envelope 0 5 "ok1", none, CallerPC.replied ⟨some ⟨5, "ok1"⟩, none⟩⟩
      ⟨some ⟨5, "ok1"⟩, none⟩ rfl rfl)

/-- What a call that has returned got: in every reachable state of the
callers-plus-worker system and for every call of `UpdateStatus` that has returned
`(st, err)`, exactly one of two things holds. Either the worker never received the
envelope, no response was ever sent on its reply channel, the envelope was never passed
to `statusUpdateFn`, and the call returned a nil record with the error of its request
context, which is done. Or the worker received the envelope, it sent exactly one
response on the reply channel, and `(st, err)` is that response. -/
theorem updateStatus_outcome (s : System) (hs : Reachable s) (ch : Chan) (clr : Caller)
    (st : Option EdgeStack) (err : Option Error)
    (hc : s.callers ch = some clr) (hpc : clr.pc = CallerPC.returned st err) :
    ((clr.msg ∉ received s.log ∧ replies ch s.log = [] ∧ clr.msg ∉ merged s.log ∧
        st = none ∧ err = clr.ctxErr ∧ clr.ctxErr ≠ none) ∨
      (clr.msg ∈ received s.log ∧ replies ch s.log = [⟨st, err⟩])) ∧
    ¬ ((clr.msg ∉ received s.log ∧ replies ch s.log = [] ∧ clr.msg ∉ merged s.log ∧
        st = none ∧ err = clr.ctxErr ∧ clr.ctxErr ≠ none) ∧
      (clr.msg ∈ received s.log ∧ replies ch s.log = [⟨st, err⟩])) := by
  have hinv := inv_of_reachable s hs
  obtain ⟨_, h2⟩ := hinv.callers_ok ch clr hc
  simp only [hpc] at h2
  constructor
  · rcases h2 with ⟨h3, h4, h5, h6⟩ | h3
    · exact Or.inl ⟨h3, replies_of_not_received s hinv ch clr hc h3,
        not_merged_of_not_received s hinv clr.msg h3, h4, h5, h6⟩
    · exact Or.inr h3
  · intro h
    exact h.1.1 h.2.1

/-- A call whose context is cancelled while it waits in its `select` returns
`(nil, context.Canceled)`; the worker never saw its envelope. -/
theorem updateStatus_outcome_witness :
    (((envelope 0 5 "ok1") ∉ received runCancelled.log ∧ replies 0 runCancelled.log = [] ∧
        (envelope 0 5 "ok1") ∉ merged runCancelled.log ∧
        (none : Option EdgeStack) = none ∧ some Error.canceled = some Error.canceled ∧
        some Error.canceled ≠ none) ∨
      ((envelope 0 5 "ok1") ∈ received runCancelled.log ∧
        replies 0 runCancelled.log = [⟨none, some Error.canceled⟩])) ∧
    ¬ (((envelope 0 5 "ok1") ∉ received runCancelled.log ∧ replies 0 runCancelled.log = [] ∧
        (envelope 0 5 "ok1") ∉ merged runCancelled.log ∧
        (none : Option EdgeStack) = none ∧ some Error.canceled = some Error.canceled ∧
        some Error.canceled ≠ none) ∧
      ((envelope 0 5 "ok1") ∈ received runCancelled.log ∧
        replies 0 runCancelled.log = [⟨none, some Error.canceled⟩])) :=
  updateStatus_outcome runCancelled reachable_runCancelled 0
    ⟨envelope 0 5 "ok1", some Error.canceled, CallerPC.returned none (some Error.canceled)⟩
    none (some Error.canceled) rfl rfl

/-- C9: in every reachable state of the callers-plus-worker system the worker has not
panicked on a send to a closed reply channel; every reply channel the worker still has
to send on belongs to a call blocked on the receive of line 159, so it is open; a call
that has returned, whose reply channel is therefore closed, either was never handed to
the worker or has been sent its response; and a call blocked on line 159 leaves it only
by receiving the response the worker sends, whatever happens to its context. -/
theorem reply_channel_safe (s : System) (hs : Reachable s) :
    s.worker ≠ WorkerPC.crashed Crash.sendOnClosed ∧
    (∀ ch ∈ owed s.worker, ∃ clr, s.callers ch = some clr ∧ clr.pc = CallerPC.awaiting) ∧
    (∀ ch clr st err, s.callers ch = some clr → clr.pc = CallerPC.returned st err →
      clr.msg ∉ received s.log ∨ replies ch s.log = [⟨st, err⟩]) ∧
    (∀ t ch clr, Step s t → s.callers ch = some clr → clr.pc = CallerPC.awaiting →
      ∃ clr1, t.callers ch = some clr1 ∧ clr1.msg = clr.msg ∧
        (clr1.pc = CallerPC.awaiting ∨
          ∃ resp, clr1.pc = CallerPC.replied resp ∧
            t.log = s.log ++ [Event.send ch resp])) := by
  have hinv := inv_of_reachable s hs
  refine ⟨hinv.not_sendOnClosed, hinv.owed_awaiting, ?_, ?_⟩
  · intro ch clr st err hc hpc
    obtain ⟨_, h2⟩ := hinv.callers_ok ch clr hc
    simp only [hpc] at h2
    rcases h2 with h3 | h3
    · exact Or.inl h3.1
    · exact Or.inr h3.2
  · intro t ch clr hstep hc hpc
    exact awaiting_step s t hstep ch clr hc hpc

/-- Witness for C9: the run in which one call is handed off, answered with the saved
record, and returns. -/
theorem reply_channel_safe_witness :
    runReturned.worker ≠ WorkerPC.crashed Crash.sendOnClosed ∧
    (∀ ch ∈ owed runReturned.worker,
      ∃ clr, runReturned.callers ch = some clr ∧ clr.pc = CallerPC.awaiting) ∧
    (∀ ch clr st err, runReturned.callers ch = some clr → clr.pc = CallerPC.returned st err →
      clr.msg ∉ received runReturned.log ∨ replies ch runReturned.log = [⟨st, err⟩]) ∧
    (∀ t ch clr, Step runReturned t → runReturned.callers ch = some clr →
      clr.pc = CallerPC.awaiting →
      ∃ clr1, t.callers ch = some clr1 ∧ clr1.msg = clr.msg ∧
        (clr1.pc = CallerPC.awaiting ∨
          ∃ resp, clr1.pc = CallerPC.replied resp ∧
            t.log = runReturned.log ++ [Event.send ch resp])) :=
  reply_channel_safe runReturned reachable_runReturned

/-- Once the worker has panicked it takes no step: it stays as it is, the history does
not grow, and every call at the receive of line 159 stays there, whatever the other
calls and the request contexts do. -/
theorem crashed_step (s t : System) (why : Crash) (hcr : s.worker = WorkerPC.crashed why)
    (hstep : Step s t) :
    t.worker = WorkerPC.crashed why ∧ t.log = s.log ∧
    ∀ ch clr, s.callers ch = some clr → clr.pc = CallerPC.awaiting →
      ∃ clr1, t.callers ch = some clr1 ∧ clr1.msg = clr.msg ∧
        clr1.pc = CallerPC.awaiting := by
  have keep : ∀ (ch2 : Chan) (clr2 clr3 : Caller), s.callers ch2 = some clr2 →
      clr2.pc ≠ CallerPC.awaiting →
      ∀ ch clr, s.callers ch = some clr → clr.pc = CallerPC.awaiting →
        ∃ clr1, (s.put ch2 clr3).callers ch = some clr1 ∧ clr1.msg = clr.msg ∧
          clr1.pc = CallerPC.awaiting := by
    intro ch2 clr2 clr3 h2 hne ch clr hc hpc
    have hch : ch ≠ ch2 := by
      intro heq
      rw [← heq, hc] at h2
      cases h2
      exact hne hpc
    exact ⟨clr, by rw [callers_put, if_neg hch]; exact hc, rfl, hpc⟩
  cases hstep with
  | call msg h2 =>
    refine ⟨hcr, rfl, ?_⟩
    intro ch clr hc hpc
    have hch : ch ≠ msg.respCh := by
      intro heq
      rw [← heq, hc] at h2
      cases h2
    exact ⟨clr, by rw [callers_put, if_neg hch]; exact hc, rfl, hpc⟩
  | enterSelect ch2 clr2 h2 hp2 =>
    exact ⟨hcr, rfl, keep ch2 clr2 _ h2 (by rw [hp2]; simp)⟩
  | ctxDone ch2 clr2 err h2 hctx =>
    refine ⟨hcr, rfl, ?_⟩
    intro ch clr hc hpc
    by_cases hch : ch = ch2
    · subst hch
      rw [hc] at h2
      cases h2
      exact ⟨⟨clr2.msg, some err, clr2.pc⟩, by rw [callers_put, if_pos rfl], rfl, hpc⟩
    · exact ⟨clr, by rw [callers_put, if_neg hch]; exact hc, rfl, hpc⟩
  | abandon ch2 clr2 err h2 hp2 hctx =>
    exact ⟨hcr, rfl, keep ch2 clr2 _ h2 (by rw [hp2]; simp)⟩
  | returnReply ch2 clr2 resp h2 hp2 =>
    exact ⟨hcr, rfl, keep ch2 clr2 _ h2 (by rw [hp2]; simp)⟩
  | returnCancelled ch2 clr2 err h2 hp2 =>
    exact ⟨hcr, rfl, keep ch2 clr2 _ h2 (by rw [hp2]; simp)⟩
  | recvSeed ch2 clr2 hw h2 hp2 => rw [hcr] at hw; cases hw
  | load u respChs tx hw => rw [hcr] at hw; cases hw
  | mergeNil u respChs hw => rw [hcr] at hw; cases hw
  | merge u respChs stack res hw => rw [hcr] at hw; cases hw
  | drainRecv respChs stack ch2 clr2 hw h2 hp2 => rw [hcr] at hw; cases hw
  | drainDefault respChs stack hw hnone => rw [hcr] at hw; cases hw
  | rejectSend x respChs stack clr2 hw h2 hp2 => rw [hcr] at hw; cases hw
  | rejectClosed x respChs stack clr2 st err hw h2 hp2 => rw [hcr] at hw; cases hw
  | save respChs stack tx hw => rw [hcr] at hw; cases hw
  | replySend ch2 todo stack err clr2 hw h2 hp2 => rw [hcr] at hw; cases hw
  | replyClosed ch2 todo stack err clr2 st e hw h2 hp2 => rw [hcr] at hw; cases hw
  | nextRound stack err hw => rw [hcr] at hw; cases hw

theorem reachable_lostCrashed : Reachable lostCrashed := by
  have h2 : Reachable lostSelecting :=
    Reachable.step _ _
      (Reachable.step _ _ Reachable.init (Step.call System.init (envelope 0 7 "ok1") rfl))
      (Step.enterSelect lostEntered 0 ⟨envelope 0 7 "ok1", none, CallerPC.entered⟩ rfl rfl)
  have h3 : Reachable lostSeeded :=
    Reachable.step _ _ h2
      (Step.recvSeed lostSelecting 0 ⟨envelope 0 7 "ok1", none, CallerPC.selecting⟩ rfl rfl rfl)
  have h4 : Reachable lostLoaded :=
    Reachable.step _ _ h3
      (Step.load lostSeeded (envelope 0 7 "ok1") [(envelope 0 7 "ok1").respCh] demoStore rfl)
  exact Reachable.step _ _ h4
    (Step.mergeNil lostLoaded (envelope 0 7 "ok1") [(envelope 0 7 "ok1").respCh] (by decide))

/-- C8, evaluated on one call of `UpdateStatus` for the missing record 7: the state in
which the envelope was handed off and the worker panicked on the nil record at line 72
is reachable, and in every state the system can reach from there the worker is still
panicked, the history is still the receive and the read with no send on the reply
channel, and the call is still at the receive of line 159: it got neither the
cancellation error nor a response, also when its context is cancelled. -/
theorem updateStatus_never_returns :
    Reachable lostCrashed ∧
    ∀ t, Relation.ReflTransGen Step lostCrashed t →
      t.worker = WorkerPC.crashed Crash.nilDeref ∧
      t.log = [Event.recv (envelope 0 7 "ok1"), Event.load 7] ∧
      replies 0 t.log = [] ∧
      ∃ clr, t.callers 0 = some clr ∧ clr.msg = envelope 0 7 "ok1" ∧
        clr.pc = CallerPC.awaiting := by
  refine ⟨reachable_lostCrashed, ?_⟩
  intro t ht
  induction ht with
  | refl =>
    exact ⟨rfl, rfl, rfl, ⟨envelope 0 7 "ok1", none, CallerPC.awaiting⟩, rfl, rfl, rfl⟩
  | tail _ hstep ih =>
    obtain ⟨hw, hlog, hrep, clr, hc, hmsg, hpc⟩ := ih
    obtain ⟨h1, h2, h3⟩ := crashed_step _ _ Crash.nilDeref hw hstep
    obtain ⟨clr1, hc1, hm1, hp1⟩ := h3 0 clr hc hpc
    exact ⟨h1, by rw [h2, hlog], by rw [h2]; exact hrep, clr1, hc1, by rw [hm1, hmsg], hp1⟩

end EdgeStacks
